import Mathlib

/-!
# Hypervisor: EPT table manager and VM-exit handlers

A shallow embedding of `vmm/ept.c` and `vmm/vmexits.c`.

* Kernel memory is a map from kernel virtual byte addresses to 64-bit words.
* The page allocator (`kern/pmap.c`) and the address macros (`inc/mmu.h`,
  `kern/pmap.h`, `inc/ept.h`) are not among the sources; they are modelled from the
  specification and marked as such.
* A C pointer is a natural number, `0` is `NULL`.
* A function that can stop the kernel returns `Except Halt _`.
-/

namespace Hypervisor

/-! ## Machine integers -/

/-- Conversion of a 64-bit value to a C `int` (32 bits, two's complement). -/
def int_of_u64 (x : Nat) : Int :=
  if x % 4294967296 < 2147483648 then ((x % 4294967296 : Nat) : Int)
  else ((x % 4294967296 : Nat) : Int) - 4294967296

/-- Conversion of a C `int` to a 64-bit unsigned value (sign extension). -/
def u64_of_int (i : Int) : Nat := (i % 18446744073709551616).toNat

/-! ## Constants and address macros that the sources include from absent headers -/

/-- Modelled from the spec: `PGSIZE` of `inc/mmu.h` (absent); "each table a page-sized
array of entries", "a 12-bit offset". -/
def PGSIZE : Nat := 4096

/-- Modelled from the spec: `NPTENTRIES` of `inc/mmu.h` (absent); a table is indexed by a
9-bit slice of the address. -/
def NPTENTRIES : Nat := 512

/-- Modelled from the spec: `KERNBASE` of `inc/memlayout.h` (absent), the base of the
host mapping of physical memory. The proofs never look at its value. -/
def KERNBASE : Nat := 0x8004000000

/-- Modelled from the spec: `CGA_BUF` of `kern/console.h` (absent), the physical address
of the legacy display-buffer page. -/
def CGA_BUF : Nat := 0xB8000

/-- Modelled from the spec: `E_INVAL` of `inc/error.h` (absent), InvalidArgument. -/
def E_INVAL : Int := 3

/-- Modelled from the spec: `E_NO_MEM` of `inc/error.h` (absent), OutOfMemory. -/
def E_NO_MEM : Int := 4

/-- Modelled from the spec: `E_NO_ENT` of `inc/error.h` (absent), NotFound. Only its
sign is used. -/
def E_NO_ENT : Int := 18

/-- Modelled from the spec: `ALLOC_ZERO` of `kern/pmap.h` (absent), the allocation flag
asking for a zero-filled page. -/
def ALLOC_ZERO : Nat := 1

/-- Modelled from the spec: `PTE_P` of `inc/mmu.h` (absent), the present flag. -/
def PTE_P : Nat := 1

/-- Modelled from the spec: `__EPTE_READ` of `inc/ept.h` (absent). -/
def __EPTE_READ : Nat := 0x01

/-- Modelled from the spec: `__EPTE_WRITE` of `inc/ept.h` (absent). -/
def __EPTE_WRITE : Nat := 0x02

/-- Modelled from the spec: `__EPTE_EXEC` of `inc/ept.h` (absent). -/
def __EPTE_EXEC : Nat := 0x04

/-- Modelled from the spec: `__EPTE_IPAT` of `inc/ept.h` (absent). -/
def __EPTE_IPAT : Nat := 0x40

/-- Modelled from the spec: `EPTE_TYPE_WB` of `inc/ept.h` (absent), write-back cache
type. -/
def EPTE_TYPE_WB : Nat := 6

/-- Modelled from the spec: `__EPTE_TYPE(n)` of `inc/ept.h` (absent), the cache-type field
in bits 3..5. -/
def __EPTE_TYPE (n : Nat) : Nat := (n &&& 0x7) <<< 3

/-- Modelled from the spec: `__EPTE_FULL` of `inc/ept.h` (absent), the combined
read/write/execute marker. -/
def __EPTE_FULL : Nat := __EPTE_READ ||| __EPTE_WRITE ||| __EPTE_EXEC

/-- Modelled from the spec: `PTE_ADDR(pte)` of `inc/mmu.h` (absent), the page-aligned
frame field of a 64-bit entry. -/
def PTE_ADDR (pte : Nat) : Nat := pte &&& 0xFFFFFFFFFFFFF000

/-- The mask `EPTE_ADDR` of `ept.h`: `~(PGSIZE - 1)`, an `int` widened to 64 bits. -/
def EPTE_ADDR : Nat := 0xFFFFFFFFFFFFF000

/-- The mask `EPTE_FLAGS` of `ept.h`: `PGSIZE - 1`. -/
def EPTE_FLAGS : Nat := PGSIZE - 1

/-- The macro `ADDR_TO_IDX(pa, n)` of `ept.h`. -/
def ADDR_TO_IDX (pa n : Nat) : Nat := (pa >>> (12 + 9 * n)) &&& ((1 <<< 9) - 1)

/-- Modelled from the spec: `PML4(la)` of `inc/mmu.h` (absent), the most significant
9-bit index. -/
def PML4 (la : Nat) : Nat := (la >>> 39) &&& 0x1FF

/-- Modelled from the spec: `PDPE(la)` of `inc/mmu.h` (absent), the second 9-bit index. -/
def PDPE (la : Nat) : Nat := (la >>> 30) &&& 0x1FF

/-- Modelled from the spec: `PDX(la)` of `inc/mmu.h` (absent), the third 9-bit index. -/
def PDX (la : Nat) : Nat := (la >>> 21) &&& 0x1FF

/-- Modelled from the spec: `PTX(la)` of `inc/mmu.h` (absent), the last 9-bit index. -/
def PTX (la : Nat) : Nat := (la >>> 12) &&& 0x1FF

/-- Modelled from the spec: `ROUNDDOWN(a, n)` of `inc/types.h` (absent). -/
def ROUNDDOWN (a n : Nat) : Nat := a - a % n

/-- Modelled from the spec: `KADDR(pa)` of `kern/pmap.h` (absent), the host-mapped
address of a physical address. -/
def KADDR (pa : Nat) : Nat := pa + KERNBASE

/-- Modelled from the spec: `PADDR(kva)` of `kern/pmap.h` (absent), the physical address
behind a host-mapped address (meant for `kva ≥ KERNBASE`). -/
def PADDR (kva : Nat) : Nat := kva - KERNBASE

/-- Modelled from the spec: `page2pa(pp)` of `kern/pmap.h` (absent); a page handle is
its index in the allocator's page array. -/
def page2pa (pp : Nat) : Nat := pp <<< 12

/-- Modelled from the spec: `page2kva(pp)` of `kern/pmap.h` (absent). -/
def page2kva (pp : Nat) : Nat := KADDR (page2pa pp)

/-! ## Kernel state -/

/-- Why the kernel stops instead of returning to its caller. -/
inductive Halt where
  /-- A call of `panic`, also through a failed `assert`. -/
  | panic
  /-- A dereference of a `NULL` or uninitialised pointer. -/
  | fault
  deriving DecidableEq, Repr

/-- The part of the kernel state the EPT code reads and writes. -/
structure KState where
  /-- 64-bit words of memory, by kernel virtual byte address. -/
  mem : Nat → Nat
  /-- The reference count `pages[i].pp_ref`. -/
  pp_ref : Nat → Nat
  /-- The allocator's free list (page indices), next page to hand out first. -/
  page_free_list : List Nat
  /-- The number of pages the allocator tracks. -/
  npages : Nat

/-- Modelled from the spec: `struct vmx_msr_entry` of `vmm/vmx.h` (absent), an
{index, value} pair of the MSR shadow area. -/
structure vmx_msr_entry where
  msr_index : Nat
  msr_value : Nat
  deriving DecidableEq, Repr

/-- Modelled from the spec: `struct VmxGuestInfo` of `vmm/vmx.h` (absent): "total guest
physical memory size, and a guest MSR shadow area (a list of {index, value} pairs) with
count". -/
structure VmxGuestInfo where
  phys_sz : Nat
  msr_count : Int
  msr_guest_area : List vmx_msr_entry
  deriving DecidableEq, Repr

/-- A store of one 64-bit word: `*p = v`. -/
def mem_write (s : KState) (p v : Nat) : KState :=
  { s with mem := fun a => if a = p then v else s.mem a }

/-- The statement `pp->pp_ref++`. -/
def page_incref (s : KState) (pp : Nat) : KState :=
  { s with pp_ref := fun q => if q = pp then s.pp_ref pp + 1 else s.pp_ref q }

/-- The memory after `memset(page2kva(pp), 0, PGSIZE)`. -/
def zero_page (mem : Nat → Nat) (pp : Nat) : Nat → Nat :=
  fun a => if page2kva pp ≤ a ∧ a < page2kva pp + PGSIZE then 0 else mem a

/-- Modelled from the spec: `page_alloc` of `kern/pmap.c` (absent):
"`alloc_zeroed_page() -> Page | OutOfMemory`". It takes the head of the free list, fills
the page with zeros when `ALLOC_ZERO` is asked for, and leaves the reference count to the
caller. `none` is the `NULL` result. -/
def page_alloc (s : KState) (alloc_flags : Nat) : Option (Nat × KState) :=
  match s.page_free_list with
  | [] => none
  | pp :: rest =>
    some (pp, { s with
      page_free_list := rest
      mem := if alloc_flags &&& ALLOC_ZERO ≠ 0 then zero_page s.mem pp else s.mem })

/-- Modelled from the spec: `page_decref` of `kern/pmap.c` (absent): "`decref` with
reclaim at zero"; the page goes back to the free list when its count reaches zero. -/
def page_decref (s : KState) (pp : Nat) : KState :=
  if s.pp_ref pp - 1 = 0 then
    { s with
      pp_ref := fun q => if q = pp then 0 else s.pp_ref q
      page_free_list := pp :: s.page_free_list }
  else
    { s with pp_ref := fun q => if q = pp then s.pp_ref pp - 1 else s.pp_ref q }

/-- Modelled from the spec: `pa2page(pa)` of `kern/pmap.h` (absent): the page handle of a
physical address when it "resolves to an allocator-tracked frame"; `none` is `NULL`. -/
def pa2page (s : KState) (pa : Nat) : Option Nat :=
  if pa >>> 12 < s.npages then some (pa >>> 12) else none

/-! ## vmm/ept.c -/

/-- The physical address of an ept entry. -/
def epte_addr (epte : Nat) : Nat := epte &&& EPTE_ADDR

/-- The host kernel virtual address of an ept entry. -/
def epte_page_vaddr (epte : Nat) : Nat := KADDR (epte_addr epte)

/-- The flags of an ept entry. -/
def epte_flags (epte : Nat) : Nat := epte &&& EPTE_FLAGS

/-- Whether an ept entry's mapping is present: `(epte & __EPTE_FULL) > 0`. -/
def epte_present (epte : Nat) : Bool := decide (epte &&& __EPTE_FULL > 0)

/-- The function `epgdir_walk`: the page-directory level of the walk. The result is the
new state and the returned pointer. -/
def epgdir_walk (s : KState) (pgdir va : Nat) (create : Int) : KState × Nat :=
  let index_in_pgdir := PDX va
  let offsetd_ptr_in_pgdir := pgdir + 8 * index_in_pgdir
  let page_table_base := PTE_ADDR (s.mem offsetd_ptr_in_pgdir)
  if page_table_base = 0 then
    if create = 0 then (s, 0)
    else
      match page_alloc s ALLOC_ZERO with
      | none => (s, 0)
      | some (newPage, s1) =>
        let s2 := page_incref s1 newPage
        let page_table_base := page2pa newPage
        let s3 := mem_write s2 offsetd_ptr_in_pgdir (page_table_base ||| __EPTE_FULL)
        (s3, KADDR (page_table_base + 8 * PTX va))
  else
    (s, KADDR (page_table_base + 8 * PTX va))

/-- Modelled from the spec: the host kernel's `pgdir_walk` of `kern/pmap.c` (absent),
which `epdpe_walk` calls on the page directory it has just allocated: "an empty slot with
create=true allocates a zero-filled table page, marks the parent slot present+full-access,
and descends"; "allocation failure at any level yields OutOfMemory". -/
def pgdir_walk (s : KState) (pgdir va : Nat) (create : Int) : KState × Nat :=
  let slot := pgdir + 8 * PDX va
  let page_table_base := PTE_ADDR (s.mem slot)
  if page_table_base = 0 then
    if create = 0 then (s, 0)
    else
      match page_alloc s ALLOC_ZERO with
      | none => (s, 0)
      | some (newPage, s1) =>
        let s2 := page_incref s1 newPage
        let s3 := mem_write s2 slot (page2pa newPage ||| __EPTE_FULL)
        (s3, KADDR (page2pa newPage + 8 * PTX va))
  else
    (s, KADDR (page_table_base + 8 * PTX va))

/-- The function `epdpe_walk`: the page-directory-pointer level of the walk. -/
def epdpe_walk (s : KState) (pdpe va : Nat) (create : Int) : KState × Nat :=
  let index_in_pdpt := PDPE va
  let offsetd_ptr_in_pdpt := pdpe + 8 * index_in_pdpt
  let pgdir_base := PTE_ADDR (s.mem offsetd_ptr_in_pdpt)
  if pgdir_base = 0 then
    if create = 0 then (s, 0)
    else
      match page_alloc s ALLOC_ZERO with
      | none => (s, 0)
      | some (newPage, s1) =>
        let s2 := page_incref s1 newPage
        let pgdir_base := page2pa newPage
        match pgdir_walk s2 (page2kva newPage) va create with
        | (s3, pte) =>
          if pte = 0 then (page_decref s3 newPage, 0)
          else (mem_write s3 offsetd_ptr_in_pdpt (pgdir_base ||| __EPTE_FULL), pte)
  else
    epgdir_walk s (KADDR pgdir_base) va create

/-- The function `epml4e_walk`: the root level of the walk. -/
def epml4e_walk (s : KState) (pml4e va : Nat) (create : Int) : KState × Nat :=
  let index_in_pml4t := PML4 va
  let offsetd_ptr_in_pml4t := pml4e + 8 * index_in_pml4t
  let pdpt_base := PTE_ADDR (s.mem offsetd_ptr_in_pml4t)
  if pdpt_base = 0 then
    if create = 0 then (s, 0)
    else
      match page_alloc s ALLOC_ZERO with
      | none => (s, 0)
      | some (newPage, s1) =>
        let s2 := page_incref s1 newPage
        let pdpt_base := page2pa newPage
        match epdpe_walk s2 (page2kva newPage) va create with
        | (s3, pte) =>
          if pte = 0 then (page_decref s3 newPage, 0)
          else (mem_write s3 offsetd_ptr_in_pml4t (pdpt_base ||| __EPTE_FULL), pte)
  else
    epdpe_walk s (KADDR pdpt_base) va create

/-- The function `ept_lookup_gpa`. The result is the new state, the returned `int` and
what was stored in `*epte_out` (`none` when nothing was stored). -/
def ept_lookup_gpa (s : KState) (eptrt gpa : Nat) (create : Int) :
    KState × Int × Option Nat :=
  if eptrt = 0 then (s, -E_INVAL, none)
  else
    match epml4e_walk s eptrt gpa create with
    | (s1, pte) =>
      if pte = 0 then
        (s1, if create = 0 then -E_NO_ENT else -E_NO_MEM, some 0)
      else (s1, 0, some pte)

/-- The function `ept_gpa2hva`. The result is the new state and the value stored in
`*hva`. Reading `*pte` faults when `pte` is `NULL` or was never assigned. -/
def ept_gpa2hva (s : KState) (eptrt gpa : Nat) : Except Halt (KState × Nat) :=
  match ept_lookup_gpa s eptrt gpa 0 with
  | (s1, ret, pte) =>
    if ret < 0 then .ok (s1, 0)
    else
      match pte with
      | none => .error Halt.fault
      | some p =>
        if p = 0 then .error Halt.fault
        else if ¬ epte_present (s1.mem p) then .ok (s1, 0)
        else .ok (s1, KADDR (epte_addr (s1.mem p)))

/-- The call `page_decref(pa2page(pa))`, which faults on a `NULL` page. -/
def decref_pa (s : KState) (pa : Nat) : Except Halt KState :=
  match pa2page s pa with
  | none => .error Halt.fault
  | some pp => .ok (page_decref s pp)

/-- The function `free_ept_level`: the loop over the `NPTENTRIES` slots of the table at
`eptrt`, at `level` (3 for the root, 0 for a page table). -/
def free_ept_level : Nat → KState → Nat → Except Halt KState
  | 0, s, eptrt =>
    (List.range NPTENTRIES).foldlM
      (fun s i =>
        if epte_present (s.mem (eptrt + 8 * i)) then
          decref_pa s (epte_addr (s.mem (eptrt + 8 * i)))
        else .ok s) s
  | level + 1, s, eptrt =>
    (List.range NPTENTRIES).foldlM
      (fun s i =>
        if epte_present (s.mem (eptrt + 8 * i)) then
          match free_ept_level level s (KADDR (epte_addr (s.mem (eptrt + 8 * i)))) with
          | .error e => .error e
          | .ok s1 => decref_pa s1 (epte_addr (s.mem (eptrt + 8 * i)))
        else .ok s) s

/-- The constant `EPT_LEVELS` of `ept.h`. -/
def EPT_LEVELS : Nat := 4

/-- The function `free_guest_mem`. -/
def free_guest_mem (s : KState) (eptrt : Nat) : Except Halt KState :=
  free_ept_level (EPT_LEVELS - 1) s eptrt

/-- The function `ept_map_hva2gpa`. The result of `ept_lookup_gpa` is not looked at;
`*pte` is read (and written) whatever it is. -/
def ept_map_hva2gpa (s : KState) (eptrt hva gpa : Nat) (perm overwrite : Int) :
    Except Halt (KState × Int) :=
  let ptr : Int := int_of_u64 (PADDR hva)
  match pa2page s (u64_of_int ptr) with
  | none => .ok (s, -E_INVAL)
  | some _ =>
    match ept_lookup_gpa s eptrt gpa 1 with
    | (s1, _, pte) =>
      match pte with
      | none => .error Halt.fault
      | some p =>
        if p = 0 then .error Halt.fault
        else if overwrite = 0 ∧ s1.mem p ≠ 0 then .ok (s1, -E_INVAL)
        else if overwrite ≠ 0 ∨ s1.mem p = 0 then
          .ok (mem_write s1 p
            (PTE_ADDR (u64_of_int ptr) ||| PTE_P ||| u64_of_int perm ||| __EPTE_IPAT
              ||| __EPTE_TYPE EPTE_TYPE_WB), 0)
        else .ok (s1, 0)

/-- The function `ept_page_insert`. -/
def ept_page_insert (s : KState) (eptrt pp gpa : Nat) (perm : Int) :
    Except Halt (KState × Int) :=
  match ept_map_hva2gpa s eptrt (page2kva pp) gpa perm 1 with
  | .error e => .error e
  | .ok (s1, r) =>
    if r < 0 then .ok (s1, -E_NO_MEM)
    else .ok (page_incref s1 pp, 0)

/-! ## vmm/vmexits.c -/

/-- The function `handle_eptviolation`; `gpa` is the value read from the control
structure field `VMCS_64BIT_GUEST_PHYSICAL_ADDR`. A failed `assert` is a panic. -/
def handle_eptviolation (s : KState) (eptrt : Nat) (ginfo : VmxGuestInfo) (gpa : Nat) :
    Except Halt (KState × Bool) :=
  if gpa < 0xA0000 ∨ (gpa ≥ 0x100000 ∧ gpa < ginfo.phys_sz) then
    match page_alloc s 0 with
    | none => .ok (s, false)
    | some (p, s1) =>
      let s2 := page_incref s1 p
      match ept_map_hva2gpa s2 eptrt (page2kva p) (ROUNDDOWN gpa PGSIZE)
          (__EPTE_FULL : Nat) 0 with
      | .error e => .error e
      | .ok (s3, r) =>
        if r ≥ 0 then .ok (s3, true) else .error Halt.panic
  else if gpa ≥ CGA_BUF ∧ gpa < CGA_BUF + PGSIZE then
    match ept_map_hva2gpa s eptrt (KERNBASE + CGA_BUF) CGA_BUF (__EPTE_FULL : Nat) 0 with
    | .error e => .error e
    | .ok (s1, r) =>
      if r ≥ 0 then .ok (s1, true) else .error Halt.panic
  else .ok (s, false)

/-! ### Registers, control structure and the remaining handlers -/

/-- Modelled from the spec: `struct PushRegs` of `inc/trap.h` (absent), "the guest's
captured general-purpose registers". -/
structure PushRegs where
  reg_r15 : Nat
  reg_r14 : Nat
  reg_r13 : Nat
  reg_r12 : Nat
  reg_r11 : Nat
  reg_r10 : Nat
  reg_r9 : Nat
  reg_r8 : Nat
  reg_rsi : Nat
  reg_rdi : Nat
  reg_rbp : Nat
  reg_rdx : Nat
  reg_rcx : Nat
  reg_rbx : Nat
  reg_rax : Nat
  deriving DecidableEq, Repr

/-- Modelled from the spec: `struct Trapframe` of `inc/trap.h` (absent), the register
snapshot with the guest instruction pointer. -/
structure Trapframe where
  tf_regs : PushRegs
  tf_rip : Nat
  deriving DecidableEq, Repr

/-- Modelled from the spec: the control structure behind `vmcs_read32`, `vmcs_read64`
and `vmcs_write32` (`vmm/vmx.h`, absent): "typed read/write of exit reason, exit
qualification, faulting guest-physical address, trapped-instruction length, and
entry-control fields". `vmentry_writes` counts the writes of the entry controls. -/
structure Vmcs where
  exit_qualification : Nat
  guest_physical_addr : Nat
  instruction_length : Nat
  vmentry_controls : Nat
  vmentry_writes : Nat
  deriving DecidableEq, Repr

/-- Modelled from the spec: `struct Env` of `inc/env.h` (absent), as far as the
hypercall bridge reads it: "searching host process state for a matching service
type". -/
structure Env where
  env_id : Int
  env_type : Nat
  deriving DecidableEq, Repr

/-- Modelled from the spec: `memory_map_t` of `kern/multiboot.h` (absent): "fixed
fields {size, base_low, base_high, length_low, length_high, type}, each 4 bytes". -/
structure memory_map_t where
  size : Nat
  base_addr_low : Nat
  base_addr_high : Nat
  length_low : Nat
  length_high : Nat
  type : Nat
  deriving DecidableEq, Repr

/-- Modelled from the spec: `multiboot_info_t` of `kern/multiboot.h` (absent), the
fields `handle_vmcall` assigns. -/
structure multiboot_info_t where
  flags : Nat
  mem_lower : Nat
  mem_upper : Nat
  boot_device : Nat
  cmdline : Nat
  mods_count : Nat
  mods_addr : Nat
  mmap_length : Nat
  mmap_addr : Nat
  deriving DecidableEq, Repr

/-- Modelled from the spec: `EFER_MSR` of `vmm/vmx.h` (absent), the index of the
extended-feature register. -/
def EFER_MSR : Nat := 0xC0000080

/-- Modelled from the spec: `EFER_LME` of `vmm/vmx.h` (absent), the position of the
long-mode-enable bit. -/
def EFER_LME : Nat := 8

/-- Modelled from the spec: `VMCS_VMENTRY_x64_GUEST` of `vmm/vmx.h` (absent), the
"64-bit guest" entry-control bit. -/
def VMCS_VMENTRY_x64_GUEST : Nat := 1 <<< 9

/-- Modelled from the spec: the macro `BIT(val, bit)` of `vmm/vmx.h` (absent). -/
def BIT (val bit : Nat) : Nat := (val >>> bit) &&& 1

/-- Modelled from the spec: `IO_RTC` of `kern/kclock.h` (absent), the index-latch
port. -/
def IO_RTC : Nat := 0x70

/-- Modelled from the spec: `NVRAM_BASELO` of `kern/kclock.h` (absent). -/
def NVRAM_BASELO : Int := 0x15

/-- Modelled from the spec: `NVRAM_BASEHI` of `kern/kclock.h` (absent). -/
def NVRAM_BASEHI : Int := 0x16

/-- Modelled from the spec: `NVRAM_EXTLO` of `kern/kclock.h` (absent). -/
def NVRAM_EXTLO : Int := 0x17

/-- Modelled from the spec: `NVRAM_EXTHI` of `kern/kclock.h` (absent). -/
def NVRAM_EXTHI : Int := 0x18

/-- Modelled from the spec: `VMX_VMCALL_MBMAP` of `inc/vmx.h` (absent), the request
code of the memory-map query. -/
def VMX_VMCALL_MBMAP : Nat := 1

/-- Modelled from the spec: `VMX_VMCALL_IPCSEND` of `inc/vmx.h` (absent), the request
code of message send. -/
def VMX_VMCALL_IPCSEND : Nat := 2

/-- Modelled from the spec: `VMX_VMCALL_IPCRECV` of `inc/vmx.h` (absent), the request
code of message receive. -/
def VMX_VMCALL_IPCRECV : Nat := 3

/-- Modelled from the spec: `VMX_HOST_FS_ENV` of `inc/vmx.h` (absent), the reserved
"host filesystem service" destination token. -/
def VMX_HOST_FS_ENV : Int := 1

/-- Modelled from the spec: `ENV_TYPE_FS` of `inc/env.h` (absent), the service type of
the host filesystem environment. -/
def ENV_TYPE_FS : Nat := 2

/-- Modelled from the spec: `MB_TYPE_USABLE` of `kern/multiboot.h` (absent). -/
def MB_TYPE_USABLE : Nat := 1

/-- Modelled from the spec: `MB_TYPE_RESERVED` of `kern/multiboot.h` (absent). -/
def MB_TYPE_RESERVED : Nat := 2

/-- Modelled from the spec: `MB_FLAG_MMAP` of `kern/multiboot.h` (absent). -/
def MB_FLAG_MMAP : Nat := 0x40

/-- Modelled from the spec: `sizeof(memory_map_t)`, six fields of 4 bytes. -/
def sizeof_memory_map_t : Nat := 24

/-- Modelled from the spec: `sizeof(multiboot_info_t)` of `kern/multiboot.h` (absent):
nine 4-byte fields and the 16-byte symbol-table union. -/
def sizeof_multiboot_info_t : Nat := 52

/-- The statement `tf->tf_rip += vmcs_read32(VMCS_32BIT_VMEXIT_INSTRUCTION_LENGTH)`, on
a 64-bit instruction pointer. -/
def advance_rip (tf : Trapframe) (vmcs : Vmcs) : Trapframe :=
  { tf with tf_rip := (tf.tf_rip + vmcs.instruction_length % 4294967296)
      % 18446744073709551616 }

/-- The loop of `find_msr_in_region` with `n` iterations left. The pointer `entry` is
compared in every iteration and never moved. Entries the area does not hold read as
zero. -/
def find_msr_scan (msr_idx : Nat) (area : List vmx_msr_entry) (entry : Nat) :
    Nat → Bool × Option Nat
  | 0 => (false, none)
  | n + 1 =>
    if (area.getD entry ⟨0, 0⟩).msr_index = msr_idx then (true, some entry)
    else find_msr_scan msr_idx area entry n

/-- The function `find_msr_in_region`. The result is the returned `bool` and the
position in the area of the entry stored in `*msr_entry` (`none` when nothing was
stored). -/
def find_msr_in_region (msr_idx : Nat) (area : List vmx_msr_entry) (area_sz : Int) :
    Bool × Option Nat :=
  find_msr_scan msr_idx area 0 area_sz.toNat

/-- The function `handle_rdmsr`. -/
def handle_rdmsr (tf : Trapframe) (ginfo : VmxGuestInfo) (vmcs : Vmcs) :
    Except Halt (Trapframe × Bool) :=
  let msr := tf.tf_regs.reg_rcx
  if msr = EFER_MSR then
    match find_msr_in_region (msr % 4294967296) ginfo.msr_guest_area ginfo.msr_count with
    | (r, entry) =>
      if r = false then .error Halt.panic
      else
        match entry with
        | none => .error Halt.fault
        | some e =>
          let val := (ginfo.msr_guest_area.getD e ⟨0, 0⟩).msr_value
          let tf1 := { tf with tf_regs := { tf.tf_regs with
            reg_rdx := (val <<< 32) % 18446744073709551616 } }
          let tf2 := { tf1 with tf_regs := { tf1.tf_regs with
            reg_rax := val &&& 0xFFFFFFFF } }
          .ok (advance_rip tf2 vmcs, true)
  else .ok (tf, false)

/-- The function `handle_wrmsr`. The result is the register snapshot, the guest
configuration with its MSR shadow area, the control structure and the returned
`bool`. -/
def handle_wrmsr (tf : Trapframe) (ginfo : VmxGuestInfo) (vmcs : Vmcs) :
    Except Halt (Trapframe × VmxGuestInfo × Vmcs × Bool) :=
  let msr := tf.tf_regs.reg_rcx
  if msr = EFER_MSR then
    match find_msr_in_region (msr % 4294967296) ginfo.msr_guest_area ginfo.msr_count with
    | (r, entry) =>
      if r = false then .error Halt.panic
      else
        match entry with
        | none => .error Halt.fault
        | some e =>
          let cur_val := (ginfo.msr_guest_area.getD e ⟨0, 0⟩).msr_value
          let new_val := ((tf.tf_regs.reg_rdx <<< 32) % 18446744073709551616)
            ||| tf.tf_regs.reg_rax
          let vmcs1 :=
            if BIT cur_val EFER_LME = 0 ∧ BIT new_val EFER_LME = 1 then
              { vmcs with
                vmentry_controls :=
                  (vmcs.vmentry_controls % 4294967296) ||| VMCS_VMENTRY_x64_GUEST
                vmentry_writes := vmcs.vmentry_writes + 1 }
            else vmcs
          let ginfo1 := { ginfo with
            msr_guest_area := ginfo.msr_guest_area.set e
              { (ginfo.msr_guest_area.getD e ⟨0, 0⟩) with msr_value := new_val } }
          .ok (advance_rip tf vmcs1, ginfo1, vmcs1, true)
  else .ok (tf, ginfo, vmcs, false)

/-- The function `handle_ioinstr`; `port_iortc` is its static variable. The result is
the new value of `port_iortc`, the register snapshot and the returned `bool`. -/
def handle_ioinstr (port_iortc : Int) (tf : Trapframe) (ginfo : VmxGuestInfo)
    (vmcs : Vmcs) : Int × Trapframe × Bool :=
  let qualification := vmcs.exit_qualification
  let port_number := (qualification >>> 16) &&& 0xFFFF
  let is_in := BIT qualification 3 ≠ 0
  let ext := (ginfo.phys_sz / 1024 + 18446744073709551616 - 1024) % 18446744073709551616
  let set_rax := fun (v : Nat) => { tf with tf_regs := { tf.tf_regs with reg_rax := v } }
  if port_number = IO_RTC then
    if ¬ is_in then
      (int_of_u64 tf.tf_regs.reg_rax, advance_rip tf vmcs, true)
    else (port_iortc, tf, false)
  else if port_number = IO_RTC + 1 then
    if is_in then
      if port_iortc = NVRAM_BASELO then
        (port_iortc, advance_rip (set_rax (640 &&& 0xFF)) vmcs, true)
      else if port_iortc = NVRAM_BASEHI then
        (port_iortc, advance_rip (set_rax ((640 >>> 8) &&& 0xFF)) vmcs, true)
      else if port_iortc = NVRAM_EXTLO then
        (port_iortc, advance_rip (set_rax (ext &&& 0xFF)) vmcs, true)
      else if port_iortc = NVRAM_EXTHI then
        (port_iortc, advance_rip (set_rax ((ext >>> 8) &&& 0xFF)) vmcs, true)
      else (port_iortc, tf, false)
    else (port_iortc, tf, false)
  else (port_iortc, tf, false)

/-- The function `handle_cpuid`; `cpuid` is the processor's identification query, from
the leaf in `eax` to the four output registers, each kept in a `uint32_t`. -/
def handle_cpuid (cpuid : Nat → Nat × Nat × Nat × Nat) (tf : Trapframe) (vmcs : Vmcs) :
    Trapframe × Bool :=
  let temp : Int := int_of_u64 tf.tf_regs.reg_rax
  match cpuid (u64_of_int temp % 4294967296) with
  | (a, b, c, d) =>
    let eax := a % 4294967296
    let ebx := b % 4294967296
    let ecx := c % 4294967296
    let edx := d % 4294967296
    let ecx := if temp = 1 then ecx &&& 0xFFFFFFDF else ecx
    let tf1 := { tf with tf_regs := { tf.tf_regs with
      reg_rax := eax, reg_rbx := ebx, reg_rcx := ecx, reg_rdx := edx } }
    (advance_rip tf1 vmcs, true)

/-- The three memory-map entries `handle_vmcall` builds in `mmap_list`. -/
def mbmap_mmap_list (gInfo : VmxGuestInfo) : List memory_map_t :=
  [ { size := 20, base_addr_low := 0, base_addr_high := 0, length_low := 0x000A0000,
      length_high := 0, type := MB_TYPE_USABLE },
    { size := 20, base_addr_low := 0x000A0000, base_addr_high := 0,
      length_low := 384 * 1024, length_high := 0, type := MB_TYPE_RESERVED },
    { size := 20, base_addr_low := 0x00100000, base_addr_high := 0,
      length_low := ((gInfo.phys_sz + 18446744073709551616 - 1024 * 1024)
        % 18446744073709551616) % 4294967296,
      length_high := 0, type := MB_TYPE_USABLE } ]

/-- The header `handle_vmcall` builds in `mbinfo`; `multiboot_map_addr` is `0x6000`. -/
def mbmap_mbinfo : multiboot_info_t :=
  { flags := MB_FLAG_MMAP, mem_lower := 0, mem_upper := 0, boot_device := 0,
    cmdline := 0, mods_count := 0, mods_addr := 0,
    mmap_length := 3 * sizeof_memory_map_t,
    mmap_addr := 0x6000 + sizeof_multiboot_info_t }

/-- The loop of the message-send hypercall over the environment table: the `env_id`
of the first environment of type `ENV_TYPE_FS`, else the unchanged `to_env`. -/
def resolve_fs_env (envs : List Env) (to_env : Int) : Int :=
  match envs with
  | [] => to_env
  | e :: rest => if e.env_type = ENV_TYPE_FS then e.env_id else resolve_fs_env rest to_env

/-- The function `handle_vmcall`. `envs` is the environment table (`NENV` entries),
`ipc_send` and `ipc_recv` are the host's message transport behind
`syscall(SYS_ipc_try_send, ...)` and `syscall(SYS_ipc_recv, ...)`, for calls that
return. Both `memcpy` calls of the memory-map case have the local variable as their
destination and the new page as their source, so they store nothing in memory. -/
def handle_vmcall (s : KState) (tf : Trapframe) (gInfo : VmxGuestInfo) (eptrt : Nat)
    (vmcs : Vmcs) (envs : List Env) (ipc_send : Nat → Nat → Nat → Nat → Int)
    (ipc_recv : Nat → Int) : Except Halt (KState × Trapframe × Bool) :=
  if tf.tf_regs.reg_rax = VMX_VMCALL_MBMAP then
    let _mmap_list := mbmap_mmap_list gInfo
    let _mbinfo := mbmap_mbinfo
    match page_alloc s 0 with
    | none => .ok (s, tf, false)
    | some (p, s1) =>
      let s2 := page_incref s1 p
      match ept_map_hva2gpa s2 eptrt (page2kva p) 0x6000 (__EPTE_FULL : Nat) 1 with
      | .error e => .error e
      | .ok (s3, _) =>
        let tf1 := { tf with tf_regs := { tf.tf_regs with reg_rbx := 0x6000 } }
        .ok (s3, advance_rip tf1 vmcs, true)
  else if tf.tf_regs.reg_rax = VMX_VMCALL_IPCSEND then
    let to_env : Int := int_of_u64 tf.tf_regs.reg_rdx
    let to_env := if to_env = VMX_HOST_FS_ENV then resolve_fs_env envs to_env else to_env
    let r := ipc_send (u64_of_int to_env) tf.tf_regs.reg_rcx tf.tf_regs.reg_rbx
      tf.tf_regs.reg_rdi
    let tf1 := { tf with tf_regs := { tf.tf_regs with reg_rax := u64_of_int r } }
    .ok (s, advance_rip tf1 vmcs, true)
  else if tf.tf_regs.reg_rax = VMX_VMCALL_IPCRECV then
    let tf1 := advance_rip tf vmcs
    let r1 := ipc_recv tf1.tf_regs.reg_rdx
    let tf2 := { tf1 with tf_regs := { tf1.tf_regs with reg_rax := u64_of_int r1 } }
    .ok (s, advance_rip tf2 vmcs, true)
  else .ok (s, tf, false)

/-! ### `ept_alloc_static` (vmm/ept.c) -/

/-- One iteration of the loops of `ept_alloc_static`, at guest-physical address `i`.
The page `page_alloc` returns is not checked, so `p->pp_ref += 1` faults when it is
`NULL`; the result `r` of the map is not looked at. -/
def alloc_static_step (eptrt : Nat) (s : KState) (i : Nat) : Except Halt KState :=
  match page_alloc s 0 with
  | none => .error Halt.fault
  | some (p, s1) =>
    match ept_map_hva2gpa (page_incref s1 p) eptrt (page2kva p) i (__EPTE_FULL : Nat) 0 with
    | .error e => .error e
    | .ok (s2, _) => .ok s2

/-- The values of `i` in `for (i = lo; i < hi; i += PGSIZE)`, in order, for a bound `hi`
that the 64-bit counter reaches without wrapping. -/
def static_range (lo hi : Nat) : List Nat :=
  (List.range ((hi - lo + (PGSIZE - 1)) / PGSIZE)).map fun k => lo + k * PGSIZE

/-- The function `ept_alloc_static`. -/
def ept_alloc_static (s : KState) (eptrt : Nat) (ginfo : VmxGuestInfo) :
    Except Halt (KState × Int) :=
  match (static_range 0x0 0xA0000).foldlM (alloc_static_step eptrt) s with
  | .error e => .error e
  | .ok s1 =>
    match (static_range 0x100000 ginfo.phys_sz).foldlM (alloc_static_step eptrt) s1 with
    | .error e => .error e
    | .ok s2 => .ok (s2, 0)

/-! ## Vocabulary of the proofs -/

/-- The read-only walk. -/
def walk_ro (mem : Nat → Nat) : Nat → Nat → Nat → Option Nat
  | 0, t, gpa => some (t + 8 * ADDR_TO_IDX gpa 0)
  | n + 1, t, gpa =>
    if PTE_ADDR (mem (t + 8 * ADDR_TO_IDX gpa (n + 1))) = 0 then none
    else walk_ro mem n (KADDR (PTE_ADDR (mem (t + 8 * ADDR_TO_IDX gpa (n + 1))))) gpa

def walk_create : Nat → KState → Nat → Nat → KState × Nat
  | 0, s, t, gpa => (s, t + 8 * ADDR_TO_IDX gpa 0)
  | n + 1, s, t, gpa =>
    if PTE_ADDR (s.mem (t + 8 * ADDR_TO_IDX gpa (n + 1))) = 0 then
      match page_alloc s ALLOC_ZERO with
      | none => (s, 0)
      | some (f, s1) =>
        match walk_create n (page_incref s1 f) (page2kva f) gpa with
        | (s3, pte) =>
          if pte = 0 then (page_decref s3 f, 0)
          else (mem_write s3 (t + 8 * ADDR_TO_IDX gpa (n + 1)) (page2pa f ||| __EPTE_FULL), pte)
    else walk_create n s (KADDR (PTE_ADDR (s.mem (t + 8 * ADDR_TO_IDX gpa (n + 1))))) gpa

/-- The number of table pages the lookup of `gpa` has to create below table `t`, which
is `n` levels above the page tables. -/
def missing_tables (mem : Nat → Nat) : Nat → Nat → Nat → Nat
  | 0, _, _ => 0
  | n + 1, t, gpa =>
    if PTE_ADDR (mem (t + 8 * ADDR_TO_IDX gpa (n + 1))) = 0 then n + 1
    else missing_tables mem n (KADDR (PTE_ADDR (mem (t + 8 * ADDR_TO_IDX gpa (n + 1))))) gpa

/-- The leaf entry the read-only walk of `gpa` ends at, `0` when a level is missing. -/
def leaf_entry (mem : Nat → Nat) (n t gpa : Nat) : Nat :=
  match walk_ro mem n t gpa with
  | none => 0
  | some p => mem p

/-- The host address `ept_gpa2hva` derives from a leaf entry. -/
def hva_of_entry (e : Nat) : Nat :=
  if epte_present e then KADDR (epte_addr e) else 0

/-- Whether a call returned to its caller. -/
def returned {α : Type} (r : Except Halt α) : Bool :=
  match r with
  | .ok _ => true
  | .error _ => false

/-- The reason a call stopped the kernel, if it did. -/
def halt_of {α : Type} (r : Except Halt α) : Option Halt :=
  match r with
  | .ok _ => none
  | .error e => some e

/-- The value a call returned, without the state. -/
def value_of {α : Type} (r : Except Halt (KState × α)) : Option α :=
  match r with
  | .ok (_, a) => some a
  | .error _ => none

/-- The state a call left behind, `d` when it did not return. -/
def state_of {α : Type} (r : Except Halt (KState × α)) (d : KState) : KState :=
  match r with
  | .ok (s, _) => s
  | .error _ => d

/-- Address `a` lies in the host mapping of page `pp`. -/
def in_page (pp a : Nat) : Prop := page2kva pp ≤ a ∧ a < page2kva pp + PGSIZE

instance (pp a : Nat) : Decidable (in_page pp a) := by
  unfold in_page; infer_instance

/-- The slot addresses the read-only walk of `gpa` reads below table `t`: one per
level, down to the first empty slot or to the leaf slot. -/
def walk_slots (mem : Nat → Nat) : Nat → Nat → Nat → List Nat
  | 0, t, gpa => [t + 8 * ADDR_TO_IDX gpa 0]
  | n + 1, t, gpa =>
    (t + 8 * ADDR_TO_IDX gpa (n + 1)) ::
      (if PTE_ADDR (mem (t + 8 * ADDR_TO_IDX gpa (n + 1))) = 0 then []
       else walk_slots mem n (KADDR (PTE_ADDR (mem (t + 8 * ADDR_TO_IDX gpa (n + 1))))) gpa)

/-- Page `x` holds a table of the tree below the table in page `q`, which is `n` levels
above the page tables. -/
def in_subtree (mem : Nat → Nat) : Nat → Nat → Nat → Prop
  | 0, q, x => x = q
  | n + 1, q, x =>
    x = q ∨ ∃ i, i < 512 ∧ PTE_ADDR (mem (page2kva q + 8 * i)) ≠ 0 ∧
      in_subtree mem n (PTE_ADDR (mem (page2kva q + 8 * i)) >>> 12) x

/-- The tables below the table in page `q` form a tree: no table lies below itself and
the subtrees behind two different slots of a table share no table page. -/
def tree_wf (mem : Nat → Nat) : Nat → Nat → Prop
  | 0, _ => True
  | n + 1, q =>
    (∀ i, i < 512 → PTE_ADDR (mem (page2kva q + 8 * i)) ≠ 0 →
      tree_wf mem n (PTE_ADDR (mem (page2kva q + 8 * i)) >>> 12) ∧
      ¬ in_subtree mem n (PTE_ADDR (mem (page2kva q + 8 * i)) >>> 12) q) ∧
    ∀ i j, i < 512 → j < 512 → i ≠ j →
      PTE_ADDR (mem (page2kva q + 8 * i)) ≠ 0 → PTE_ADDR (mem (page2kva q + 8 * j)) ≠ 0 →
      ∀ x, in_subtree mem n (PTE_ADDR (mem (page2kva q + 8 * i)) >>> 12) x →
        ¬ in_subtree mem n (PTE_ADDR (mem (page2kva q + 8 * j)) >>> 12) x

/-- The state a state-only call left behind, `d` when it did not return. -/
def kstate_of (r : Except Halt KState) (d : KState) : KState :=
  match r with
  | .ok s => s
  | .error _ => d

/-! ## Example states -/

/-- An empty table tree rooted at page 6, with the given free list. -/
def example_empty (free : List Nat) : KState :=
  { mem := fun _ => 0, pp_ref := fun _ => 0, page_free_list := free, npages := 16 }

/-- A tree rooted at page 6 with tables in pages 1, 2, 3 that maps guest-physical
`0x1000` to page 7; pages 4 and 5 are free. -/
def example_mapped : KState :=
  { mem := fun a =>
      if a = page2kva 6 then page2pa 1 ||| 7
      else if a = page2kva 1 then page2pa 2 ||| 7
      else if a = page2kva 2 then page2pa 3 ||| 7
      else if a = page2kva 3 + 8 then page2pa 7 ||| 0x77
      else 0
    pp_ref := fun q => if q = 1 ∨ q = 2 ∨ q = 3 ∨ q = 6 ∨ q = 7 then 1 else 0
    page_free_list := [4, 5]
    npages := 16 }

/-- A guest configuration with 16 MiB of guest-physical memory. -/
def example_ginfo : VmxGuestInfo :=
  { phys_sz := 0x1000000, msr_count := 0, msr_guest_area := [] }

/-- A register snapshot with the given `rax`, `rbx`, `rcx`, `rdx` and instruction
pointer, the other registers zero. -/
def example_tf (rax rbx rcx rdx rip : Nat) : Trapframe :=
  { tf_regs := { reg_r15 := 0, reg_r14 := 0, reg_r13 := 0, reg_r12 := 0, reg_r11 := 0,
                 reg_r10 := 0, reg_r9 := 0, reg_r8 := 0, reg_rsi := 0, reg_rdi := 0,
                 reg_rbp := 0, reg_rdx := rdx, reg_rcx := rcx, reg_rbx := rbx,
                 reg_rax := rax },
    tf_rip := rip }

/-- A control structure with the given exit qualification and a trapped instruction of
3 bytes. -/
def example_vmcs (qualification : Nat) : Vmcs :=
  { exit_qualification := qualification, guest_physical_addr := 0,
    instruction_length := 3, vmentry_controls := 0, vmentry_writes := 0 }

/-- A guest configuration whose MSR shadow area holds another register first and the
extended-feature register second. -/
def example_ginfo_msr : VmxGuestInfo :=
  { phys_sz := 0x1000000, msr_count := 2,
    msr_guest_area := [⟨0x10, 0⟩, ⟨0xC0000080, 5⟩] }

/-- The 64-bit base address of a memory-map entry, read as `high:low`. -/
def entry_base (e : memory_map_t) : Nat := e.base_addr_high * 4294967296 + e.base_addr_low

/-- The 64-bit length of a memory-map entry, read as `high:low`. -/
def entry_length (e : memory_map_t) : Nat := e.length_high * 4294967296 + e.length_low

/-- The range a memory-map entry describes: its first address, the address after its
last, and its type. -/
def entry_range (e : memory_map_t) : Nat × Nat × Nat :=
  (entry_base e, entry_base e + entry_length e, e.type)

/-- A guest configuration with the given amount of guest-physical memory and no MSR
shadow area. -/
def example_ginfo_sz (phys_sz : Nat) : VmxGuestInfo :=
  { phys_sz := phys_sz, msr_count := 0, msr_guest_area := [] }

/-- An empty table tree rooted at page 6 on a host with 256 tracked pages, with the
given free list. -/
def example_cga (free : List Nat) : KState :=
  { example_empty free with npages := 256 }

/-- The tree of `example_mapped` on a host with 256 tracked pages. -/
def example_mapped_cga : KState :=
  { example_mapped with npages := 256 }

/-- No entry of a table above the page tables refers to page `u`. -/
def unreferenced (s : KState) (level : Nat → Option Nat) (u : Nat) : Prop :=
  ∀ q m i, level q = some (m + 1) → i < 512 →
    s.mem (page2kva q + 8 * i) ≠ page2pa u ||| __EPTE_FULL

/-- The tables of a tree by level: page `q` holds a table `n` levels above the page
tables when `level q = some n`. Every non-empty entry of a table above the page tables
is the address of a table one level below, with all three access bits; no table is
referred to by two entries; no table is on the free list, whose pages are distinct
and non-zero. -/
def levels_ok (s : KState) (level : Nat → Option Nat) : Prop :=
  (∀ q m i, level q = some (m + 1) → i < 512 →
    s.mem (page2kva q + 8 * i) = 0 ∨
    ∃ f, f ≠ 0 ∧ page2pa f < 2 ^ 64 ∧
      s.mem (page2kva q + 8 * i) = page2pa f ||| __EPTE_FULL ∧ level f = some m) ∧
  (∀ q q' m m' i j f, level q = some (m + 1) → level q' = some (m' + 1) →
    i < 512 → j < 512 →
    s.mem (page2kva q + 8 * i) = page2pa f ||| __EPTE_FULL →
    s.mem (page2kva q' + 8 * j) = page2pa f ||| __EPTE_FULL → q = q' ∧ i = j) ∧
  (∀ f ∈ s.page_free_list, level f = none ∧ f ≠ 0 ∧ page2pa f < 2 ^ 64) ∧
  s.page_free_list.Nodup

/-- The tables below the root page `r` are laid out by levels, the root being three
levels above the page tables. -/
def tree_inv (s : KState) (r : Nat) : Prop :=
  ∃ level : Nat → Option Nat, level r = some 3 ∧ levels_ok s level

/-- The shape of the table at `t`, `n` levels above the page tables, following the
spec's words: every non-empty entry above the page tables has all three access bits
and the page-aligned frame address of a table, which has the same shape. -/
def shape_inv (mem : Nat → Nat) : Nat → Nat → Prop
  | 0, _ => True
  | n + 1, t =>
    ∀ i, i < 512 → mem (t + 8 * i) ≠ 0 →
      mem (t + 8 * i) &&& __EPTE_FULL = __EPTE_FULL ∧
      PTE_ADDR (mem (t + 8 * i)) ≠ 0 ∧
      PTE_ADDR (mem (t + 8 * i)) % PGSIZE = 0 ∧
      shape_inv mem n (KADDR (PTE_ADDR (mem (t + 8 * i))))

/-- Two guest-physical addresses differ in a table index. -/
def idx_differ (g g' : Nat) : Prop := ∃ k, k ≤ 3 ∧ ADDR_TO_IDX g k ≠ ADDR_TO_IDX g' k

/-- The state of the eager population after the pairs `done` of guest-physical address
and host page, on a host with `n0` tracked pages whose free list was `free0`: the tree
is laid out by levels; every address of `done` translates to its page, which has one
reference and is off the free list; the leaf entry of every address that differs in a
table index from all of `done` is empty; the pages of `done` are distinct; the free
pages are pages of `free0` without a reference. -/
def static_inv (s : KState) (r n0 : Nat) (free0 : List Nat) (done : List (Nat × Nat)) :
    Prop :=
  tree_inv s r ∧ s.npages = n0 ∧
  (∀ gp ∈ done, hva_of_entry (leaf_entry s.mem 3 (page2kva r) gp.1) = page2kva gp.2 ∧
    s.pp_ref gp.2 = 1 ∧ gp.2 ∉ s.page_free_list) ∧
  (∀ g, (∀ gp ∈ done, idx_differ gp.1 g) → leaf_entry s.mem 3 (page2kva r) g = 0) ∧
  (done.map Prod.snd).Nodup ∧
  (∀ f ∈ s.page_free_list, f ∈ free0 ∧ s.pp_ref f = 0)

/-- An empty table tree rooted at page 6 on a host with `2^20` tracked pages, whose 160
free pages all lie at physical address `2^31` and above. -/
def example_high : KState :=
  { mem := fun _ => 0, pp_ref := fun _ => 0, page_free_list := List.range' 0x80000 160,
    npages := 0x100000 }

/-- An empty table tree rooted at page 6 on a host with `2^16` tracked pages, of which
pages 16 to 16015 are free. -/
def example_static : KState :=
  { mem := fun _ => 0, pp_ref := fun _ => 0, page_free_list := List.range' 16 16000,
    npages := 0x10000 }

/-- An empty table tree rooted at page 6 on a host with `2^21` tracked pages (8 GiB),
with the given free list. -/
def example_big (free : List Nat) : KState :=
  { example_empty free with npages := 0x200000 }

/-- An empty table tree rooted at page 6 on a host with `2^21` tracked pages, whose 640
free pages all lie at physical address `2^32` and above. -/
def example_high4 : KState :=
  { mem := fun _ => 0, pp_ref := fun _ => 0, page_free_list := List.range' 0x100000 640,
    npages := 0x200000 }

/-! ## Bit-level and address lemmas -/

theorem mask_hi_eq : (0xFFFFFFFFFFFFF000 : Nat) = 2 ^ 12 * (2 ^ 52 - 1) := by norm_num

theorem and_mask_hi (x : Nat) : x &&& 0xFFFFFFFFFFFFF000 = x % 2 ^ 64 / 4096 * 4096 := by
  rw [mask_hi_eq]
  apply Nat.eq_of_testBit_eq
  intro i
  have h2 : x % 2 ^ 64 / 4096 * 4096 = 2 ^ 12 * ((x % 2 ^ 64) >>> 12) := by
    rw [Nat.shiftRight_eq_div_pow]; norm_num [Nat.mul_comm]
  rw [h2, Nat.testBit_and, Nat.testBit_mul_pow_two, Nat.testBit_mul_pow_two,
    Nat.testBit_two_pow_sub_one, Nat.testBit_shiftRight, Nat.testBit_mod_two_pow]
  by_cases h : i ≥ 12
  · have e : 12 + (i - 12) = i := by omega
    rw [e]
    by_cases h' : i < 64
    · have : i - 12 < 52 := by omega
      simp [h, h', this]
    · have : ¬ (i - 12 < 52) := by omega
      simp [h, h', this]
  · simp [h]

theorem or_eq_add_of_aligned (a f : Nat) (ha : a % 4096 = 0) (hf : f < 4096) :
    a ||| f = a + f := by
  obtain ⟨k, rfl⟩ : ∃ k, a = 2 ^ 12 * k := ⟨a / 4096, by norm_num; omega⟩
  exact (Nat.mul_add_lt_is_or (by simpa using hf) k).symm

theorem PTE_ADDR_eq (x : Nat) : PTE_ADDR x = x % 2 ^ 64 / 4096 * 4096 := and_mask_hi x

theorem epte_addr_eq (x : Nat) : epte_addr x = x % 2 ^ 64 / 4096 * 4096 := and_mask_hi x

theorem epte_addr_eq_PTE_ADDR (x : Nat) : epte_addr x = PTE_ADDR x := rfl

theorem KERNBASE_pos : 0 < KERNBASE := by decide

theorem page2pa_eq (pp : Nat) : page2pa pp = pp * 4096 := by
  unfold page2pa; rw [Nat.shiftLeft_eq]

theorem page2kva_eq (pp : Nat) : page2kva pp = pp * 4096 + KERNBASE := by
  unfold page2kva KADDR; rw [page2pa_eq]

theorem ADDR_TO_IDX_lt (pa n : Nat) : ADDR_TO_IDX pa n < 512 := by
  unfold ADDR_TO_IDX
  have : ((1 <<< 9) - 1 : Nat) = 2 ^ 9 - 1 := by decide
  rw [this, Nat.and_pow_two_sub_one_eq_mod]
  exact Nat.mod_lt _ (by norm_num)

theorem PML4_eq (la : Nat) : PML4 la = ADDR_TO_IDX la 3 := rfl
theorem PDPE_eq (la : Nat) : PDPE la = ADDR_TO_IDX la 2 := rfl
theorem PDX_eq (la : Nat) : PDX la = ADDR_TO_IDX la 1 := rfl
theorem PTX_eq (la : Nat) : PTX la = ADDR_TO_IDX la 0 := rfl

theorem __EPTE_FULL_eq : __EPTE_FULL = 7 := by decide

theorem epte_present_iff (e : Nat) : epte_present e = true ↔ 0 < e % 8 := by
  unfold epte_present
  rw [__EPTE_FULL_eq]
  have : e &&& 7 = e % 8 := Nat.and_pow_two_sub_one_eq_mod e 3
  rw [this]; simp

theorem epgdir_walk_ro (s : KState) (t g : Nat) :
    epgdir_walk s t g 0 = (s, (walk_ro s.mem 1 t g).getD 0) := by
  unfold epgdir_walk
  simp only [walk_ro, PDX_eq, PTX_eq, KADDR]
  split <;> simp [Nat.add_assoc, Nat.add_comm, Nat.add_left_comm]

theorem page2kva_ne_zero (pp i : Nat) : page2kva pp + i ≠ 0 := by
  have := KERNBASE_pos
  rw [page2kva_eq]; omega

theorem epgdir_walk_create (s : KState) (t g : Nat) (create : Int) (hc : create ≠ 0) :
    epgdir_walk s t g create = walk_create 1 s t g := by
  unfold epgdir_walk
  simp only [walk_create, PDX_eq, PTX_eq, hc, if_false]
  split
  · cases hpa : page_alloc s ALLOC_ZERO with
    | none => simp
    | some r =>
      obtain ⟨f, s1⟩ := r
      simp only [page2kva_ne_zero, if_false]
      simp [page2kva, KADDR, Nat.add_assoc, Nat.add_comm, Nat.add_left_comm]
  · simp [KADDR, Nat.add_assoc, Nat.add_comm, Nat.add_left_comm]

theorem pgdir_walk_create (s : KState) (t g : Nat) (create : Int) (hc : create ≠ 0) :
    pgdir_walk s t g create = walk_create 1 s t g := by
  unfold pgdir_walk
  simp only [walk_create, PDX_eq, PTX_eq, hc, if_false]
  split
  · cases hpa : page_alloc s ALLOC_ZERO with
    | none => simp
    | some r =>
      obtain ⟨f, s1⟩ := r
      simp only [page2kva_ne_zero, if_false]
      simp [page2kva, KADDR, Nat.add_assoc, Nat.add_comm, Nat.add_left_comm]
  · simp [KADDR, Nat.add_assoc, Nat.add_comm, Nat.add_left_comm]

theorem epdpe_walk_create (s : KState) (t g : Nat) (create : Int) (hc : create ≠ 0) :
    epdpe_walk s t g create = walk_create 2 s t g := by
  unfold epdpe_walk
  rw [walk_create]
  simp only [PDPE_eq, hc, if_false]
  split
  · cases hpa : page_alloc s ALLOC_ZERO with
    | none => simp
    | some r =>
      obtain ⟨f, s1⟩ := r
      simp only [pgdir_walk_create _ _ _ _ hc]
  · exact epgdir_walk_create _ _ _ _ hc

theorem epml4e_walk_create (s : KState) (t g : Nat) (create : Int) (hc : create ≠ 0) :
    epml4e_walk s t g create = walk_create 3 s t g := by
  unfold epml4e_walk
  rw [walk_create]
  simp only [PML4_eq, hc, if_false]
  split
  · cases hpa : page_alloc s ALLOC_ZERO with
    | none => simp
    | some r =>
      obtain ⟨f, s1⟩ := r
      simp only [epdpe_walk_create _ _ _ _ hc]
  · exact epdpe_walk_create _ _ _ _ hc

theorem pgdir_walk_ro (s : KState) (t g : Nat) :
    pgdir_walk s t g 0 = (s, (walk_ro s.mem 1 t g).getD 0) := by
  unfold pgdir_walk
  simp only [walk_ro, PDX_eq, PTX_eq, KADDR]
  split <;> simp [Nat.add_assoc, Nat.add_comm, Nat.add_left_comm]

theorem epdpe_walk_ro (s : KState) (t g : Nat) :
    epdpe_walk s t g 0 = (s, (walk_ro s.mem 2 t g).getD 0) := by
  unfold epdpe_walk
  rw [walk_ro]
  simp only [PDPE_eq]
  split
  · simp
  · simp [epgdir_walk_ro]

theorem epml4e_walk_ro (s : KState) (t g : Nat) :
    epml4e_walk s t g 0 = (s, (walk_ro s.mem 3 t g).getD 0) := by
  unfold epml4e_walk
  rw [walk_ro]
  simp only [PML4_eq]
  split
  · simp
  · simp [epdpe_walk_ro]

/-! ## The read-only walk and the lookup -/

theorem KADDR_ne_zero (pa i : Nat) : KADDR pa + i ≠ 0 := by
  have := KERNBASE_pos
  unfold KADDR; omega

theorem walk_ro_ne_zero (mem : Nat → Nat) (n t g p : Nat) (ht : t ≠ 0)
    (h : walk_ro mem n t g = some p) : p ≠ 0 := by
  induction n generalizing t with
  | zero =>
    simp only [walk_ro, Option.some.injEq] at h
    omega
  | succ n ih =>
    rw [walk_ro] at h
    split at h
    · simp at h
    · exact ih _ (by simpa using KADDR_ne_zero _ 0) h

theorem walk_create_of_ro (s : KState) (n t g p : Nat) (h : walk_ro s.mem n t g = some p) :
    walk_create n s t g = (s, p) := by
  induction n generalizing t with
  | zero =>
    simp only [walk_ro, Option.some.injEq] at h
    simp [walk_create, h]
  | succ n ih =>
    rw [walk_ro] at h
    rw [walk_create]
    split at h
    · simp at h
    · next hc => rw [if_neg hc]; exact ih _ h

theorem ept_lookup_gpa_ro (s : KState) (eptrt g : Nat) (hr : eptrt ≠ 0) :
    ept_lookup_gpa s eptrt g 0 =
      match walk_ro s.mem 3 eptrt g with
      | none => (s, -E_NO_ENT, some 0)
      | some p => (s, 0, some p) := by
  unfold ept_lookup_gpa
  rw [if_neg hr, epml4e_walk_ro]
  cases h : walk_ro s.mem 3 eptrt g with
  | none => simp
  | some p => simp [walk_ro_ne_zero _ _ _ _ _ hr h]

theorem ept_lookup_gpa_create (s : KState) (eptrt g : Nat) (create : Int) (hr : eptrt ≠ 0)
    (hc : create ≠ 0) :
    ept_lookup_gpa s eptrt g create =
      if (walk_create 3 s eptrt g).2 = 0 then ((walk_create 3 s eptrt g).1, -E_NO_MEM, some 0)
      else ((walk_create 3 s eptrt g).1, 0, some (walk_create 3 s eptrt g).2) := by
  unfold ept_lookup_gpa
  rw [if_neg hr, epml4e_walk_create _ _ _ _ hc]
  simp only [hc, if_false]

theorem epte_present_zero : epte_present 0 = false := by decide

theorem hva_of_entry_zero : hva_of_entry 0 = 0 := by decide

theorem epte_present_ne_zero (e : Nat) (h : epte_present e = true) : e ≠ 0 := by
  rintro rfl
  simp [epte_present_zero] at h

theorem hva_of_entry_ne_zero (e : Nat) (h : hva_of_entry e ≠ 0) : epte_present e = true := by
  unfold hva_of_entry at h
  by_contra hp
  simp [hp] at h

theorem ept_gpa2hva_null (s : KState) (g : Nat) : ept_gpa2hva s 0 g = .ok (s, 0) := by
  simp [ept_gpa2hva, ept_lookup_gpa, E_INVAL]

theorem ept_gpa2hva_eq (s : KState) (eptrt g : Nat) (hr : eptrt ≠ 0) :
    ept_gpa2hva s eptrt g = .ok (s, hva_of_entry (leaf_entry s.mem 3 eptrt g)) := by
  unfold ept_gpa2hva
  rw [ept_lookup_gpa_ro _ _ _ hr]
  unfold leaf_entry
  cases h : walk_ro s.mem 3 eptrt g with
  | none => simp [E_NO_ENT, hva_of_entry_zero]
  | some p =>
    have hp := walk_ro_ne_zero _ _ _ _ _ hr h
    simp only [lt_self_iff_false, if_false, hp]
    unfold hva_of_entry
    by_cases hpr : epte_present (s.mem p) = true <;> simp [hpr]

/-- A guest-physical address that translates has a complete path and a present leaf. -/
theorem mapped_walk (s s1 : KState) (eptrt g h : Nat)
    (hm : ept_gpa2hva s eptrt g = .ok (s1, h)) (hh : h ≠ 0) :
    eptrt ≠ 0 ∧ s1 = s ∧ h = hva_of_entry (leaf_entry s.mem 3 eptrt g) ∧
      ∃ p, walk_ro s.mem 3 eptrt g = some p ∧ p ≠ 0 ∧ epte_present (s.mem p) = true := by
  have hr : eptrt ≠ 0 := by
    rintro rfl
    rw [ept_gpa2hva_null] at hm
    simp only [Except.ok.injEq, Prod.mk.injEq] at hm
    exact hh hm.2.symm
  rw [ept_gpa2hva_eq _ _ _ hr] at hm
  simp only [Except.ok.injEq, Prod.mk.injEq] at hm
  obtain ⟨h1, h2⟩ := hm
  refine ⟨hr, h1.symm, h2.symm, ?_⟩
  rw [← h2] at hh
  have hp := hva_of_entry_ne_zero _ hh
  unfold leaf_entry at hp
  cases hw : walk_ro s.mem 3 eptrt g with
  | none => rw [hw] at hp; simp [epte_present_zero] at hp
  | some p =>
    rw [hw] at hp
    exact ⟨p, rfl, walk_ro_ne_zero _ _ _ _ _ hr hw, hp⟩

/-- The overwrite-free map of an address that already translates. -/
theorem map_of_mapped (s s1 : KState) (eptrt hva g h : Nat) (perm : Int)
    (hm : ept_gpa2hva s eptrt g = .ok (s1, h)) (hh : h ≠ 0) :
    ept_map_hva2gpa s eptrt hva g perm 0 = .ok (s, -E_INVAL) := by
  obtain ⟨hr, -, -, p, hw, hp, hpr⟩ := mapped_walk s s1 eptrt g h hm hh
  have hne := epte_present_ne_zero _ hpr
  simp only [ept_map_hva2gpa]
  cases hpg : pa2page s (u64_of_int (int_of_u64 (PADDR hva))) with
  | none => rfl
  | some pg =>
    simp only
    rw [ept_lookup_gpa_create _ _ _ _ hr (by decide), walk_create_of_ro _ _ _ _ _ hw]
    simp [hp, hne]

/-! ## The allocator -/

theorem page_alloc_nil (s : KState) (fl : Nat) (h : s.page_free_list = []) :
    page_alloc s fl = none := by
  simp [page_alloc, h]

theorem page_alloc_zero_cons (s : KState) (f : Nat) (rest : List Nat)
    (h : s.page_free_list = f :: rest) :
    page_alloc s ALLOC_ZERO =
      some (f, { s with page_free_list := rest, mem := zero_page s.mem f }) := by
  simp [page_alloc, h, ALLOC_ZERO]

theorem page_alloc_plain_cons (s : KState) (f : Nat) (rest : List Nat)
    (h : s.page_free_list = f :: rest) :
    page_alloc s 0 = some (f, { s with page_free_list := rest }) := by
  simp [page_alloc, h, ALLOC_ZERO]

theorem zero_page_in (mem : Nat → Nat) (f a : Nat) (h : in_page f a) :
    zero_page mem f a = 0 := by
  unfold in_page at h
  simp [zero_page, h]

theorem zero_page_out (mem : Nat → Nat) (f a : Nat) (h : ¬ in_page f a) :
    zero_page mem f a = mem a := by
  unfold in_page at h
  simp [zero_page, h]

theorem slot_in_page (f i : Nat) (hi : i < 512) : in_page f (page2kva f + 8 * i) := by
  unfold in_page PGSIZE; omega

theorem idx_in_page (f g n : Nat) : in_page f (page2kva f + 8 * ADDR_TO_IDX g n) :=
  slot_in_page f _ (ADDR_TO_IDX_lt g n)

theorem in_page_unique (f f' a : Nat) (h : in_page f a) (h' : in_page f' a) : f = f' := by
  unfold in_page PGSIZE at h h'
  simp only [page2kva_eq] at h h'
  omega

theorem PTE_ADDR_zero : PTE_ADDR 0 = 0 := by decide

theorem page_decref_one (s : KState) (f : Nat) (h : s.pp_ref f = 1) :
    page_decref s f =
      { s with
        pp_ref := fun q => if q = f then 0 else s.pp_ref q
        page_free_list := f :: s.page_free_list } := by
  simp [page_decref, h]

/-! ## The creating walk when the allocator runs dry -/

theorem missing_tables_le (mem : Nat → Nat) (n t g : Nat) : missing_tables mem n t g ≤ n := by
  induction n generalizing t with
  | zero => simp [missing_tables]
  | succ n ih =>
    rw [missing_tables]
    split
    · exact Nat.le_refl _
    · exact Nat.le_succ_of_le (ih _)

theorem missing_tables_fresh (mem : Nat → Nat) (n f g : Nat) :
    missing_tables (zero_page mem f) (n + 1) (page2kva f) g = n + 1 := by
  rw [missing_tables, zero_page_in _ _ _ (idx_in_page f g (n + 1)), PTE_ADDR_zero]
  simp

/-- With fewer free pages than missing tables the creating walk returns `NULL`, and
every page it took is back on the free list with its old reference count. -/
theorem walk_create_oom (n : Nat) (s : KState) (t g : Nat)
    (hnd : s.page_free_list.Nodup) (href : ∀ f ∈ s.page_free_list, s.pp_ref f = 0)
    (hlen : s.page_free_list.length < missing_tables s.mem n t g) :
    (walk_create n s t g).2 = 0 ∧ (walk_create n s t g).1.pp_ref = s.pp_ref ∧
      (walk_create n s t g).1.page_free_list = s.page_free_list ∧
      (walk_create n s t g).1.npages = s.npages ∧
      ∀ a, (∀ f ∈ s.page_free_list, ¬ in_page f a) →
        (walk_create n s t g).1.mem a = s.mem a := by
  induction n generalizing s t with
  | zero => simp [missing_tables] at hlen
  | succ n ih =>
    rw [missing_tables] at hlen
    rw [walk_create]
    by_cases hc : PTE_ADDR (s.mem (t + 8 * ADDR_TO_IDX g (n + 1))) = 0
    · rw [if_pos hc] at hlen ⊢
      cases hfl : s.page_free_list with
      | nil => simp [page_alloc_nil s _ hfl, hfl]
      | cons f rest =>
        rw [page_alloc_zero_cons s f rest hfl]
        rw [hfl] at hnd href hlen
        have hfr : f ∉ rest := (List.nodup_cons.mp hnd).1
        have hndr : rest.Nodup := (List.nodup_cons.mp hnd).2
        obtain ⟨m, rfl⟩ : ∃ m, n = m + 1 := by
          cases n with
          | zero => simp at hlen
          | succ m => exact ⟨m, rfl⟩
        have hlen' : rest.length < m + 1 := by simpa using hlen
        have hih := ih
          (page_incref { s with page_free_list := rest, mem := zero_page s.mem f } f)
          (page2kva f) hndr
          (by
            intro f' hf'
            have : f' ≠ f := fun e => hfr (e ▸ hf')
            simp [page_incref, this, href f' (List.mem_cons_of_mem _ hf')])
          (by
            simp only [page_incref]
            rw [missing_tables_fresh]
            exact hlen')
        have hreff : s.pp_ref f = 0 := href f (List.mem_cons_self _ _)
        dsimp only
        generalize walk_create (m + 1)
          (page_incref { s with page_free_list := rest, mem := zero_page s.mem f } f)
          (page2kva f) g = r at hih ⊢
        obtain ⟨s3, pte⟩ := r
        obtain ⟨h2, hpp, hfree, hnp, hmem⟩ := hih
        simp only at h2 hpp hfree hnp hmem
        subst h2
        simp only [if_true]
        have h1 : s3.pp_ref f = 1 := by simp [hpp, page_incref, hreff]
        rw [page_decref_one s3 f h1]
        refine ⟨trivial, ?_, ?_, ?_, ?_⟩
        · funext q
          by_cases hq : q = f
          · simp [hq, hreff]
          · simp [hq, hpp, page_incref]
        · simp [hfree, page_incref]
        · simp [hnp, page_incref]
        · intro a ha
          have h1 : ¬ in_page f a := ha f (List.mem_cons_self _ _)
          have := hmem a (fun f' hf' => ha f' (List.mem_cons_of_mem _ hf'))
          simp only [page_incref] at this
          simp [this, zero_page_out _ _ _ h1]
    · rw [if_neg hc] at hlen ⊢
      exact ih s _ hnd href hlen

/-- With fewer free pages than missing tables the creating walk returns `NULL`. -/
theorem walk_create_null (n : Nat) (s : KState) (t g : Nat)
    (hlen : s.page_free_list.length < missing_tables s.mem n t g) :
    (walk_create n s t g).2 = 0 := by
  induction n generalizing s t with
  | zero => simp [missing_tables] at hlen
  | succ n ih =>
    rw [missing_tables] at hlen
    rw [walk_create]
    by_cases hc : PTE_ADDR (s.mem (t + 8 * ADDR_TO_IDX g (n + 1))) = 0
    · rw [if_pos hc] at hlen ⊢
      cases hfl : s.page_free_list with
      | nil => simp [page_alloc_nil s _ hfl]
      | cons f rest =>
        rw [page_alloc_zero_cons s f rest hfl]
        rw [hfl] at hlen
        obtain ⟨m, rfl⟩ : ∃ m, n = m + 1 := by
          cases n with
          | zero => simp at hlen
          | succ m => exact ⟨m, rfl⟩
        have hlen' : rest.length < m + 1 := by simpa using hlen
        have hih := ih
          (page_incref { s with page_free_list := rest, mem := zero_page s.mem f } f)
          (page2kva f)
          (by
            simp only [page_incref]
            rw [missing_tables_fresh]
            exact hlen')
        simp [hih]
    · rw [if_neg hc] at hlen ⊢
      exact ih s _ hlen

theorem ADDR_TO_IDX_ROUNDDOWN (g n : Nat) :
    ADDR_TO_IDX (ROUNDDOWN g PGSIZE) n = ADDR_TO_IDX g n := by
  unfold ADDR_TO_IDX ROUNDDOWN PGSIZE
  congr 1
  rw [Nat.shiftRight_eq_div_pow, Nat.shiftRight_eq_div_pow, Nat.pow_add]
  rw [← Nat.div_div_eq_div_mul, ← Nat.div_div_eq_div_mul]
  congr 1
  norm_num
  omega

theorem walk_ro_ROUNDDOWN (mem : Nat → Nat) (n t g : Nat) :
    walk_ro mem n t (ROUNDDOWN g PGSIZE) = walk_ro mem n t g := by
  induction n generalizing t with
  | zero => simp [walk_ro, ADDR_TO_IDX_ROUNDDOWN]
  | succ n ih => simp [walk_ro, ADDR_TO_IDX_ROUNDDOWN, ih]

theorem leaf_entry_ROUNDDOWN (mem : Nat → Nat) (n t g : Nat) :
    leaf_entry mem n t (ROUNDDOWN g PGSIZE) = leaf_entry mem n t g := by
  simp [leaf_entry, walk_ro_ROUNDDOWN]

/-! ## Loops and the teardown -/

theorem returned_ok {α : Type} (r : Except Halt α) (h : returned r = true) :
    ∃ a, r = .ok a := by
  cases r with
  | error e => simp [returned] at h
  | ok a => exact ⟨a, rfl⟩

theorem ok_kstate_of (r : Except Halt KState) (d : KState) (h : returned r = true) :
    r = .ok (kstate_of r d) := by
  cases r with
  | error e => simp [returned] at h
  | ok a => rfl

theorem foldlM_ok_inv {σ : Type} (R : σ → σ → Prop) (hrefl : ∀ s, R s s)
    (htrans : ∀ a b c, R a b → R b c → R a c) (body : σ → Nat → Except Halt σ)
    (hb : ∀ s i s', body s i = .ok s' → R s s') (l : List Nat) (s s' : σ)
    (h : l.foldlM body s = .ok s') : R s s' := by
  induction l generalizing s with
  | nil =>
    simp only [List.foldlM_nil, pure, Except.pure, Except.ok.injEq] at h
    rw [← h]; exact hrefl s
  | cons i l ih =>
    rw [List.foldlM_cons] at h
    cases hbi : body s i with
    | error e => rw [hbi] at h; simp [bind, Except.bind] at h
    | ok s1 =>
      rw [hbi] at h
      simp only [bind, Except.bind] at h
      exact htrans _ _ _ (hb s i s1 hbi) (ih s1 h)

theorem decref_pa_mem (s s' : KState) (pa : Nat) (h : decref_pa s pa = .ok s') :
    s'.mem = s.mem ∧ s'.npages = s.npages := by
  unfold decref_pa at h
  cases hp : pa2page s pa with
  | none => rw [hp] at h; simp at h
  | some pp =>
    rw [hp] at h
    simp only [Except.ok.injEq] at h
    rw [← h]
    unfold page_decref
    split <;> simp

/-- The teardown writes no memory word. -/
theorem free_ept_level_mem (level : Nat) (s s' : KState) (t : Nat)
    (h : free_ept_level level s t = .ok s') : s'.mem = s.mem ∧ s'.npages = s.npages := by
  induction level generalizing s s' t with
  | zero =>
    rw [free_ept_level.eq_1] at h
    refine foldlM_ok_inv (fun (a b : KState) => b.mem = a.mem ∧ b.npages = a.npages)
      (fun _ => ⟨rfl, rfl⟩)
      (by intro a b c h1 h2; exact ⟨h2.1.trans h1.1, h2.2.trans h1.2⟩) _ ?_ _ _ _ h
    intro a i b hab
    split at hab
    · exact decref_pa_mem _ _ _ hab
    · simp only [Except.ok.injEq] at hab; rw [← hab]; exact ⟨rfl, rfl⟩
  | succ n ih =>
    rw [free_ept_level.eq_2] at h
    refine foldlM_ok_inv (fun (a b : KState) => b.mem = a.mem ∧ b.npages = a.npages)
      (fun _ => ⟨rfl, rfl⟩)
      (by intro a b c h1 h2; exact ⟨h2.1.trans h1.1, h2.2.trans h1.2⟩) _ ?_ _ _ _ h
    intro a i b hab
    split at hab
    · cases hr : free_ept_level n a (KADDR (epte_addr (a.mem (t + 8 * i)))) with
      | error e => rw [hr] at hab; simp at hab
      | ok a1 =>
        rw [hr] at hab
        have h1 := ih _ _ _ hr
        have h2 := decref_pa_mem _ _ _ hab
        exact ⟨h2.1.trans h1.1, h2.2.trans h1.2⟩
    · simp only [Except.ok.injEq] at hab; rw [← hab]; exact ⟨rfl, rfl⟩

theorem ept_gpa2hva_value (s : KState) (eptrt g : Nat) :
    value_of (ept_gpa2hva s eptrt g) =
      some (if eptrt = 0 then 0 else hva_of_entry (leaf_entry s.mem 3 eptrt g)) := by
  by_cases hr : eptrt = 0
  · subst hr; simp [ept_gpa2hva_null, value_of]
  · simp [ept_gpa2hva_eq _ _ _ hr, value_of, hr]

/-! ## The creating walk when it succeeds -/

theorem walk_ro_mem_slots (mem : Nat → Nat) (n t g p : Nat)
    (h : walk_ro mem n t g = some p) : p ∈ walk_slots mem n t g := by
  induction n generalizing t with
  | zero =>
    simp only [walk_ro, Option.some.injEq] at h
    simp [walk_slots, h]
  | succ n ih =>
    rw [walk_ro] at h
    rw [walk_slots]
    split at h
    · simp at h
    · next hc => rw [if_neg hc]; exact List.mem_cons_of_mem _ (ih _ h)

/-- Two memories that agree on the slots of a walk give the same walk. -/
theorem walk_congr (mem mem' : Nat → Nat) (n t g : Nat)
    (h : ∀ a ∈ walk_slots mem n t g, mem' a = mem a) :
    walk_ro mem' n t g = walk_ro mem n t g ∧ walk_slots mem' n t g = walk_slots mem n t g := by
  induction n generalizing t with
  | zero => simp [walk_ro, walk_slots]
  | succ n ih =>
    have h0 : mem' (t + 8 * ADDR_TO_IDX g (n + 1)) = mem (t + 8 * ADDR_TO_IDX g (n + 1)) :=
      h _ (by rw [walk_slots]; exact List.mem_cons_self _ _)
    rw [walk_ro, walk_ro, walk_slots, walk_slots, h0]
    by_cases hc : PTE_ADDR (mem (t + 8 * ADDR_TO_IDX g (n + 1))) = 0
    · simp [hc]
    · have := ih (KADDR (PTE_ADDR (mem (t + 8 * ADDR_TO_IDX g (n + 1)))))
        (fun a ha => h a (by rw [walk_slots, if_neg hc]; exact List.mem_cons_of_mem _ ha))
      simp [hc, this.1, this.2]

theorem leaf_entry_congr (mem mem' : Nat → Nat) (n t g : Nat)
    (h : ∀ a ∈ walk_slots mem n t g, mem' a = mem a) :
    leaf_entry mem' n t g = leaf_entry mem n t g := by
  unfold leaf_entry
  rw [(walk_congr mem mem' n t g h).1]
  cases hw : walk_ro mem n t g with
  | none => rfl
  | some p => exact h p (walk_ro_mem_slots _ _ _ _ _ hw)

theorem walk_slots_fresh (mem : Nat → Nat) (n f g : Nat) :
    walk_slots (zero_page mem f) n (page2kva f) g = [page2kva f + 8 * ADDR_TO_IDX g n] := by
  cases n with
  | zero => simp [walk_slots]
  | succ n =>
    rw [walk_slots, zero_page_in _ _ _ (idx_in_page f g (n + 1)), PTE_ADDR_zero]
    simp

theorem walk_ro_fresh (mem : Nat → Nat) (n f g : Nat) :
    walk_ro (zero_page mem f) (n + 1) (page2kva f) g = none := by
  rw [walk_ro, zero_page_in _ _ _ (idx_in_page f g (n + 1)), PTE_ADDR_zero]
  simp

theorem leaf_entry_fresh (mem : Nat → Nat) (n f g : Nat) :
    leaf_entry (zero_page mem f) n (page2kva f) g = 0 := by
  cases n with
  | zero => simp [leaf_entry, walk_ro, zero_page_in _ _ _ (idx_in_page f g 0)]
  | succ n => simp [leaf_entry, walk_ro_fresh]

/-- The creating walk changes a word outside the free pages only if it is an empty slot
on the walk. -/
theorem walk_create_mem_frame (n : Nat) (s : KState) (t g a : Nat)
    (hfree : ∀ f ∈ s.page_free_list, ¬ in_page f a)
    (ha : a ∉ walk_slots s.mem n t g ∨ PTE_ADDR (s.mem a) ≠ 0) :
    (walk_create n s t g).1.mem a = s.mem a := by
  induction n generalizing s t with
  | zero => simp [walk_create]
  | succ n ih =>
    rw [walk_create]
    rw [walk_slots] at ha
    by_cases hc : PTE_ADDR (s.mem (t + 8 * ADDR_TO_IDX g (n + 1))) = 0
    · rw [if_pos hc] at ha ⊢
      have hne : a ≠ t + 8 * ADDR_TO_IDX g (n + 1) := by
        rcases ha with ha | ha
        · intro e; exact ha (by simp [e])
        · intro e; rw [e] at ha; exact ha hc
      cases hfl : s.page_free_list with
      | nil => simp [page_alloc_nil s _ hfl]
      | cons f rest =>
        rw [page_alloc_zero_cons s f rest hfl]
        rw [hfl] at hfree
        have hf : ¬ in_page f a := hfree f (List.mem_cons_self _ _)
        have hih := ih
          (page_incref { s with page_free_list := rest, mem := zero_page s.mem f } f)
          (page2kva f)
          (fun f' hf' => hfree f' (List.mem_cons_of_mem _ hf'))
          (by
            left
            simp only [page_incref]
            rw [walk_slots_fresh]
            intro hm
            rw [List.mem_singleton] at hm
            exact hf (hm ▸ idx_in_page f g n))
        dsimp only
        generalize walk_create n
          (page_incref { s with page_free_list := rest, mem := zero_page s.mem f } f)
          (page2kva f) g = r at hih ⊢
        obtain ⟨s3, pte⟩ := r
        simp only [page_incref] at hih
        by_cases hp : pte = 0
        · rw [if_pos hp]
          simp only
          have : (page_decref s3 f).mem = s3.mem := by
            unfold page_decref; split <;> rfl
          rw [this, hih, zero_page_out _ _ _ hf]
        · rw [if_neg hp]
          simp only [mem_write, if_neg hne]
          rw [hih, zero_page_out _ _ _ hf]
    · rw [if_neg hc] at ha ⊢
      refine ih s _ hfree ?_
      rcases ha with ha | ha
      · left; intro hm; exact ha (List.mem_cons_of_mem _ hm)
      · right; exact ha

/-- The creating walk changes reference counts of free-list pages only, and never the
number of tracked pages. -/
theorem walk_create_pp_ref_frame (n : Nat) (s : KState) (t g q : Nat)
    (hq : q ∉ s.page_free_list) :
    (walk_create n s t g).1.pp_ref q = s.pp_ref q ∧
      (walk_create n s t g).1.npages = s.npages := by
  induction n generalizing s t with
  | zero => simp [walk_create]
  | succ n ih =>
    rw [walk_create]
    by_cases hc : PTE_ADDR (s.mem (t + 8 * ADDR_TO_IDX g (n + 1))) = 0
    · rw [if_pos hc]
      cases hfl : s.page_free_list with
      | nil => simp [page_alloc_nil s _ hfl]
      | cons f rest =>
        rw [page_alloc_zero_cons s f rest hfl]
        rw [hfl] at hq
        have hqf : q ≠ f := fun e => hq (e ▸ List.mem_cons_self _ _)
        have hih := ih
          (page_incref { s with page_free_list := rest, mem := zero_page s.mem f } f)
          (page2kva f) (fun h => hq (List.mem_cons_of_mem _ h))
        dsimp only
        generalize walk_create n
          (page_incref { s with page_free_list := rest, mem := zero_page s.mem f } f)
          (page2kva f) g = r at hih ⊢
        obtain ⟨s3, pte⟩ := r
        simp only [page_incref, if_neg hqf] at hih
        by_cases hp : pte = 0
        · rw [if_pos hp]
          simp only
          unfold page_decref
          split <;> simp [hqf, hih.1, hih.2]
        · rw [if_neg hp]
          simp [mem_write, hih.1, hih.2]
    · rw [if_neg hc]
      exact ih s _ hq

theorem two_pow_64 : (2 : Nat) ^ 64 = 18446744073709551616 := by norm_num

theorem PTE_ADDR_table_slot (f : Nat) (h64 : page2pa f < 2 ^ 64) :
    PTE_ADDR (page2pa f ||| __EPTE_FULL) = page2pa f := by
  rw [two_pow_64, page2pa_eq] at h64
  rw [__EPTE_FULL_eq, page2pa_eq, or_eq_add_of_aligned _ _ (by omega) (by omega), PTE_ADDR_eq,
    two_pow_64]
  omega

theorem page2pa_ne_zero (f : Nat) (h : f ≠ 0) : page2pa f ≠ 0 := by
  rw [page2pa_eq]; omega

theorem leaf_entry_succ_of_ne (mem : Nat → Nat) (n t g : Nat)
    (hc : PTE_ADDR (mem (t + 8 * ADDR_TO_IDX g (n + 1))) ≠ 0) :
    leaf_entry mem (n + 1) t g =
      leaf_entry mem n (KADDR (PTE_ADDR (mem (t + 8 * ADDR_TO_IDX g (n + 1))))) g := by
  simp [leaf_entry, walk_ro, hc]

theorem leaf_entry_succ_of_eq (mem : Nat → Nat) (n t g : Nat)
    (hc : PTE_ADDR (mem (t + 8 * ADDR_TO_IDX g (n + 1))) = 0) :
    leaf_entry mem (n + 1) t g = 0 := by
  simp [leaf_entry, walk_ro, hc]

/-- A successful creating walk: the read-only walk of the new memory ends at the
returned pointer, its slots are old slots of the walk or lie in pages taken from the
free list, and the leaf is zero when the old leaf entry was. -/
theorem walk_create_succ (n : Nat) (s : KState) (t g : Nat)
    (hnd : s.page_free_list.Nodup)
    (hfree : ∀ f ∈ s.page_free_list, f ≠ 0 ∧ page2pa f < 2 ^ 64)
    (hpath : ∀ a ∈ walk_slots s.mem n t g, ∀ f ∈ s.page_free_list, ¬ in_page f a)
    (hok : (walk_create n s t g).2 ≠ 0) :
    walk_ro (walk_create n s t g).1.mem n t g = some (walk_create n s t g).2 ∧
      (∀ a ∈ walk_slots (walk_create n s t g).1.mem n t g,
        a ∈ walk_slots s.mem n t g ∨ ∃ f ∈ s.page_free_list, in_page f a) ∧
      (leaf_entry s.mem n t g = 0 →
        (walk_create n s t g).1.mem (walk_create n s t g).2 = 0) := by
  induction n generalizing s t with
  | zero =>
    refine ⟨by simp [walk_create, walk_ro], ?_, ?_⟩
    · intro a ha; left; simpa [walk_create, walk_slots] using ha
    · intro h; simpa [walk_create, leaf_entry, walk_ro] using h
  | succ n ih =>
    have hslot : ∀ f ∈ s.page_free_list, ¬ in_page f (t + 8 * ADDR_TO_IDX g (n + 1)) :=
      hpath _ (by rw [walk_slots]; exact List.mem_cons_self _ _)
    by_cases hc : PTE_ADDR (s.mem (t + 8 * ADDR_TO_IDX g (n + 1))) = 0
    · rw [walk_create, if_pos hc] at hok ⊢
      cases hfl : s.page_free_list with
      | nil => rw [page_alloc_nil s _ hfl] at hok; simp at hok
      | cons f rest =>
        rw [page_alloc_zero_cons s f rest hfl] at hok ⊢
        rw [hfl] at hnd hfree hslot
        have hfr : f ∉ rest := (List.nodup_cons.mp hnd).1
        have hff := hfree f (List.mem_cons_self _ _)
        have hih := ih
          (page_incref { s with page_free_list := rest, mem := zero_page s.mem f } f)
          (page2kva f) (List.nodup_cons.mp hnd).2
          (fun f' hf' => hfree f' (List.mem_cons_of_mem _ hf'))
          (by
            intro a ha f' hf' hin
            simp only [page_incref] at ha
            rw [walk_slots_fresh, List.mem_singleton] at ha
            have := in_page_unique _ _ _ (ha ▸ idx_in_page f g n) hin
            exact hfr (this ▸ hf'))
        have hfresh : leaf_entry
            (page_incref { s with page_free_list := rest, mem := zero_page s.mem f } f).mem
            n (page2kva f) g = 0 := by
          simp only [page_incref]; exact leaf_entry_fresh _ _ _ _
        have hsl0 : walk_slots
            (page_incref { s with page_free_list := rest, mem := zero_page s.mem f } f).mem
            n (page2kva f) g = [page2kva f + 8 * ADDR_TO_IDX g n] := by
          simp only [page_incref]; exact walk_slots_fresh _ _ _ _
        rw [hsl0] at hih
        dsimp only at hok ⊢
        generalize walk_create n
          (page_incref { s with page_free_list := rest, mem := zero_page s.mem f } f)
          (page2kva f) g = r at hih hok ⊢
        obtain ⟨s3, pte⟩ := r
        have hp : pte ≠ 0 := by
          intro e; rw [if_pos e] at hok; exact hok rfl
        rw [if_neg hp]
        obtain ⟨h1, h3, h4⟩ := hih hp
        simp only at h1 h3 h4
        have h4' := h4 hfresh
        -- slots of the new subtree lie in pages of the old free list
        have hin : ∀ a ∈ walk_slots s3.mem n (page2kva f) g,
            ∃ f' ∈ f :: rest, in_page f' a := by
          intro a ha
          rcases h3 a ha with h | ⟨f', hf', hin⟩
          · rw [List.mem_singleton] at h
            exact ⟨f, List.mem_cons_self _ _, h ▸ idx_in_page f g n⟩
          · exact ⟨f', List.mem_cons_of_mem _ hf', hin⟩
        have hne : ∀ a ∈ walk_slots s3.mem n (page2kva f) g,
            a ≠ t + 8 * ADDR_TO_IDX g (n + 1) := by
          intro a ha e
          obtain ⟨f', hf', hin'⟩ := hin a ha
          exact hslot f' hf' (e ▸ hin')
        have hcg := walk_congr s3.mem
          (mem_write s3 (t + 8 * ADDR_TO_IDX g (n + 1)) (page2pa f ||| __EPTE_FULL)).mem
          n (page2kva f) g (fun a ha => by simp [mem_write, hne a ha])
        have hX : (mem_write s3 (t + 8 * ADDR_TO_IDX g (n + 1))
            (page2pa f ||| __EPTE_FULL)).mem (t + 8 * ADDR_TO_IDX g (n + 1))
            = page2pa f ||| __EPTE_FULL := by simp [mem_write]
        have hXa := PTE_ADDR_table_slot f hff.2
        have hXn := page2pa_ne_zero f hff.1
        have hk : KADDR (page2pa f) = page2kva f := rfl
        refine ⟨?_, ?_, ?_⟩
        · simp only
          rw [walk_ro, hX, hXa, if_neg hXn, hk, hcg.1, h1]
        · intro a ha
          simp only at ha
          rw [walk_slots, hX, hXa, if_neg hXn, hk, hcg.2] at ha
          rcases List.mem_cons.mp ha with h | h
          · left; rw [h, walk_slots]; exact List.mem_cons_self _ _
          · right; exact hin a h
        · intro _
          simp only
          have : pte ≠ t + 8 * ADDR_TO_IDX g (n + 1) :=
            hne pte (walk_ro_mem_slots _ _ _ _ _ h1)
          simp [mem_write, this, h4']
    · rw [walk_create, if_neg hc] at hok ⊢
      have hsl : walk_slots s.mem (n + 1) t g = (t + 8 * ADDR_TO_IDX g (n + 1)) ::
          walk_slots s.mem n (KADDR (PTE_ADDR (s.mem (t + 8 * ADDR_TO_IDX g (n + 1))))) g := by
        rw [walk_slots, if_neg hc]
      obtain ⟨h1, h3, h4⟩ := ih s (KADDR (PTE_ADDR (s.mem (t + 8 * ADDR_TO_IDX g (n + 1)))))
        hnd hfree (fun a ha => hpath a (by rw [hsl]; exact List.mem_cons_of_mem _ ha)) hok
      have hfr := walk_create_mem_frame n s
        (KADDR (PTE_ADDR (s.mem (t + 8 * ADDR_TO_IDX g (n + 1))))) g
        (t + 8 * ADDR_TO_IDX g (n + 1)) hslot (Or.inr hc)
      refine ⟨?_, ?_, ?_⟩
      · rw [walk_ro, hfr, if_neg hc]; exact h1
      · intro a ha
        rw [walk_slots, hfr, if_neg hc] at ha
        rcases List.mem_cons.mp ha with h | h
        · left; rw [h, hsl]; exact List.mem_cons_self _ _
        · rcases h3 a h with h' | h'
          · left; rw [hsl]; exact List.mem_cons_of_mem _ h'
          · right; exact h'
      · intro hl
        rw [leaf_entry_succ_of_ne _ _ _ _ hc] at hl
        exact h4 hl

/-! ## The leaf entry written by the map -/

theorem walk_ro_write_leaf (mem : Nat → Nat) (n t g pte v : Nat)
    (h : walk_ro mem n t g = some pte) (h0 : mem pte = 0) :
    walk_ro (fun a => if a = pte then v else mem a) n t g = some pte := by
  induction n generalizing t with
  | zero => simpa [walk_ro] using h
  | succ n ih =>
    rw [walk_ro] at h ⊢
    by_cases hc : PTE_ADDR (mem (t + 8 * ADDR_TO_IDX g (n + 1))) = 0
    · rw [if_pos hc] at h; simp at h
    · rw [if_neg hc] at h
      have hne : t + 8 * ADDR_TO_IDX g (n + 1) ≠ pte := by
        intro e; rw [e, h0] at hc; exact hc PTE_ADDR_zero
      simp only [if_neg hne, if_neg hc]
      exact ih _ h

theorem PADDR_page2kva (p : Nat) : PADDR (page2kva p) = page2pa p := by
  simp [PADDR, page2kva, KADDR]

theorem int_of_u64_small (x : Nat) (h : x < 2 ^ 31) : int_of_u64 x = (x : Int) := by
  have h' : x < 2147483648 := by simpa using h
  unfold int_of_u64
  have : x % 4294967296 = x := Nat.mod_eq_of_lt (by omega)
  rw [this, if_pos h']

theorem u64_of_int_natCast (x : Nat) (h : x < 2 ^ 64) : u64_of_int (x : Int) = x := by
  have h' : x < 18446744073709551616 := by simpa using h
  unfold u64_of_int
  omega

theorem u64_of_int_small (perm : Int) (h0 : 0 ≤ perm) (h1 : perm < 4096) :
    u64_of_int perm < 4096 := by
  unfold u64_of_int
  omega

theorem ptr_of_page (p : Nat) (h : page2pa p < 2 ^ 31) :
    u64_of_int (int_of_u64 (PADDR (page2kva p))) = page2pa p := by
  rw [PADDR_page2kva, int_of_u64_small _ h]
  exact u64_of_int_natCast _ (lt_trans h (by norm_num))

theorem leaf_flags_lt (x : Nat) (hx : x < 4096) :
    PTE_P ||| x ||| __EPTE_IPAT ||| __EPTE_TYPE EPTE_TYPE_WB < 4096 := by
  have e : (4096 : Nat) = 2 ^ 12 := by norm_num
  rw [e] at hx ⊢
  exact Nat.or_lt_two_pow (Nat.or_lt_two_pow (Nat.or_lt_two_pow (by decide) hx) (by decide))
    (by decide)

theorem leaf_flags_odd (x : Nat) :
    (PTE_P ||| x ||| __EPTE_IPAT ||| __EPTE_TYPE EPTE_TYPE_WB) % 2 = 1 := by
  have h : (PTE_P ||| x ||| __EPTE_IPAT ||| __EPTE_TYPE EPTE_TYPE_WB).testBit 0 = true := by
    simp [Nat.testBit_or, PTE_P]
  rw [Nat.testBit_zero] at h
  simpa using h

/-- The entry `ept_map_hva2gpa` writes, as frame address plus flags. -/
theorem leaf_value_eq (pa x : Nat) (hpa : pa % 4096 = 0) (hpa64 : pa < 2 ^ 64) :
    PTE_ADDR pa ||| PTE_P ||| x ||| __EPTE_IPAT ||| __EPTE_TYPE EPTE_TYPE_WB
      = pa ||| (PTE_P ||| x ||| __EPTE_IPAT ||| __EPTE_TYPE EPTE_TYPE_WB) := by
  have : PTE_ADDR pa = pa := by
    rw [PTE_ADDR_eq, two_pow_64]; rw [two_pow_64] at hpa64; omega
  rw [this]
  simp only [Nat.lor_assoc]

theorem leaf_value_addr (pa x : Nat) (hpa : pa % 4096 = 0) (hpa64 : pa < 2 ^ 64)
    (hx : x < 4096) :
    epte_addr (PTE_ADDR pa ||| PTE_P ||| x ||| __EPTE_IPAT ||| __EPTE_TYPE EPTE_TYPE_WB)
      = pa := by
  rw [leaf_value_eq pa x hpa hpa64, or_eq_add_of_aligned _ _ hpa (leaf_flags_lt x hx),
    epte_addr_eq, two_pow_64]
  have := leaf_flags_lt x hx
  rw [two_pow_64] at hpa64
  omega

theorem leaf_value_present (pa x : Nat) (hpa : pa % 4096 = 0) (hpa64 : pa < 2 ^ 64)
    (hx : x < 4096) :
    epte_present (PTE_ADDR pa ||| PTE_P ||| x ||| __EPTE_IPAT ||| __EPTE_TYPE EPTE_TYPE_WB)
      = true := by
  rw [leaf_value_eq pa x hpa hpa64, or_eq_add_of_aligned _ _ hpa (leaf_flags_lt x hx),
    epte_present_iff]
  have := leaf_flags_odd x
  omega

theorem page2pa_aligned (p : Nat) : page2pa p % 4096 = 0 := by
  rw [page2pa_eq]; omega

/-- What a call of `ept_map_hva2gpa` that returns `0` without overwrite has done. -/
theorem map_ok_inv (s s' : KState) (eptrt hva gpa : Nat) (perm : Int) (hroot : eptrt ≠ 0)
    (h : ept_map_hva2gpa s eptrt hva gpa perm 0 = .ok (s', 0)) :
    (walk_create 3 s eptrt gpa).2 ≠ 0 ∧
      (walk_create 3 s eptrt gpa).1.mem (walk_create 3 s eptrt gpa).2 = 0 ∧
      s' = mem_write (walk_create 3 s eptrt gpa).1 (walk_create 3 s eptrt gpa).2
        (PTE_ADDR (u64_of_int (int_of_u64 (PADDR hva))) ||| PTE_P ||| u64_of_int perm
          ||| __EPTE_IPAT ||| __EPTE_TYPE EPTE_TYPE_WB) := by
  simp only [ept_map_hva2gpa] at h
  cases hpg : pa2page s (u64_of_int (int_of_u64 (PADDR hva))) with
  | none => rw [hpg] at h; simp [E_INVAL] at h
  | some pg =>
    rw [hpg] at h
    simp only at h
    rw [ept_lookup_gpa_create _ _ _ _ hroot (by decide)] at h
    by_cases h2 : (walk_create 3 s eptrt gpa).2 = 0
    · rw [if_pos h2] at h; simp at h
    · rw [if_neg h2] at h
      simp only [if_neg h2] at h
      by_cases h0 : (walk_create 3 s eptrt gpa).1.mem (walk_create 3 s eptrt gpa).2 = 0
      · simp [h0] at h
        exact ⟨h2, h0, h.symm⟩
      · simp [h0, E_INVAL] at h

theorem ok_state_of {α : Type} (r : Except Halt (KState × α)) (d : KState) (a : α)
    (h : value_of r = some a) : r = .ok (state_of r d, a) := by
  cases r with
  | error e => simp [value_of] at h
  | ok x =>
    obtain ⟨s, b⟩ := x
    simp only [value_of, Option.some.injEq] at h
    simp [state_of, h]

/-- A map that returns without overwrite leaves a complete path to the leaf it wrote. -/
theorem map_ok_walk (s s' : KState) (eptrt hva gpa : Nat) (perm : Int) (hroot : eptrt ≠ 0)
    (hnd : s.page_free_list.Nodup)
    (hfree : ∀ f ∈ s.page_free_list, f ≠ 0 ∧ page2pa f < 2 ^ 64)
    (hpath : ∀ a ∈ walk_slots s.mem 3 eptrt gpa, ∀ f ∈ s.page_free_list, ¬ in_page f a)
    (h : ept_map_hva2gpa s eptrt hva gpa perm 0 = .ok (s', 0)) :
    ∃ pte, pte ≠ 0 ∧ walk_ro s'.mem 3 eptrt gpa = some pte ∧
      s'.mem pte = PTE_ADDR (u64_of_int (int_of_u64 (PADDR hva))) ||| PTE_P |||
        u64_of_int perm ||| __EPTE_IPAT ||| __EPTE_TYPE EPTE_TYPE_WB := by
  obtain ⟨h2, h0, hs⟩ := map_ok_inv s s' eptrt hva gpa perm hroot h
  obtain ⟨h1, -, -⟩ := walk_create_succ 3 s eptrt gpa hnd hfree hpath h2
  refine ⟨(walk_create 3 s eptrt gpa).2, h2, ?_, ?_⟩
  · rw [hs]
    exact walk_ro_write_leaf _ _ _ _ _ _ h1 h0
  · rw [hs]; simp [mem_write]

/-- A returning `ept_map_hva2gpa` changes reference counts of free-list pages only. -/
theorem map_pp_ref_frame (s s1 : KState) (eptrt hva gpa q : Nat) (perm ow r : Int)
    (h : ept_map_hva2gpa s eptrt hva gpa perm ow = .ok (s1, r))
    (hq : q ∉ s.page_free_list) : s1.pp_ref q = s.pp_ref q := by
  simp only [ept_map_hva2gpa] at h
  cases hpg : pa2page s (u64_of_int (int_of_u64 (PADDR hva))) with
  | none =>
    rw [hpg] at h
    simp only [Except.ok.injEq, Prod.mk.injEq] at h
    rw [← h.1]
  | some pg =>
    rw [hpg] at h
    simp only at h
    by_cases hroot : eptrt = 0
    · simp [ept_lookup_gpa, hroot] at h
    · rw [ept_lookup_gpa_create _ _ _ _ hroot (by decide)] at h
      have hf := (walk_create_pp_ref_frame 3 s eptrt gpa q hq).1
      by_cases h2 : (walk_create 3 s eptrt gpa).2 = 0
      · rw [if_pos h2] at h; simp at h
      · rw [if_neg h2] at h
        simp only [if_neg h2] at h
        split at h
        · simp only [Except.ok.injEq, Prod.mk.injEq] at h
          rw [← h.1, hf]
        · split at h
          · simp only [Except.ok.injEq, Prod.mk.injEq] at h
            rw [← h.1]
            simpa [mem_write] using hf
          · simp only [Except.ok.injEq, Prod.mk.injEq] at h
            rw [← h.1, hf]

/-- With `overwrite = 1` the only negative result of `ept_map_hva2gpa` is the early
`-E_INVAL`, before any state change. -/
theorem map_overwrite_neg (s s1 : KState) (eptrt hva gpa : Nat) (perm r : Int)
    (h : ept_map_hva2gpa s eptrt hva gpa perm 1 = .ok (s1, r)) (hr : r < 0) : s1 = s := by
  simp only [ept_map_hva2gpa] at h
  cases hpg : pa2page s (u64_of_int (int_of_u64 (PADDR hva))) with
  | none =>
    rw [hpg] at h
    simp only [Except.ok.injEq, Prod.mk.injEq] at h
    exact h.1.symm
  | some pg =>
    rw [hpg] at h
    simp only at h
    generalize ept_lookup_gpa s eptrt gpa 1 = l at h
    obtain ⟨s2, ret, pte⟩ := l
    simp only at h
    cases pte with
    | none => simp at h
    | some p =>
      simp only at h
      by_cases hp : p = 0
      · simp [hp] at h
      · simp [hp] at h
        omega

/-! ## The teardown as a list of decrements -/

theorem page_decref_mem (s : KState) (q : Nat) :
    (page_decref s q).mem = s.mem ∧ (page_decref s q).npages = s.npages := by
  unfold page_decref; split <;> exact ⟨rfl, rfl⟩

/-- When the allocator runs dry during the lookup, `ept_map_hva2gpa` reads through the
`NULL` entry pointer. -/
theorem map_oom_faults (s : KState) (eptrt hva gpa : Nat) (perm overwrite : Int)
    (hroot : eptrt ≠ 0)
    (htracked : pa2page s (u64_of_int (int_of_u64 (PADDR hva))) ≠ none)
    (hoom : s.page_free_list.length < missing_tables s.mem 3 eptrt gpa) :
    (ept_lookup_gpa s eptrt gpa 1).2 = (-E_NO_MEM, some 0) ∧
      ept_map_hva2gpa s eptrt hva gpa perm overwrite = .error Halt.fault := by
  have h2 := walk_create_null 3 s eptrt gpa hoom
  have hl := ept_lookup_gpa_create s eptrt gpa 1 hroot (by decide)
  rw [if_pos h2] at hl
  refine ⟨by rw [hl], ?_⟩
  simp only [ept_map_hva2gpa]
  cases hpg : pa2page s (u64_of_int (int_of_u64 (PADDR hva))) with
  | none => exact absurd hpg htracked
  | some pg => simp [hl]

/-- The wrapper `ept_page_insert` relative to the result `(s1, r)` of the map it calls:
on success it returns `0` with one more reference to `pp`, otherwise `-E_NO_MEM` with
the count of `pp` as before the call. -/
theorem page_insert_of_map (s s1 : KState) (eptrt pp gpa : Nat) (perm r : Int)
    (hmap : ept_map_hva2gpa s eptrt (page2kva pp) gpa perm 1 = .ok (s1, r)) :
    (0 ≤ r → ∃ s', ept_page_insert s eptrt pp gpa perm = .ok (s', 0) ∧
        s'.pp_ref pp = s1.pp_ref pp + 1 ∧
        (pp ∉ s.page_free_list → s'.pp_ref pp = s.pp_ref pp + 1)) ∧
      (r < 0 → ept_page_insert s eptrt pp gpa perm = .ok (s1, -E_NO_MEM) ∧
        s1.pp_ref pp = s.pp_ref pp) := by
  constructor
  · intro hr
    refine ⟨page_incref s1 pp, ?_, by simp [page_incref], ?_⟩
    · unfold ept_page_insert
      rw [hmap]
      simp [not_lt.mpr hr]
    · intro hq
      have := map_pp_ref_frame s s1 eptrt _ gpa pp perm 1 r hmap hq
      simp [page_incref, this]
  · intro hr
    constructor
    · unfold ept_page_insert
      rw [hmap]
      simp [hr]
    · rw [map_overwrite_neg s s1 eptrt _ gpa perm r hmap hr]

/-! ## Trees of tables -/

theorem KADDR_PTE_ADDR (v : Nat) : KADDR (PTE_ADDR v) = page2kva (PTE_ADDR v >>> 12) := by
  unfold page2kva
  congr 1
  rw [page2pa_eq, Nat.shiftRight_eq_div_pow, PTE_ADDR_eq]
  norm_num

theorem in_subtree_self (mem : Nat → Nat) (n q : Nat) : in_subtree mem n q q := by
  cases n with
  | zero => simp [in_subtree]
  | succ n => simp [in_subtree]

theorem in_subtree_child (mem : Nat → Nat) (n q i x : Nat) (hi : i < 512)
    (hc : PTE_ADDR (mem (page2kva q + 8 * i)) ≠ 0)
    (hx : in_subtree mem n (PTE_ADDR (mem (page2kva q + 8 * i)) >>> 12) x) :
    in_subtree mem (n + 1) q x := by
  rw [in_subtree]; exact Or.inr ⟨i, hi, hc, hx⟩

/-- Every slot of a walk lies in a table page of the tree. -/
theorem walk_slots_subtree (mem : Nat → Nat) (n q g a : Nat)
    (ha : a ∈ walk_slots mem n (page2kva q) g) :
    ∃ x, in_subtree mem n q x ∧ in_page x a := by
  induction n generalizing q with
  | zero =>
    simp only [walk_slots, List.mem_singleton] at ha
    exact ⟨q, in_subtree_self _ _ _, ha ▸ idx_in_page q g 0⟩
  | succ n ih =>
    rw [walk_slots] at ha
    rcases List.mem_cons.mp ha with h | h
    · exact ⟨q, in_subtree_self _ _ _, h ▸ idx_in_page q g (n + 1)⟩
    · by_cases hc : PTE_ADDR (mem (page2kva q + 8 * ADDR_TO_IDX g (n + 1))) = 0
      · rw [if_pos hc] at h; simp at h
      · rw [if_neg hc, KADDR_PTE_ADDR] at h
        obtain ⟨x, hx, hin⟩ := ih _ h
        exact ⟨x, in_subtree_child _ _ _ _ _ (ADDR_TO_IDX_lt g (n + 1)) hc hx, hin⟩

/-- The slots of a walk below its first level lie in the subtree behind the first slot. -/
theorem walk_slots_succ_subtree (mem : Nat → Nat) (n q g a : Nat)
    (ha : a ∈ walk_slots mem (n + 1) (page2kva q) g) :
    a = page2kva q + 8 * ADDR_TO_IDX g (n + 1) ∨
      (PTE_ADDR (mem (page2kva q + 8 * ADDR_TO_IDX g (n + 1))) ≠ 0 ∧
        ∃ x, in_subtree mem n
          (PTE_ADDR (mem (page2kva q + 8 * ADDR_TO_IDX g (n + 1))) >>> 12) x ∧ in_page x a) := by
  rw [walk_slots] at ha
  rcases List.mem_cons.mp ha with h | h
  · exact Or.inl h
  · by_cases hc : PTE_ADDR (mem (page2kva q + 8 * ADDR_TO_IDX g (n + 1))) = 0
    · rw [if_pos hc] at h; simp at h
    · rw [if_neg hc, KADDR_PTE_ADDR] at h
      exact Or.inr ⟨hc, walk_slots_subtree _ _ _ _ _ h⟩

theorem in_subtree_fresh (mem : Nat → Nat) (n f x : Nat)
    (h : in_subtree (zero_page mem f) n f x) : x = f := by
  cases n with
  | zero => simpa [in_subtree] using h
  | succ n =>
    rw [in_subtree] at h
    rcases h with h | ⟨i, hi, hc, -⟩
    · exact h
    · rw [zero_page_in _ _ _ (slot_in_page f i hi)] at hc
      exact absurd PTE_ADDR_zero hc

theorem tree_wf_fresh (mem : Nat → Nat) (n f : Nat) : tree_wf (zero_page mem f) n f := by
  cases n with
  | zero => simp [tree_wf]
  | succ n =>
    rw [tree_wf]
    constructor
    · intro i hi hc
      rw [zero_page_in _ _ _ (slot_in_page f i hi)] at hc
      exact absurd PTE_ADDR_zero hc
    · intro i j hi _ _ hc
      rw [zero_page_in _ _ _ (slot_in_page f i hi)] at hc
      exact absurd PTE_ADDR_zero hc

/-- Slots of a walk are outside the free pages when no table of the tree is free. -/
theorem walk_slots_not_free (mem : Nat → Nat) (free : List Nat) (n q g : Nat)
    (hnf : ∀ x, in_subtree mem n q x → x ∉ free) :
    ∀ a ∈ walk_slots mem n (page2kva q) g, ∀ f ∈ free, ¬ in_page f a := by
  intro a ha f hf hin
  obtain ⟨x, hx, hxa⟩ := walk_slots_subtree mem n q g a ha
  exact hnf x hx (in_page_unique _ _ _ hin hxa ▸ hf)

theorem walk_create_enough (n : Nat) (s : KState) (t g : Nat) (ht : t ≠ 0)
    (hlen : missing_tables s.mem n t g ≤ s.page_free_list.length) :
    (walk_create n s t g).2 ≠ 0 := by
  induction n generalizing s t with
  | zero => simp only [walk_create]; omega
  | succ n ih =>
    rw [missing_tables] at hlen
    rw [walk_create]
    by_cases hc : PTE_ADDR (s.mem (t + 8 * ADDR_TO_IDX g (n + 1))) = 0
    · rw [if_pos hc] at hlen ⊢
      cases hfl : s.page_free_list with
      | nil => rw [hfl] at hlen; simp at hlen
      | cons f rest =>
        rw [page_alloc_zero_cons s f rest hfl]
        rw [hfl] at hlen
        have hih := ih
          (page_incref { s with page_free_list := rest, mem := zero_page s.mem f } f)
          (page2kva f) (by simpa using page2kva_ne_zero f 0)
          (by
            simp only [page_incref]
            have := missing_tables_le (zero_page s.mem f) n (page2kva f) g
            simp only [List.length_cons] at hlen
            omega)
        simp [hih]
    · rw [if_neg hc] at hlen ⊢
      exact ih s _ (by simpa using KADDR_ne_zero _ 0) hlen

/-- After a successful creating walk and a write to the leaf it returned, every word
outside the free pages and off the slots of the walk is as before. -/
theorem walk_create_unchanged (n : Nat) (s : KState) (t g v a : Nat)
    (hnd : s.page_free_list.Nodup)
    (hfree : ∀ f ∈ s.page_free_list, f ≠ 0 ∧ page2pa f < 2 ^ 64)
    (hpath : ∀ a ∈ walk_slots s.mem n t g, ∀ f ∈ s.page_free_list, ¬ in_page f a)
    (hok : (walk_create n s t g).2 ≠ 0)
    (hfa : ∀ f ∈ s.page_free_list, ¬ in_page f a)
    (ha : a ∉ walk_slots s.mem n t g) :
    (mem_write (walk_create n s t g).1 (walk_create n s t g).2 v).mem a = s.mem a := by
  obtain ⟨h1, h3, -⟩ := walk_create_succ n s t g hnd hfree hpath hok
  have hne : a ≠ (walk_create n s t g).2 := by
    intro e
    rcases h3 _ (walk_ro_mem_slots _ _ _ _ _ h1) with h | ⟨f, hf, hin⟩
    · exact ha (e ▸ h)
    · exact hfa f hf (e ▸ hin)
  simp only [mem_write, if_neg hne]
  exact walk_create_mem_frame n s t g a hfa (Or.inl ha)

theorem walk_create_succ_of_ne (n : Nat) (s : KState) (q g : Nat)
    (hc : PTE_ADDR (s.mem (page2kva q + 8 * ADDR_TO_IDX g (n + 1))) ≠ 0) :
    walk_create (n + 1) s (page2kva q) g =
      walk_create n s
        (page2kva (PTE_ADDR (s.mem (page2kva q + 8 * ADDR_TO_IDX g (n + 1))) >>> 12)) g := by
  rw [walk_create, if_neg hc, KADDR_PTE_ADDR]

theorem walk_create_succ_of_eq (n : Nat) (s : KState) (t g f : Nat) (rest : List Nat)
    (hc : PTE_ADDR (s.mem (t + 8 * ADDR_TO_IDX g (n + 1))) = 0)
    (hfl : s.page_free_list = f :: rest)
    (hok : (walk_create (n + 1) s t g).2 ≠ 0) :
    (walk_create n
        (page_incref { s with page_free_list := rest, mem := zero_page s.mem f } f)
        (page2kva f) g).2 ≠ 0 ∧
      walk_create (n + 1) s t g =
        (mem_write
          (walk_create n
            (page_incref { s with page_free_list := rest, mem := zero_page s.mem f } f)
            (page2kva f) g).1
          (t + 8 * ADDR_TO_IDX g (n + 1)) (page2pa f ||| __EPTE_FULL),
         (walk_create n
            (page_incref { s with page_free_list := rest, mem := zero_page s.mem f } f)
            (page2kva f) g).2) := by
  rw [walk_create, if_pos hc, page_alloc_zero_cons s f rest hfl] at hok ⊢
  dsimp only at hok ⊢
  by_cases hp : (walk_create n
        (page_incref { s with page_free_list := rest, mem := zero_page s.mem f } f)
        (page2kva f) g).2 = 0
  · rw [if_pos hp] at hok; exact absurd rfl hok
  · exact ⟨hp, by rw [if_neg hp]⟩

theorem leaf_entry_walk_succ (mem : Nat → Nat) (n t g c : Nat)
    (hv : PTE_ADDR (mem (t + 8 * ADDR_TO_IDX g (n + 1))) = c) (hc : c ≠ 0) :
    leaf_entry mem (n + 1) t g = leaf_entry mem n (KADDR c) g ∧
      walk_slots mem (n + 1) t g =
        (t + 8 * ADDR_TO_IDX g (n + 1)) :: walk_slots mem n (KADDR c) g := by
  subst hv
  exact ⟨leaf_entry_succ_of_ne _ _ _ _ hc, by rw [walk_slots, if_neg hc]⟩

theorem slot_inj (q i j : Nat) (h : page2kva q + 8 * i = page2kva q + 8 * j) : i = j := by
  omega

/-- A successful creating walk followed by a write to the leaf it returned leaves the
leaf entry of every guest page with another index alone; the slots its walk reads
afterwards are old slots of that walk or lie in pages taken from the free list. -/
theorem walk_create_other (n : Nat) (s : KState) (q g g' v : Nat)
    (hnd : s.page_free_list.Nodup)
    (hfree : ∀ f ∈ s.page_free_list, f ≠ 0 ∧ page2pa f < 2 ^ 64)
    (hwf : tree_wf s.mem n q)
    (hnf : ∀ x, in_subtree s.mem n q x → x ∉ s.page_free_list)
    (hok : (walk_create n s (page2kva q) g).2 ≠ 0)
    (hdiff : ∃ k, k ≤ n ∧ ADDR_TO_IDX g k ≠ ADDR_TO_IDX g' k) :
    leaf_entry (mem_write (walk_create n s (page2kva q) g).1
        (walk_create n s (page2kva q) g).2 v).mem n (page2kva q) g'
        = leaf_entry s.mem n (page2kva q) g' ∧
      ∀ a ∈ walk_slots (mem_write (walk_create n s (page2kva q) g).1
          (walk_create n s (page2kva q) g).2 v).mem n (page2kva q) g',
        a ∈ walk_slots s.mem n (page2kva q) g' ∨ ∃ f ∈ s.page_free_list, in_page f a := by
  induction n generalizing s q with
  | zero =>
    obtain ⟨k, hk, hne⟩ := hdiff
    obtain rfl : k = 0 := by omega
    have hne' : page2kva q + 8 * ADDR_TO_IDX g' 0 ≠ page2kva q + 8 * ADDR_TO_IDX g 0 :=
      fun e => hne (slot_inj _ _ _ e).symm
    constructor
    · simp [walk_create, leaf_entry, walk_ro, mem_write, hne']
    · intro a ha; left; simpa [walk_slots] using ha
  | succ n ih =>
    have hpath := walk_slots_not_free s.mem s.page_free_list (n + 1) q g hnf
    have hpath' := walk_slots_not_free s.mem s.page_free_list (n + 1) q g' hnf
    have hwf' := hwf
    rw [tree_wf] at hwf'
    have hslot : ∀ f ∈ s.page_free_list, ¬ in_page f (page2kva q + 8 * ADDR_TO_IDX g (n + 1)) :=
      hpath _ (by rw [walk_slots]; exact List.mem_cons_self _ _)
    by_cases hii : ADDR_TO_IDX g (n + 1) = ADDR_TO_IDX g' (n + 1)
    · -- both walks go through the same slot of this table
      have hdiff' : ∃ k, k ≤ n ∧ ADDR_TO_IDX g k ≠ ADDR_TO_IDX g' k := by
        obtain ⟨k, hk, hne⟩ := hdiff
        refine ⟨k, ?_, hne⟩
        rcases Nat.lt_or_ge k (n + 1) with h | h
        · omega
        · obtain rfl : k = n + 1 := by omega
          exact absurd hii hne
      by_cases hc : PTE_ADDR (s.mem (page2kva q + 8 * ADDR_TO_IDX g (n + 1))) = 0
      · -- the slot is empty: a new subtree is built in pages of the free list
        cases hfl : s.page_free_list with
        | nil =>
          rw [walk_create, if_pos hc, page_alloc_nil s _ hfl] at hok
          exact absurd rfl hok
        | cons f rest =>
          obtain ⟨hok2, hwc⟩ := walk_create_succ_of_eq n s (page2kva q) g f rest hc hfl hok
          rw [hfl] at hnd hfree hslot
          have hfr : f ∉ rest := (List.nodup_cons.mp hnd).1
          have hff := hfree f (List.mem_cons_self _ _)
          have hnd2 := (List.nodup_cons.mp hnd).2
          have hfree2 : ∀ f' ∈ rest, f' ≠ 0 ∧ page2pa f' < 2 ^ 64 :=
            fun f' hf' => hfree f' (List.mem_cons_of_mem _ hf')
          have hnf2 : ∀ x, in_subtree
              (page_incref { s with page_free_list := rest, mem := zero_page s.mem f } f).mem
              n f x → x ∉ rest := by
            intro x hx
            simp only [page_incref] at hx
            rw [in_subtree_fresh _ _ _ _ hx]
            exact hfr
          have hI := ih
            (page_incref { s with page_free_list := rest, mem := zero_page s.mem f } f) f
            hnd2 hfree2 (by simp only [page_incref]; exact tree_wf_fresh _ _ _) hnf2
            hok2 hdiff'
          have hS := walk_create_succ n
            (page_incref { s with page_free_list := rest, mem := zero_page s.mem f } f)
            (page2kva f) g hnd2 hfree2
            (walk_slots_not_free _ _ n f g hnf2) hok2
          rw [hwc]
          generalize walk_create n
            (page_incref { s with page_free_list := rest, mem := zero_page s.mem f } f)
            (page2kva f) g = r at hI hS hok2
          obtain ⟨s3, pte⟩ := r
          simp only [page_incref] at hI hS
          simp only at hok2
          rw [leaf_entry_fresh, walk_slots_fresh] at hI
          rw [walk_slots_fresh] at hS
          obtain ⟨hL, hW⟩ := hI
          obtain ⟨h1, h3, -⟩ := hS
          -- the returned leaf lies in a page of the old free list
          have hpte : ∃ f' ∈ f :: rest, in_page f' pte := by
            rcases h3 pte (walk_ro_mem_slots _ _ _ _ _ h1) with h | ⟨f', hf', hin⟩
            · rw [List.mem_singleton] at h
              exact ⟨f, List.mem_cons_self _ _, h ▸ idx_in_page f g n⟩
            · exact ⟨f', List.mem_cons_of_mem _ hf', hin⟩
          have hpne : page2kva q + 8 * ADDR_TO_IDX g (n + 1) ≠ pte := by
            intro e
            obtain ⟨f', hf', hin⟩ := hpte
            exact hslot f' hf' (e ▸ hin)
          -- and so do the slots of the other walk below the new table
          have hWin : ∀ a ∈ walk_slots (mem_write s3 pte v).mem n (page2kva f) g',
              ∃ f' ∈ f :: rest, in_page f' a := by
            intro a ha
            rcases hW a ha with h | ⟨f', hf', hin⟩
            · rw [List.mem_singleton] at h
              exact ⟨f, List.mem_cons_self _ _, h ▸ idx_in_page f g' n⟩
            · exact ⟨f', List.mem_cons_of_mem _ hf', hin⟩
          have hagree : ∀ a ∈ walk_slots (mem_write s3 pte v).mem n (page2kva f) g',
              (mem_write (mem_write s3 (page2kva q + 8 * ADDR_TO_IDX g (n + 1))
                (page2pa f ||| __EPTE_FULL)) pte v).mem a = (mem_write s3 pte v).mem a := by
            intro a ha
            have : a ≠ page2kva q + 8 * ADDR_TO_IDX g (n + 1) := by
              intro e
              obtain ⟨f', hf', hin⟩ := hWin a ha
              exact hslot f' hf' (e ▸ hin)
            simp [mem_write, this]
          have hcl := leaf_entry_congr _ _ n (page2kva f) g' hagree
          have hcw := (walk_congr _ _ n (page2kva f) g' hagree).2
          have hX : PTE_ADDR ((mem_write (mem_write s3 (page2kva q + 8 * ADDR_TO_IDX g (n + 1))
              (page2pa f ||| __EPTE_FULL)) pte v).mem
              (page2kva q + 8 * ADDR_TO_IDX g' (n + 1))) = page2pa f := by
            rw [← hii]
            simp only [mem_write, if_neg hpne, if_true]
            exact PTE_ADDR_table_slot f hff.2
          obtain ⟨e1, e2⟩ := leaf_entry_walk_succ _ n (page2kva q) g' _ hX
            (page2pa_ne_zero f hff.1)
          have hk : KADDR (page2pa f) = page2kva f := rfl
          rw [hk] at e1 e2
          simp only
          constructor
          · rw [e1, hcl, hL, leaf_entry_succ_of_eq _ _ _ _ (hii ▸ hc)]
          · intro a ha
            rw [e2, hcw] at ha
            rcases List.mem_cons.mp ha with h | h
            · left; rw [h, walk_slots]; exact List.mem_cons_self _ _
            · right; exact hWin a h
      · -- the slot holds a table: both walks descend into it
        have hwc := walk_create_succ_of_ne n s q g hc
        rw [hwc] at hok ⊢
        have hwfc := (hwf'.1 _ (ADDR_TO_IDX_lt g (n + 1)) hc)
        have hnfc : ∀ x, in_subtree s.mem n
            (PTE_ADDR (s.mem (page2kva q + 8 * ADDR_TO_IDX g (n + 1))) >>> 12) x →
            x ∉ s.page_free_list :=
          fun x hx => hnf x (in_subtree_child _ _ _ _ _ (ADDR_TO_IDX_lt g (n + 1)) hc hx)
        obtain ⟨hL, hW⟩ := ih s _ hnd hfree hwfc.1 hnfc hok hdiff'
        have hun := walk_create_unchanged n s
          (page2kva (PTE_ADDR (s.mem (page2kva q + 8 * ADDR_TO_IDX g (n + 1))) >>> 12)) g v
          (page2kva q + 8 * ADDR_TO_IDX g (n + 1)) hnd hfree
          (walk_slots_not_free _ _ n _ g hnfc) hok hslot
          (by
            intro hm
            obtain ⟨x, hx, hin⟩ := walk_slots_subtree _ _ _ _ _ hm
            have e := in_page_unique _ _ _ hin (idx_in_page q g (n + 1))
            rw [e] at hx
            exact hwfc.2 hx)
        have hX : PTE_ADDR ((mem_write
            (walk_create n s
              (page2kva (PTE_ADDR (s.mem (page2kva q + 8 * ADDR_TO_IDX g (n + 1))) >>> 12)) g).1
            (walk_create n s
              (page2kva (PTE_ADDR (s.mem (page2kva q + 8 * ADDR_TO_IDX g (n + 1))) >>> 12)) g).2
            v).mem (page2kva q + 8 * ADDR_TO_IDX g' (n + 1)))
            = PTE_ADDR (s.mem (page2kva q + 8 * ADDR_TO_IDX g (n + 1))) := by
          rw [← hii, hun]
        obtain ⟨e1, e2⟩ := leaf_entry_walk_succ _ n (page2kva q) g' _ hX hc
        obtain ⟨e3, e4⟩ := leaf_entry_walk_succ s.mem n (page2kva q) g' _
          (by rw [← hii]) hc
        rw [KADDR_PTE_ADDR] at e1 e2 e3 e4
        constructor
        · rw [e1, e3, hL]
        · intro a ha
          rw [e2] at ha
          rw [e4]
          rcases List.mem_cons.mp ha with h | h
          · left; rw [h]; exact List.mem_cons_self _ _
          · rcases hW a h with h' | h'
            · left; exact List.mem_cons_of_mem _ h'
            · right; exact h'
    · -- the walks part at this table
      have hagree : ∀ a ∈ walk_slots s.mem (n + 1) (page2kva q) g',
          (mem_write (walk_create (n + 1) s (page2kva q) g).1
            (walk_create (n + 1) s (page2kva q) g).2 v).mem a = s.mem a := by
        intro a ha
        refine walk_create_unchanged (n + 1) s (page2kva q) g v a hnd hfree hpath hok
          (hpath' a ha) ?_
        intro hag
        rcases walk_slots_succ_subtree _ _ _ _ _ hag with h | ⟨hc, x, hx, hin⟩
        · rcases walk_slots_succ_subtree _ _ _ _ _ ha with h' | ⟨hc', x', hx', hin'⟩
          · exact hii (slot_inj _ _ _ (h.symm.trans h'))
          · have hq : in_page q a := by rw [h]; exact idx_in_page q g (n + 1)
            have e := in_page_unique _ _ _ hin' hq
            rw [e] at hx'
            exact (hwf'.1 _ (ADDR_TO_IDX_lt g' (n + 1)) hc').2 hx'
        · rcases walk_slots_succ_subtree _ _ _ _ _ ha with h' | ⟨hc', x', hx', hin'⟩
          · have hq : in_page q a := by rw [h']; exact idx_in_page q g' (n + 1)
            have e := in_page_unique _ _ _ hin hq
            rw [e] at hx
            exact (hwf'.1 _ (ADDR_TO_IDX_lt g (n + 1)) hc).2 hx
          · have e := in_page_unique _ _ _ hin hin'
            rw [e] at hx
            exact hwf'.2 _ _ (ADDR_TO_IDX_lt g (n + 1)) (ADDR_TO_IDX_lt g' (n + 1)) hii hc hc'
              x' hx hx'
      constructor
      · exact leaf_entry_congr _ _ _ _ _ hagree
      · intro a ha
        rw [(walk_congr _ _ _ _ _ hagree).2] at ha
        exact Or.inl ha

theorem missing_tables_ROUNDDOWN (mem : Nat → Nat) (n t g : Nat) :
    missing_tables mem n t (ROUNDDOWN g PGSIZE) = missing_tables mem n t g := by
  induction n generalizing t with
  | zero => simp [missing_tables]
  | succ n ih => simp [missing_tables, ADDR_TO_IDX_ROUNDDOWN, ih]

theorem pa2page_page2pa (s : KState) (p : Nat) (hp : p < s.npages) :
    pa2page s (page2pa p) = some p := by
  have : page2pa p >>> 12 = p := by
    rw [page2pa_eq, Nat.shiftRight_eq_div_pow]; norm_num
  simp [pa2page, this, hp]

/-- The map without overwrite returns `0` and writes the leaf when the lookup succeeds
and ends at an empty leaf. -/
theorem map_ok_of (s : KState) (eptrt p gpa : Nat) (perm : Int) (hroot : eptrt ≠ 0)
    (hp : p < s.npages) (hp31 : page2pa p < 2 ^ 31)
    (hok : (walk_create 3 s eptrt gpa).2 ≠ 0)
    (h0 : (walk_create 3 s eptrt gpa).1.mem (walk_create 3 s eptrt gpa).2 = 0) :
    ept_map_hva2gpa s eptrt (page2kva p) gpa perm 0 =
      .ok (mem_write (walk_create 3 s eptrt gpa).1 (walk_create 3 s eptrt gpa).2
        (PTE_ADDR (page2pa p) ||| PTE_P ||| u64_of_int perm ||| __EPTE_IPAT
          ||| __EPTE_TYPE EPTE_TYPE_WB), 0) := by
  simp only [ept_map_hva2gpa]
  rw [ptr_of_page p hp31, pa2page_page2pa s p hp]
  simp only
  rw [ept_lookup_gpa_create _ _ _ _ hroot (by decide), if_neg hok]
  simp [hok, h0]

theorem full_flags_value (pa : Nat) (hpa : pa % 4096 = 0) (hpa64 : pa < 2 ^ 64) :
    (PTE_ADDR pa ||| PTE_P ||| u64_of_int ((__EPTE_FULL : Nat) : Int) ||| __EPTE_IPAT
      ||| __EPTE_TYPE EPTE_TYPE_WB) &&& __EPTE_FULL = __EPTE_FULL := by
  have hu : u64_of_int ((__EPTE_FULL : Nat) : Int) = 7 := by decide
  have hf : PTE_P ||| 7 ||| __EPTE_IPAT ||| __EPTE_TYPE EPTE_TYPE_WB = 0x77 := by decide
  rw [hu, leaf_value_eq pa 7 hpa hpa64, hf, or_eq_add_of_aligned _ _ hpa (by norm_num),
    __EPTE_FULL_eq]
  have : (pa + 0x77) &&& 7 = (pa + 0x77) % 8 := Nat.and_pow_two_sub_one_eq_mod _ 3
  rw [this]
  omega

/-- Two addresses below `2^48` in different 4 KiB pages differ in a table index. -/
theorem idx_differ_of_page_ne (g g' : Nat) (hg : g < 2 ^ 48) (hg' : g' < 2 ^ 48)
    (hne : g' / PGSIZE ≠ g / PGSIZE) :
    ∃ k, k ≤ 3 ∧ ADDR_TO_IDX g' k ≠ ADDR_TO_IDX g k := by
  by_contra hall
  push_neg at hall
  have h0 := hall 0 (by norm_num)
  have h1 := hall 1 (by norm_num)
  have h2 := hall 2 (by norm_num)
  have h3 := hall 3 (by norm_num)
  have e : ((1 <<< 9) - 1 : Nat) = 2 ^ 9 - 1 := by decide
  simp only [ADDR_TO_IDX, e, Nat.and_pow_two_sub_one_eq_mod, Nat.shiftRight_eq_div_pow]
    at h0 h1 h2 h3
  norm_num at h0 h1 h2 h3 hg hg'
  unfold PGSIZE at hne
  omega

theorem in_subtree_zero (n q x : Nat) (h : in_subtree (fun _ => 0) n q x) : x = q := by
  cases n with
  | zero => simpa [in_subtree] using h
  | succ n =>
    rw [in_subtree] at h
    rcases h with h | ⟨i, -, hc, -⟩
    · exact h
    · exact absurd PTE_ADDR_zero hc

theorem tree_wf_zero (n q : Nat) : tree_wf (fun _ => 0) n q := by
  cases n with
  | zero => simp [tree_wf]
  | succ n =>
    rw [tree_wf]
    constructor
    · intro i _ hc
      exact absurd PTE_ADDR_zero hc
    · intro i j _ _ _ hc
      exact absurd PTE_ADDR_zero hc

/-! ## The MSR shadow area -/

theorem find_msr_scan_eq (msr_idx : Nat) (area : List vmx_msr_entry) (entry n : Nat) :
    find_msr_scan msr_idx area entry n =
      if 0 < n ∧ (area.getD entry ⟨0, 0⟩).msr_index = msr_idx then (true, some entry)
      else (false, none) := by
  induction n with
  | zero => simp [find_msr_scan]
  | succ n ih =>
    rw [find_msr_scan, ih]
    by_cases h : (area.getD entry ⟨0, 0⟩).msr_index = msr_idx
    · rw [if_pos h, if_pos ⟨Nat.succ_pos _, h⟩]
    · rw [if_neg h, if_neg (fun x => h x.2), if_neg (fun x => h x.2)]

/-- The scan only ever looks at the first entry of the area. -/
theorem find_msr_in_region_eq (msr_idx : Nat) (area : List vmx_msr_entry) (area_sz : Int) :
    find_msr_in_region msr_idx area area_sz =
      if 0 < area_sz ∧ (area.getD 0 ⟨0, 0⟩).msr_index = msr_idx then (true, some 0)
      else (false, none) := by
  unfold find_msr_in_region
  rw [find_msr_scan_eq]
  have : 0 < area_sz.toNat ↔ 0 < area_sz := by omega
  simp only [this]

theorem EFER_MSR_mod : EFER_MSR % 4294967296 = EFER_MSR := by decide

/-- A WRMSR to the extended-feature register whose shadow entry is not the first of
the area fails its assertion. -/
theorem handle_wrmsr_not_first (tf : Trapframe) (ginfo : VmxGuestInfo) (vmcs : Vmcs)
    (hrcx : tf.tf_regs.reg_rcx = EFER_MSR)
    (hfirst : (ginfo.msr_guest_area.getD 0 ⟨0, 0⟩).msr_index ≠ EFER_MSR) :
    handle_wrmsr tf ginfo vmcs = .error Halt.panic := by
  have hf : find_msr_in_region (EFER_MSR % 4294967296) ginfo.msr_guest_area
      ginfo.msr_count = (false, none) := by
    rw [find_msr_in_region_eq, EFER_MSR_mod, if_neg (fun x => hfirst x.2)]
  unfold handle_wrmsr
  simp only [hrcx, if_true, hf]

/-- A WRMSR to the extended-feature register whose shadow entry is the first of the
area: the shadow value becomes `(rdx << 32) | rax`; the entry controls gain the 64-bit
guest bit, by one write, exactly when the long-mode-enable bit goes from 0 to 1. -/
theorem handle_wrmsr_first (tf : Trapframe) (ginfo : VmxGuestInfo) (vmcs : Vmcs)
    (e0 : vmx_msr_entry) (rest : List vmx_msr_entry)
    (hrcx : tf.tf_regs.reg_rcx = EFER_MSR)
    (hcount : 0 < ginfo.msr_count)
    (harea : ginfo.msr_guest_area = e0 :: rest)
    (hidx : e0.msr_index = EFER_MSR) :
    handle_wrmsr tf ginfo vmcs =
      .ok (advance_rip tf vmcs,
        { ginfo with msr_guest_area :=
            { e0 with msr_value :=
                ((tf.tf_regs.reg_rdx <<< 32) % 18446744073709551616)
                  ||| tf.tf_regs.reg_rax } :: rest },
        (if BIT e0.msr_value EFER_LME = 0 ∧
            BIT (((tf.tf_regs.reg_rdx <<< 32) % 18446744073709551616)
              ||| tf.tf_regs.reg_rax) EFER_LME = 1 then
          { vmcs with
            vmentry_controls :=
              (vmcs.vmentry_controls % 4294967296) ||| VMCS_VMENTRY_x64_GUEST
            vmentry_writes := vmcs.vmentry_writes + 1 }
        else vmcs), true) := by
  have h0 : (e0 :: rest).getD 0 ⟨0, 0⟩ = e0 := rfl
  have hf : find_msr_in_region (EFER_MSR % 4294967296) ginfo.msr_guest_area
      ginfo.msr_count = (true, some 0) := by
    rw [find_msr_in_region_eq, EFER_MSR_mod, harea, h0, if_pos ⟨hcount, hidx⟩]
  rw [harea] at hf
  unfold handle_wrmsr
  simp only [hrcx, if_true, harea, hf, Bool.true_eq_false, if_false, h0,
    List.set_cons_zero]
  split <;> rfl

/-! ## The instruction handlers -/

theorem int_of_u64_eq_one (x : Nat) : int_of_u64 x = 1 ↔ x % 4294967296 = 1 := by
  unfold int_of_u64
  split <;> omega

theorem u64_of_int_int_of_u64 (x : Nat) :
    u64_of_int (int_of_u64 x) % 4294967296 = x % 4294967296 := by
  unfold int_of_u64 u64_of_int
  split <;> omega

theorem testBit_clear5 (x i : Nat) (hx : x < 4294967296) :
    (x &&& 0xFFFFFFDF).testBit i = (decide (i ≠ 5) && x.testBit i) := by
  rw [Nat.testBit_and]
  by_cases hi : i < 32
  · have : (0xFFFFFFDF : Nat).testBit i = decide (i ≠ 5) := by
      interval_cases i <;> decide
    rw [this, Bool.and_comm]
  · have h1 : x.testBit i = false :=
      Nat.testBit_lt_two_pow (lt_of_lt_of_le hx
        (by
          have : (4294967296 : Nat) = 2 ^ 32 := by norm_num
          rw [this]
          exact Nat.pow_le_pow_right (by norm_num) (by omega)))
    rw [h1]
    simp

theorem handle_cpuid_eq (cpuid : Nat → Nat × Nat × Nat × Nat) (tf : Trapframe)
    (vmcs : Vmcs) :
    handle_cpuid cpuid tf vmcs =
      (advance_rip { tf with tf_regs := { tf.tf_regs with
          reg_rax := (cpuid (tf.tf_regs.reg_rax % 4294967296)).1 % 4294967296,
          reg_rbx := (cpuid (tf.tf_regs.reg_rax % 4294967296)).2.1 % 4294967296,
          reg_rcx :=
            if tf.tf_regs.reg_rax % 4294967296 = 1 then
              ((cpuid (tf.tf_regs.reg_rax % 4294967296)).2.2.1 % 4294967296) &&& 0xFFFFFFDF
            else (cpuid (tf.tf_regs.reg_rax % 4294967296)).2.2.1 % 4294967296,
          reg_rdx := (cpuid (tf.tf_regs.reg_rax % 4294967296)).2.2.2 % 4294967296 } }
        vmcs, true) := by
  unfold handle_cpuid
  simp only [u64_of_int_int_of_u64, int_of_u64_eq_one]


theorem and_0xFF (x : Nat) : x &&& 0xFF = x % 256 :=
  Nat.and_pow_two_sub_one_eq_mod x 8

theorem shr_8 (x : Nat) : x >>> 8 = x / 256 := by
  rw [Nat.shiftRight_eq_div_pow]

theorem handle_ioinstr_handled (port_iortc : Int) (tf : Trapframe) (ginfo : VmxGuestInfo)
    (vmcs : Vmcs) :
    (handle_ioinstr port_iortc tf ginfo vmcs).2.2 = true ↔
      (((vmcs.exit_qualification >>> 16) &&& 0xFFFF = IO_RTC ∧
          ¬ BIT vmcs.exit_qualification 3 ≠ 0) ∨
        ((vmcs.exit_qualification >>> 16) &&& 0xFFFF = IO_RTC + 1 ∧
          BIT vmcs.exit_qualification 3 ≠ 0 ∧
          (port_iortc = NVRAM_BASELO ∨ port_iortc = NVRAM_BASEHI ∨
            port_iortc = NVRAM_EXTLO ∨ port_iortc = NVRAM_EXTHI))) := by
  have hne : IO_RTC ≠ IO_RTC + 1 := by decide
  unfold handle_ioinstr
  dsimp only
  by_cases h1 : (vmcs.exit_qualification >>> 16) &&& 0xFFFF = IO_RTC
  · rw [if_pos h1]
    by_cases h2 : BIT vmcs.exit_qualification 3 ≠ 0
    · rw [if_neg (not_not.mpr h2)]
      refine iff_of_false Bool.false_ne_true ?_
      rintro (⟨-, h⟩ | ⟨h, -⟩)
      · exact h h2
      · exact hne (h1.symm.trans h)
    · rw [if_pos h2]
      exact iff_of_true rfl (Or.inl ⟨h1, h2⟩)
  · rw [if_neg h1]
    by_cases h3 : (vmcs.exit_qualification >>> 16) &&& 0xFFFF = IO_RTC + 1
    · rw [if_pos h3]
      by_cases h2 : BIT vmcs.exit_qualification 3 ≠ 0
      · rw [if_pos h2]
        by_cases a : port_iortc = NVRAM_BASELO
        · rw [if_pos a]
          exact iff_of_true rfl (Or.inr ⟨h3, h2, Or.inl a⟩)
        rw [if_neg a]
        by_cases b : port_iortc = NVRAM_BASEHI
        · rw [if_pos b]
          exact iff_of_true rfl (Or.inr ⟨h3, h2, Or.inr (Or.inl b)⟩)
        rw [if_neg b]
        by_cases c : port_iortc = NVRAM_EXTLO
        · rw [if_pos c]
          exact iff_of_true rfl (Or.inr ⟨h3, h2, Or.inr (Or.inr (Or.inl c))⟩)
        rw [if_neg c]
        by_cases d : port_iortc = NVRAM_EXTHI
        · rw [if_pos d]
          exact iff_of_true rfl (Or.inr ⟨h3, h2, Or.inr (Or.inr (Or.inr d))⟩)
        rw [if_neg d]
        refine iff_of_false Bool.false_ne_true ?_
        rintro (⟨h, -⟩ | ⟨-, -, h | h | h | h⟩)
        · exact h1 h
        · exact a h
        · exact b h
        · exact c h
        · exact d h
      · rw [if_neg h2]
        refine iff_of_false Bool.false_ne_true ?_
        rintro (⟨h, -⟩ | ⟨-, h, -⟩)
        · exact h1 h
        · exact h2 h
    · rw [if_neg h3]
      refine iff_of_false Bool.false_ne_true ?_
      rintro (⟨h, -⟩ | ⟨h, -⟩)
      · exact h1 h
      · exact h3 h

theorem handle_ioinstr_unhandled (port_iortc : Int) (tf : Trapframe) (ginfo : VmxGuestInfo)
    (vmcs : Vmcs) (h : (handle_ioinstr port_iortc tf ginfo vmcs).2.2 = false) :
    handle_ioinstr port_iortc tf ginfo vmcs = (port_iortc, tf, false) := by
  unfold handle_ioinstr at h ⊢
  simp only at h ⊢
  split_ifs at h ⊢ <;> rfl


/-- The bytes a data-port read returns for the four emulated indices. -/
theorem handle_ioinstr_bytes (tf : Trapframe) (ginfo : VmxGuestInfo) (vmcs : Vmcs)
    (hport : (vmcs.exit_qualification >>> 16) &&& 0xFFFF = IO_RTC + 1)
    (hin : BIT vmcs.exit_qualification 3 ≠ 0) :
    (handle_ioinstr NVRAM_BASELO tf ginfo vmcs).2.1.tf_regs.reg_rax = 640 % 256 ∧
    (handle_ioinstr NVRAM_BASEHI tf ginfo vmcs).2.1.tf_regs.reg_rax = 640 / 256 % 256 ∧
    (handle_ioinstr NVRAM_EXTLO tf ginfo vmcs).2.1.tf_regs.reg_rax =
      ((ginfo.phys_sz / 1024 + 18446744073709551616 - 1024) % 18446744073709551616) % 256 ∧
    (handle_ioinstr NVRAM_EXTHI tf ginfo vmcs).2.1.tf_regs.reg_rax =
      ((ginfo.phys_sz / 1024 + 18446744073709551616 - 1024) % 18446744073709551616)
        / 256 % 256 := by
  have hne : (vmcs.exit_qualification >>> 16) &&& 0xFFFF ≠ IO_RTC := by
    rw [hport]; decide
  have e1 : NVRAM_BASEHI ≠ NVRAM_BASELO := by decide
  have e2 : NVRAM_EXTLO ≠ NVRAM_BASELO := by decide
  have e3 : NVRAM_EXTLO ≠ NVRAM_BASEHI := by decide
  have e4 : NVRAM_EXTHI ≠ NVRAM_BASELO := by decide
  have e5 : NVRAM_EXTHI ≠ NVRAM_BASEHI := by decide
  have e6 : NVRAM_EXTHI ≠ NVRAM_EXTLO := by decide
  unfold handle_ioinstr
  dsimp only
  simp only [if_neg hne, if_pos hport, if_pos hin, if_true, if_neg e1, if_neg e2, if_neg e3,
    if_neg e4, if_neg e5, if_neg e6, advance_rip, and_0xFF, shr_8]
  exact ⟨trivial, trivial, trivial, trivial⟩

theorem handle_ioinstr_rip (port_iortc : Int) (tf : Trapframe) (ginfo : VmxGuestInfo)
    (vmcs : Vmcs) (h : (handle_ioinstr port_iortc tf ginfo vmcs).2.2 = true) :
    (handle_ioinstr port_iortc tf ginfo vmcs).2.1.tf_rip = (advance_rip tf vmcs).tf_rip := by
  unfold handle_ioinstr at h ⊢
  simp only [advance_rip] at h ⊢
  split_ifs at h ⊢ <;> rfl

theorem handle_cpuid_rip (cpuid : Nat → Nat × Nat × Nat × Nat) (tf : Trapframe)
    (vmcs : Vmcs) :
    (handle_cpuid cpuid tf vmcs).2 = true ∧
      (handle_cpuid cpuid tf vmcs).1.tf_rip = (advance_rip tf vmcs).tf_rip := by
  rw [handle_cpuid_eq]
  simp only [advance_rip, and_self]

theorem handle_rdmsr_rip (tf tf' : Trapframe) (ginfo : VmxGuestInfo) (vmcs : Vmcs)
    (b : Bool) (h : handle_rdmsr tf ginfo vmcs = .ok (tf', b)) :
    (b = true → tf'.tf_rip = (advance_rip tf vmcs).tf_rip) ∧ (b = false → tf' = tf) := by
  unfold handle_rdmsr at h
  simp only at h
  split_ifs at h with h1 h2
  · split at h
    · cases h
    · simp only [Except.ok.injEq, Prod.mk.injEq] at h
      obtain ⟨rfl, rfl⟩ := h
      exact ⟨fun _ => by simp only [advance_rip], fun h => absurd h (by simp)⟩
  · simp only [Except.ok.injEq, Prod.mk.injEq] at h
    obtain ⟨rfl, rfl⟩ := h
    exact ⟨fun h => absurd h (by simp), fun _ => rfl⟩

theorem handle_wrmsr_rip (tf tf' : Trapframe) (ginfo ginfo' : VmxGuestInfo)
    (vmcs vmcs' : Vmcs) (b : Bool)
    (h : handle_wrmsr tf ginfo vmcs = .ok (tf', ginfo', vmcs', b)) :
    (b = true → tf'.tf_rip = (advance_rip tf vmcs).tf_rip) ∧ (b = false → tf' = tf) := by
  unfold handle_wrmsr at h
  simp only at h
  split_ifs at h with h1 h2
  · split at h
    · cases h
    · simp only [Except.ok.injEq, Prod.mk.injEq] at h
      obtain ⟨rfl, -, -, rfl⟩ := h
      refine ⟨fun _ => ?_, fun h => absurd h (by simp)⟩
      simp only [advance_rip]
      split <;> rfl
  · simp only [Except.ok.injEq, Prod.mk.injEq] at h
    obtain ⟨rfl, -, -, rfl⟩ := h
    exact ⟨fun h => absurd h (by simp), fun _ => rfl⟩

theorem vmcall_codes : VMX_VMCALL_IPCSEND ≠ VMX_VMCALL_MBMAP ∧
    VMX_VMCALL_IPCRECV ≠ VMX_VMCALL_MBMAP ∧ VMX_VMCALL_IPCRECV ≠ VMX_VMCALL_IPCSEND := by
  decide

/-- The message-send case of `handle_vmcall`. -/
theorem handle_vmcall_ipcsend (s : KState) (tf : Trapframe) (gInfo : VmxGuestInfo)
    (eptrt : Nat) (vmcs : Vmcs) (envs : List Env) (ipc_send : Nat → Nat → Nat → Nat → Int)
    (ipc_recv : Nat → Int) (hrax : tf.tf_regs.reg_rax = VMX_VMCALL_IPCSEND) :
    handle_vmcall s tf gInfo eptrt vmcs envs ipc_send ipc_recv =
      .ok (s, advance_rip { tf with tf_regs := { tf.tf_regs with
        reg_rax := u64_of_int (ipc_send
          (u64_of_int (if int_of_u64 tf.tf_regs.reg_rdx = VMX_HOST_FS_ENV
            then resolve_fs_env envs (int_of_u64 tf.tf_regs.reg_rdx)
            else int_of_u64 tf.tf_regs.reg_rdx))
          tf.tf_regs.reg_rcx tf.tf_regs.reg_rbx tf.tf_regs.reg_rdi) } } vmcs, true) := by
  unfold handle_vmcall
  rw [hrax, if_neg vmcall_codes.1, if_pos rfl]

/-- The message-receive case of `handle_vmcall`: the instruction pointer is advanced
before the receive and again after it. -/
theorem handle_vmcall_ipcrecv (s : KState) (tf : Trapframe) (gInfo : VmxGuestInfo)
    (eptrt : Nat) (vmcs : Vmcs) (envs : List Env) (ipc_send : Nat → Nat → Nat → Nat → Int)
    (ipc_recv : Nat → Int) (hrax : tf.tf_regs.reg_rax = VMX_VMCALL_IPCRECV) :
    handle_vmcall s tf gInfo eptrt vmcs envs ipc_send ipc_recv =
      .ok (s, advance_rip { advance_rip tf vmcs with tf_regs := { tf.tf_regs with
        reg_rax := u64_of_int (ipc_recv tf.tf_regs.reg_rdx) } } vmcs, true) := by
  unfold handle_vmcall
  rw [hrax, if_neg vmcall_codes.2.1, if_neg vmcall_codes.2.2, if_pos rfl]
  rfl

theorem resolve_fs_env_first (pre post : List Env) (e : Env) (to_env : Int)
    (hpre : ∀ x ∈ pre, x.env_type ≠ ENV_TYPE_FS) (he : e.env_type = ENV_TYPE_FS) :
    resolve_fs_env (pre ++ e :: post) to_env = e.env_id := by
  induction pre with
  | nil => simp [resolve_fs_env, he]
  | cons x xs ih =>
    have hx : x.env_type ≠ ENV_TYPE_FS := hpre x (List.mem_cons_self _ _)
    simp only [List.cons_append, resolve_fs_env, if_neg hx]
    exact ih (fun y hy => hpre y (List.mem_cons_of_mem _ hy))

theorem resolve_fs_env_none (envs : List Env) (to_env : Int)
    (h : ∀ x ∈ envs, x.env_type ≠ ENV_TYPE_FS) : resolve_fs_env envs to_env = to_env := by
  induction envs with
  | nil => rfl
  | cons x xs ih =>
    have hx : x.env_type ≠ ENV_TYPE_FS := h x (List.mem_cons_self _ _)
    simp only [resolve_fs_env, if_neg hx]
    exact ih (fun y hy => h y (List.mem_cons_of_mem _ hy))


/-- An RDMSR of the extended-feature register whose shadow entry is the first of the
area: `rax` receives the low 32 bits of the value and `rdx` the value shifted left by
32 bits. -/
theorem handle_rdmsr_first (tf : Trapframe) (ginfo : VmxGuestInfo) (vmcs : Vmcs)
    (e0 : vmx_msr_entry) (rest : List vmx_msr_entry)
    (hrcx : tf.tf_regs.reg_rcx = EFER_MSR)
    (hcount : 0 < ginfo.msr_count)
    (harea : ginfo.msr_guest_area = e0 :: rest)
    (hidx : e0.msr_index = EFER_MSR) :
    handle_rdmsr tf ginfo vmcs =
      .ok (advance_rip { tf with tf_regs := { tf.tf_regs with
          reg_rdx := (e0.msr_value <<< 32) % 18446744073709551616,
          reg_rax := e0.msr_value &&& 0xFFFFFFFF } } vmcs, true) := by
  have h0 : (e0 :: rest).getD 0 ⟨0, 0⟩ = e0 := rfl
  have hf : find_msr_in_region (EFER_MSR % 4294967296) ginfo.msr_guest_area
      ginfo.msr_count = (true, some 0) := by
    rw [find_msr_in_region_eq, EFER_MSR_mod, harea, h0, if_pos ⟨hcount, hidx⟩]
  rw [harea] at hf
  unfold handle_rdmsr
  simp only [hrcx, if_true, harea, hf, Bool.true_eq_false, if_false, h0]

theorem split_halves (v : Nat) (hv : v < 2 ^ 64) :
    (((v >>> 32) <<< 32) % 18446744073709551616) ||| (v &&& 0xFFFFFFFF) = v := by
  have h1 : v &&& 0xFFFFFFFF = v % 2 ^ 32 := Nat.and_pow_two_sub_one_eq_mod v 32
  have h2 : (v >>> 32) <<< 32 = 2 ^ 32 * (v / 2 ^ 32) := by
    rw [Nat.shiftLeft_eq, Nat.shiftRight_eq_div_pow, Nat.mul_comm]
  have h3 : 2 ^ 32 * (v / 2 ^ 32) % 18446744073709551616 = 2 ^ 32 * (v / 2 ^ 32) := by
    apply Nat.mod_eq_of_lt
    norm_num at hv ⊢
    omega
  rw [h1, h2, h3, ← Nat.mul_add_lt_is_or (Nat.mod_lt _ (by norm_num))]
  exact Nat.div_add_mod v (2 ^ 32)

theorem shl_ne_shr (v : Nat) (hv : v < 2 ^ 64) (h0 : v ≠ 0) :
    (v <<< 32) % 18446744073709551616 ≠ v >>> 32 := by
  rw [Nat.shiftLeft_eq, Nat.shiftRight_eq_div_pow]
  have h1 : v * 2 ^ 32 % 18446744073709551616 = v % 4294967296 * 4294967296 := by
    have e : (18446744073709551616 : Nat) = 4294967296 * 4294967296 := by norm_num
    have e2 : (2 : Nat) ^ 32 = 4294967296 := by norm_num
    rw [e, e2, Nat.mul_mod_mul_right]
  rw [h1]
  norm_num at hv ⊢
  omega


/-- The ways `ept_map_hva2gpa` returns: the host address is not tracked; or the leaf is
occupied and `overwrite` is 0; or the leaf is written. -/
theorem map_returns (s s' : KState) (eptrt hva gpa : Nat) (perm overwrite ret : Int)
    (hroot : eptrt ≠ 0)
    (h : ept_map_hva2gpa s eptrt hva gpa perm overwrite = .ok (s', ret)) :
    (ret = -E_INVAL ∧ s' = s) ∨
    (ret = -E_INVAL ∧ (walk_create 3 s eptrt gpa).2 ≠ 0 ∧ s' = (walk_create 3 s eptrt gpa).1) ∨
    (ret = 0 ∧ (walk_create 3 s eptrt gpa).2 ≠ 0 ∧
      s' = mem_write (walk_create 3 s eptrt gpa).1 (walk_create 3 s eptrt gpa).2
        (PTE_ADDR (u64_of_int (int_of_u64 (PADDR hva))) ||| PTE_P ||| u64_of_int perm
          ||| __EPTE_IPAT ||| __EPTE_TYPE EPTE_TYPE_WB)) := by
  simp only [ept_map_hva2gpa] at h
  cases hpg : pa2page s (u64_of_int (int_of_u64 (PADDR hva))) with
  | none =>
    rw [hpg] at h
    simp only [Except.ok.injEq, Prod.mk.injEq] at h
    exact Or.inl ⟨h.2.symm, h.1.symm⟩
  | some pg =>
    rw [hpg] at h
    simp only at h
    rw [ept_lookup_gpa_create _ _ _ _ hroot (by decide)] at h
    by_cases h2 : (walk_create 3 s eptrt gpa).2 = 0
    · rw [if_pos h2] at h; simp at h
    · rw [if_neg h2] at h
      simp only [if_neg h2] at h
      by_cases hc : overwrite = 0 ∧
          (walk_create 3 s eptrt gpa).1.mem (walk_create 3 s eptrt gpa).2 ≠ 0
      · rw [if_pos hc] at h
        simp only [Except.ok.injEq, Prod.mk.injEq] at h
        exact Or.inr (Or.inl ⟨h.2.symm, h2, h.1.symm⟩)
      · rw [if_neg hc] at h
        have hc2 : overwrite ≠ 0 ∨
            (walk_create 3 s eptrt gpa).1.mem (walk_create 3 s eptrt gpa).2 = 0 := by
          by_cases ho : overwrite = 0
          · right
            by_contra hm
            exact hc ⟨ho, hm⟩
          · exact Or.inl ho
        rw [if_pos hc2] at h
        simp only [Except.ok.injEq, Prod.mk.injEq] at h
        exact Or.inr (Or.inr ⟨h.2.symm, h2, h.1.symm⟩)

theorem ROUNDDOWN_of_page_eq (a b : Nat) (h : a / PGSIZE = b / PGSIZE) :
    ROUNDDOWN a PGSIZE = ROUNDDOWN b PGSIZE := by
  unfold ROUNDDOWN PGSIZE at *
  omega

theorem walk_ro_same_page (mem : Nat → Nat) (n t a b : Nat) (h : a / PGSIZE = b / PGSIZE) :
    walk_ro mem n t a = walk_ro mem n t b := by
  rw [← walk_ro_ROUNDDOWN mem n t a, ← walk_ro_ROUNDDOWN mem n t b, ROUNDDOWN_of_page_eq a b h]


theorem missing_tables_zero_page (mem : Nat → Nat) (n f g : Nat) :
    missing_tables (zero_page mem f) n (page2kva f) g = n := by
  cases n with
  | zero => rfl
  | succ n => exact missing_tables_fresh mem n f g

/-- A successful creating walk takes from the free list exactly the pages of the
missing tables. -/
theorem walk_create_free_list (n : Nat) (s : KState) (t g : Nat)
    (hok : (walk_create n s t g).2 ≠ 0) :
    (walk_create n s t g).1.page_free_list
      = s.page_free_list.drop (missing_tables s.mem n t g) := by
  induction n generalizing s t with
  | zero => simp [walk_create, missing_tables]
  | succ n ih =>
    by_cases hc : PTE_ADDR (s.mem (t + 8 * ADDR_TO_IDX g (n + 1))) = 0
    · cases hfl : s.page_free_list with
      | nil =>
        exfalso
        apply hok
        rw [walk_create, if_pos hc, page_alloc_nil s _ hfl]
      | cons f rest =>
        obtain ⟨hok', he⟩ := walk_create_succ_of_eq n s t g f rest hc hfl hok
        rw [he, missing_tables, if_pos hc]
        have := ih _ _ hok'
        simp only [mem_write]
        rw [this]
        simp only [page_incref, missing_tables_zero_page, List.drop_succ_cons]
    · rw [missing_tables, if_neg hc]
      rw [walk_create, if_neg hc] at hok ⊢
      exact ih s _ hok

/-- A map with `overwrite` set, of a tracked page below `2^31`, over a walk that
succeeds. -/
theorem map_overwrite_of (s : KState) (eptrt p gpa : Nat) (perm : Int) (hroot : eptrt ≠ 0)
    (hp : p < s.npages) (hp31 : page2pa p < 2 ^ 31)
    (hok : (walk_create 3 s eptrt gpa).2 ≠ 0) :
    ept_map_hva2gpa s eptrt (page2kva p) gpa perm 1 =
      .ok (mem_write (walk_create 3 s eptrt gpa).1 (walk_create 3 s eptrt gpa).2
        (PTE_ADDR (page2pa p) ||| PTE_P ||| u64_of_int perm ||| __EPTE_IPAT
          ||| __EPTE_TYPE EPTE_TYPE_WB), 0) := by
  simp only [ept_map_hva2gpa]
  rw [ptr_of_page p hp31, pa2page_page2pa s p hp]
  simp only
  rw [ept_lookup_gpa_create _ _ _ _ hroot (by decide), if_neg hok]
  simp [hok]

theorem cga_page : KERNBASE + CGA_BUF = page2kva 184 := by decide


theorem table_ref_eq (f : Nat) : page2pa f ||| __EPTE_FULL = f * 4096 + 7 := by
  rw [__EPTE_FULL_eq, or_eq_add_of_aligned _ _ (page2pa_aligned f) (by norm_num), page2pa_eq]

theorem table_ref_inj (a b : Nat) (h : page2pa a ||| __EPTE_FULL = page2pa b ||| __EPTE_FULL) :
    a = b := by
  rw [table_ref_eq, table_ref_eq] at h
  omega

theorem table_ref_ne_zero (f : Nat) : page2pa f ||| __EPTE_FULL ≠ 0 := by
  rw [table_ref_eq]; omega

theorem slot_eq (q q' i j : Nat) (hi : i < 512) (hj : j < 512)
    (h : page2kva q + 8 * i = page2kva q' + 8 * j) : q = q' ∧ i = j := by
  rw [page2kva_eq, page2kva_eq] at h
  omega

theorem slot_not_in_page (q f i : Nat) (hi : i < 512) (hne : q ≠ f) :
    ¬ in_page f (page2kva q + 8 * i) := by
  intro h
  exact hne (in_page_unique q f _ (slot_in_page q i hi) h)

/-- Popping the head of the free list as a new, zero-filled table keeps the layout. -/
theorem levels_ok_fresh (s : KState) (level : Nat → Option Nat) (f n : Nat)
    (rest : List Nat) (hinv : levels_ok s level) (hfl : s.page_free_list = f :: rest) :
    levels_ok (page_incref { s with page_free_list := rest, mem := zero_page s.mem f } f)
      (fun x => if x = f then some n else level x) ∧
    ∀ u, u ∉ rest → unreferenced s level u →
      unreferenced (page_incref { s with page_free_list := rest, mem := zero_page s.mem f } f)
        (fun x => if x = f then some n else level x) u := by
  obtain ⟨h2, h5, h3, h4⟩ := hinv
  rw [hfl] at h3 h4
  have hf := h3 f (List.mem_cons_self _ _)
  have hmem : ∀ q m i, (if q = f then some n else level q) = some (m + 1) → i < 512 →
      q ≠ f → level q = some (m + 1) ∧
        zero_page s.mem f (page2kva q + 8 * i) = s.mem (page2kva q + 8 * i) := by
    intro q m i hq hi hne
    rw [if_neg hne] at hq
    exact ⟨hq, zero_page_out _ _ _ (slot_not_in_page q f i hi hne)⟩
  refine ⟨⟨?_, ?_, ?_, (List.nodup_cons.mp h4).2⟩, ?_⟩
  · intro q m i hq hi
    simp only [page_incref]
    by_cases hqf : q = f
    · left
      rw [hqf]
      exact zero_page_in _ _ _ (slot_in_page f i hi)
    · obtain ⟨hq', hm⟩ := hmem q m i hq hi hqf
      rw [hm]
      rcases h2 q m i hq' hi with h0 | ⟨f', hf0, hf64, hv, hl⟩
      · exact Or.inl h0
      · refine Or.inr ⟨f', hf0, hf64, hv, ?_⟩
        have : f' ≠ f := fun e => by rw [e, hf.1] at hl; cases hl
        rw [if_neg this]
        exact hl
  · intro q q' m m' i j x hq hq' hi hj hv hv'
    simp only [page_incref] at hv hv'
    by_cases hqf : q = f
    · rw [hqf, zero_page_in _ _ _ (slot_in_page f i hi)] at hv
      exact absurd hv.symm (table_ref_ne_zero x)
    by_cases hqf' : q' = f
    · rw [hqf', zero_page_in _ _ _ (slot_in_page f j hj)] at hv'
      exact absurd hv'.symm (table_ref_ne_zero x)
    obtain ⟨hl, hm⟩ := hmem q m i hq hi hqf
    obtain ⟨hl', hm'⟩ := hmem q' m' j hq' hj hqf'
    rw [hm] at hv
    rw [hm'] at hv'
    exact h5 q q' m m' i j x hl hl' hi hj hv hv'
  · intro x hx
    simp only [page_incref] at hx
    have hxf : x ≠ f := fun e => (List.nodup_cons.mp h4).1 (e ▸ hx)
    dsimp only
    rw [if_neg hxf]
    exact h3 x (List.mem_cons_of_mem _ hx)
  · intro u hu hun q m i hq hi
    simp only [page_incref]
    by_cases hqf : q = f
    · rw [hqf, zero_page_in _ _ _ (slot_in_page f i hi)]
      exact fun e => table_ref_ne_zero u e.symm
    · obtain ⟨hl, hm⟩ := hmem q m i hq hi hqf
      rw [hm]
      exact hun q m i hl hi

/-- A free page is referred to by no entry. -/
theorem free_unreferenced (s : KState) (level : Nat → Option Nat) (f : Nat)
    (hinv : levels_ok s level) (hf : f ∈ s.page_free_list) : unreferenced s level f := by
  obtain ⟨h2, -, h3, -⟩ := hinv
  intro q m i hq hi hv
  rcases h2 q m i hq hi with h0 | ⟨f', -, -, hv', hl⟩
  · rw [h0] at hv
    exact table_ref_ne_zero f hv.symm
  · rw [hv] at hv'
    rw [← table_ref_inj f f' hv', (h3 f hf).1] at hl
    cases hl


/-- Writing the entry of a new, unreferenced table into a slot of its parent keeps the
layout. -/
theorem levels_ok_link (s : KState) (level : Nat → Option Nat) (q f n idx : Nat)
    (hinv : levels_ok s level) (hq : level q = some (n + 1)) (hf : level f = some n)
    (hf0 : f ≠ 0) (hf64 : page2pa f < 2 ^ 64) (hun : unreferenced s level f)
    (hidx : idx < 512) :
    levels_ok (mem_write s (page2kva q + 8 * idx) (page2pa f ||| __EPTE_FULL)) level ∧
    ∀ u, u ≠ f → unreferenced s level u →
      unreferenced (mem_write s (page2kva q + 8 * idx) (page2pa f ||| __EPTE_FULL)) level u := by
  obtain ⟨h2, h5, h3, h4⟩ := hinv
  refine ⟨⟨?_, ?_, h3, h4⟩, ?_⟩
  · intro q1 m i hq1 hi
    simp only [mem_write]
    by_cases he : page2kva q1 + 8 * i = page2kva q + 8 * idx
    · rw [if_pos he]
      obtain ⟨e1, -⟩ := slot_eq q1 q i idx hi hidx he
      rw [e1, hq] at hq1
      have : n = m := by simpa using hq1
      exact Or.inr ⟨f, hf0, hf64, rfl, this ▸ hf⟩
    · rw [if_neg he]
      exact h2 q1 m i hq1 hi
  · intro q1 q2 m m' i j x hq1 hq2 hi hj hv hv'
    simp only [mem_write] at hv hv'
    by_cases he : page2kva q1 + 8 * i = page2kva q + 8 * idx
    · by_cases he' : page2kva q2 + 8 * j = page2kva q + 8 * idx
      · exact slot_eq q1 q2 i j hi hj (he.trans he'.symm)
      · rw [if_pos he] at hv
        rw [if_neg he', ← hv] at hv'
        exact absurd hv' (hun q2 m' j hq2 hj)
    · by_cases he' : page2kva q2 + 8 * j = page2kva q + 8 * idx
      · rw [if_pos he'] at hv'
        rw [if_neg he, ← hv'] at hv
        exact absurd hv (hun q1 m i hq1 hi)
      · rw [if_neg he] at hv
        rw [if_neg he'] at hv'
        exact h5 q1 q2 m m' i j x hq1 hq2 hi hj hv hv'
  · intro u hu hunu q1 m i hq1 hi
    simp only [mem_write]
    by_cases he : page2kva q1 + 8 * i = page2kva q + 8 * idx
    · rw [if_pos he]
      exact fun e => hu (table_ref_inj f u e).symm
    · rw [if_neg he]
      exact hunu q1 m i hq1 hi

/-- Writing a leaf entry, in a page table, keeps the layout. -/
theorem levels_ok_leaf (s : KState) (level : Nat → Option Nat) (f0 idx v : Nat)
    (hinv : levels_ok s level) (hf : level f0 = some 0) (hidx : idx < 512) :
    levels_ok (mem_write s (page2kva f0 + 8 * idx) v) level := by
  obtain ⟨h2, h5, h3, h4⟩ := hinv
  have hne : ∀ q m i, level q = some (m + 1) → i < 512 →
      page2kva q + 8 * i ≠ page2kva f0 + 8 * idx := by
    intro q m i hq hi he
    obtain ⟨e1, -⟩ := slot_eq q f0 i idx hi hidx he
    rw [e1, hf] at hq
    cases hq
  refine ⟨?_, ?_, h3, h4⟩
  · intro q m i hq hi
    simp only [mem_write]
    rw [if_neg (hne q m i hq hi)]
    exact h2 q m i hq hi
  · intro q1 q2 m m' i j x hq1 hq2 hi hj hv hv'
    simp only [mem_write] at hv hv'
    rw [if_neg (hne q1 m i hq1 hi)] at hv
    rw [if_neg (hne q2 m' j hq2 hj)] at hv'
    exact h5 q1 q2 m m' i j x hq1 hq2 hi hj hv hv'

/-- A successful creating walk keeps the layout: the tables it creates come from the
free list, one level below their parent, and the leaf it returns lies in a page
table. -/
theorem walk_create_levels (n : Nat) (s : KState) (q g : Nat) (level : Nat → Option Nat)
    (hinv : levels_ok s level) (hq : level q = some n)
    (hok : (walk_create n s (page2kva q) g).2 ≠ 0) :
    ∃ level', levels_ok (walk_create n s (page2kva q) g).1 level' ∧
      (∀ x, level x ≠ none → level' x = level x) ∧
      (∃ f0, level' f0 = some 0 ∧
        (walk_create n s (page2kva q) g).2 = page2kva f0 + 8 * ADDR_TO_IDX g 0) ∧
      (∀ u, u ∉ s.page_free_list → unreferenced s level u →
        unreferenced (walk_create n s (page2kva q) g).1 level' u) := by
  induction n generalizing s q level with
  | zero =>
    exact ⟨level, hinv, fun _ _ => rfl, ⟨q, hq, rfl⟩, fun _ _ h => h⟩
  | succ n ih =>
    by_cases hc : PTE_ADDR (s.mem (page2kva q + 8 * ADDR_TO_IDX g (n + 1))) = 0
    · cases hfl : s.page_free_list with
      | nil =>
        exfalso
        apply hok
        rw [walk_create, if_pos hc, page_alloc_nil s _ hfl]
      | cons f rest =>
        obtain ⟨hok', he⟩ := walk_create_succ_of_eq n s (page2kva q) g f rest hc hfl hok
        obtain ⟨hinv1, hun1⟩ := levels_ok_fresh s level f n rest hinv hfl
        have hf := hinv.2.2.1 f (by rw [hfl]; exact List.mem_cons_self _ _)
        have hfr : f ∉ rest := by
          have := hinv.2.2.2
          rw [hfl] at this
          exact (List.nodup_cons.mp this).1
        have hqf : q ≠ f := fun e => by rw [e, hf.1] at hq; cases hq
        obtain ⟨level3, hinv3, hext, hleaf, hun3⟩ := ih
          (page_incref { s with page_free_list := rest, mem := zero_page s.mem f } f) f
          (fun x => if x = f then some n else level x) hinv1 (if_pos rfl) hok'
        have hq3 : level3 q = some (n + 1) := by
          rw [hext q (by simp only [if_neg hqf, hq]; exact fun h => by cases h)]
          simp only [if_neg hqf, hq]
        have hf3 : level3 f = some n := by
          rw [hext f (by simp)]
          simp
        have hunf : unreferenced (walk_create n
            (page_incref { s with page_free_list := rest, mem := zero_page s.mem f } f)
            (page2kva f) g).1 level3 f :=
          hun3 f hfr (hun1 f hfr
            (free_unreferenced s level f hinv (by rw [hfl]; exact List.mem_cons_self _ _)))
        obtain ⟨hinv4, hun4⟩ := levels_ok_link _ level3 q f n (ADDR_TO_IDX g (n + 1))
          hinv3 hq3 hf3 hf.2.1 hf.2.2 hunf (ADDR_TO_IDX_lt _ _)
        rw [he]
        refine ⟨level3, hinv4, ?_, hleaf, ?_⟩
        · intro x hx
          have hxf : x ≠ f := fun e => hx (e ▸ hf.1)
          rw [hext x (by simp only [if_neg hxf]; exact hx)]
          simp only [if_neg hxf]
        · intro u hu hunu
          have hu' : u ∉ rest := fun h => hu (List.mem_cons_of_mem _ h)
          have huf : u ≠ f := fun e => hu (e ▸ List.mem_cons_self _ _)
          exact hun4 u huf (hun3 u hu' (hun1 u hu' hunu))
    · have h2 := hinv.1
      rcases h2 q n (ADDR_TO_IDX g (n + 1)) hq (ADDR_TO_IDX_lt _ _) with h0 | ⟨f, hf0, hf64, hv, hl⟩
      · rw [h0, PTE_ADDR_zero] at hc
        exact absurd rfl hc
      · have hw : walk_create (n + 1) s (page2kva q) g = walk_create n s (page2kva f) g := by
          rw [walk_create, if_neg hc, hv, PTE_ADDR_table_slot f hf64]
          rfl
        rw [hw] at hok ⊢
        exact ih s f level hinv hl hok


theorem page_decref_free (s : KState) (f : Nat) :
    (page_decref s f).page_free_list = f :: s.page_free_list ∨
      (page_decref s f).page_free_list = s.page_free_list := by
  unfold page_decref
  split
  · exact Or.inl rfl
  · exact Or.inr rfl

/-- A creating walk that returns `NULL` has written no word outside the pages that were
free, and its free list holds pages of the old free list only. -/
theorem walk_create_fail (n : Nat) (s : KState) (t g : Nat)
    (hnd : s.page_free_list.Nodup) (hfail : (walk_create n s t g).2 = 0) :
    (∀ a, (∀ f ∈ s.page_free_list, ¬ in_page f a) →
        (walk_create n s t g).1.mem a = s.mem a) ∧
      (∀ x ∈ (walk_create n s t g).1.page_free_list, x ∈ s.page_free_list) ∧
      (walk_create n s t g).1.page_free_list.Nodup := by
  induction n generalizing s t with
  | zero => exact ⟨fun _ _ => rfl, fun _ h => h, hnd⟩
  | succ n ih =>
    rw [walk_create] at hfail ⊢
    by_cases hc : PTE_ADDR (s.mem (t + 8 * ADDR_TO_IDX g (n + 1))) = 0
    · rw [if_pos hc] at hfail ⊢
      cases hfl : s.page_free_list with
      | nil =>
        rw [page_alloc_nil s _ hfl]
        exact ⟨fun _ _ => rfl, fun _ h => by rw [hfl] at h; exact h, hnd⟩
      | cons f rest =>
        rw [page_alloc_zero_cons s f rest hfl] at hfail ⊢
        dsimp only at hfail ⊢
        rw [hfl] at hnd
        have hfr : f ∉ rest := (List.nodup_cons.mp hnd).1
        by_cases hp : (walk_create n
            (page_incref { s with page_free_list := rest, mem := zero_page s.mem f } f)
            (page2kva f) g).2 = 0
        · rw [if_pos hp]
          obtain ⟨hm, hsub, hnd3⟩ := ih
            (page_incref { s with page_free_list := rest, mem := zero_page s.mem f } f)
            (page2kva f) (List.nodup_cons.mp hnd).2 hp
          have hsub' : ∀ x ∈ (walk_create n
              (page_incref { s with page_free_list := rest, mem := zero_page s.mem f } f)
              (page2kva f) g).1.page_free_list, x ∈ rest := hsub
          refine ⟨?_, ?_, ?_⟩
          · intro a ha
            rw [(page_decref_mem _ f).1, hm a (fun x hx => ha x (List.mem_cons_of_mem _ hx))]
            exact zero_page_out _ _ _ (ha f (List.mem_cons_self _ _))
          · intro x hx
            rcases page_decref_free (walk_create n
              (page_incref { s with page_free_list := rest, mem := zero_page s.mem f } f)
              (page2kva f) g).1 f with e | e
            · rw [e] at hx
              rcases List.mem_cons.mp hx with e1 | e1
              · rw [e1]; exact List.mem_cons_self _ _
              · exact List.mem_cons_of_mem _ (hsub' x e1)
            · rw [e] at hx
              exact List.mem_cons_of_mem _ (hsub' x hx)
          · rcases page_decref_free (walk_create n
              (page_incref { s with page_free_list := rest, mem := zero_page s.mem f } f)
              (page2kva f) g).1 f with e | e
            · rw [e]
              exact List.nodup_cons.mpr ⟨fun h => hfr (hsub' f h), hnd3⟩
            · rw [e]
              exact hnd3
        · rw [if_neg hp] at hfail
          exact absurd hfail hp
    · rw [if_neg hc] at hfail ⊢
      exact ih s _ hnd hfail

/-- A creating walk that returns `NULL` keeps the layout, with the same tables. -/
theorem walk_create_fail_levels (n : Nat) (s : KState) (t g : Nat)
    (level : Nat → Option Nat) (hinv : levels_ok s level)
    (hfail : (walk_create n s t g).2 = 0) :
    levels_ok (walk_create n s t g).1 level := by
  obtain ⟨h2, h5, h3, h4⟩ := hinv
  obtain ⟨hm, hsub, hnd⟩ := walk_create_fail n s t g h4 hfail
  have hmem : ∀ q m i, level q = some (m + 1) → i < 512 →
      (walk_create n s t g).1.mem (page2kva q + 8 * i) = s.mem (page2kva q + 8 * i) := by
    intro q m i hq hi
    apply hm
    intro f hf
    apply slot_not_in_page q f i hi
    intro e
    rw [e, (h3 f hf).1] at hq
    cases hq
  refine ⟨?_, ?_, fun f hf => h3 f (hsub f hf), hnd⟩
  · intro q m i hq hi
    rw [hmem q m i hq hi]
    exact h2 q m i hq hi
  · intro q q' m m' i j x hq hq' hi hj hv hv'
    rw [hmem q m i hq hi] at hv
    rw [hmem q' m' j hq' hj] at hv'
    exact h5 q q' m m' i j x hq hq' hi hj hv hv'

/-- The layout by levels gives the shape of the spec's words. -/
theorem shape_of_levels (s : KState) (level : Nat → Option Nat) (n q : Nat)
    (hinv : levels_ok s level) (hq : level q = some n) :
    shape_inv s.mem n (page2kva q) := by
  induction n generalizing q with
  | zero => trivial
  | succ n ih =>
    intro i hi hne
    rcases hinv.1 q n i hq hi with h0 | ⟨f, hf0, hf64, hv, hl⟩
    · exact absurd h0 hne
    · rw [hv, PTE_ADDR_table_slot f hf64]
      refine ⟨?_, page2pa_ne_zero f hf0, page2pa_aligned f, ih f hl⟩
      rw [table_ref_eq, __EPTE_FULL_eq]
      have : (7 : Nat) = 2 ^ 3 - 1 := by norm_num
      rw [this, Nat.and_pow_two_sub_one_eq_mod]
      omega


theorem page2pa_shift (f : Nat) : page2pa f >>> 12 = f := by
  rw [page2pa_eq, Nat.shiftRight_eq_div_pow]
  omega

/-- A non-empty entry of a table above the page tables names a table one level below. -/
theorem child_of_slot (s : KState) (level : Nat → Option Nat) (q n i : Nat)
    (hinv : levels_ok s level) (hq : level q = some (n + 1)) (hi : i < 512)
    (hne : PTE_ADDR (s.mem (page2kva q + 8 * i)) ≠ 0) :
    s.mem (page2kva q + 8 * i)
        = page2pa (PTE_ADDR (s.mem (page2kva q + 8 * i)) >>> 12) ||| __EPTE_FULL ∧
      level (PTE_ADDR (s.mem (page2kva q + 8 * i)) >>> 12) = some n := by
  rcases hinv.1 q n i hq hi with h0 | ⟨f, -, hf64, hv, hl⟩
  · rw [h0, PTE_ADDR_zero] at hne
    exact absurd rfl hne
  · rw [hv, PTE_ADDR_table_slot f hf64, page2pa_shift]
    exact ⟨rfl, hl⟩

theorem subtree_level (s : KState) (level : Nat → Option Nat) (n q x : Nat)
    (hinv : levels_ok s level) (hq : level q = some n) (hx : in_subtree s.mem n q x) :
    ∃ m, m ≤ n ∧ level x = some m := by
  induction n generalizing q with
  | zero =>
    rw [in_subtree] at hx
    exact ⟨0, le_refl _, hx ▸ hq⟩
  | succ n ih =>
    rw [in_subtree] at hx
    rcases hx with e | ⟨i, hi, hne, hsub⟩
    · exact ⟨n + 1, le_refl _, e ▸ hq⟩
    · obtain ⟨m, hm, hl⟩ := ih _ (child_of_slot s level q n i hinv hq hi hne).2 hsub
      exact ⟨m, Nat.le_succ_of_le hm, hl⟩

/-- No table of the tree below `q` is on the free list. -/
theorem subtree_not_free (s : KState) (level : Nat → Option Nat) (n q : Nat)
    (hinv : levels_ok s level) (hq : level q = some n) :
    ∀ x, in_subtree s.mem n q x → x ∉ s.page_free_list := by
  intro x hx hf
  obtain ⟨m, -, hl⟩ := subtree_level s level n q x hinv hq hx
  rw [(hinv.2.2.1 x hf).1] at hl
  cases hl

theorem subtree_root_unique (s : KState) (level : Nat → Option Nat) (n c c' x : Nat)
    (hinv : levels_ok s level) (hc : level c = some n) (hc' : level c' = some n)
    (hx : in_subtree s.mem n c x) (hx' : in_subtree s.mem n c' x) : c = c' := by
  induction n generalizing c c' with
  | zero =>
    rw [in_subtree] at hx hx'
    rw [← hx, ← hx']
  | succ n ih =>
    rw [in_subtree] at hx hx'
    rcases hx with e | ⟨i, hi, hne, hsub⟩
    · rcases hx' with e' | ⟨j, hj, hne', hsub'⟩
      · rw [← e, ← e']
      · exfalso
        obtain ⟨m, hm, hl⟩ := subtree_level s level n _ x hinv
          (child_of_slot s level c' n j hinv hc' hj hne').2 hsub'
        rw [e, hc] at hl
        have : n + 1 = m := by simpa using hl
        omega
    · rcases hx' with e' | ⟨j, hj, hne', hsub'⟩
      · exfalso
        obtain ⟨m, hm, hl⟩ := subtree_level s level n _ x hinv
          (child_of_slot s level c n i hinv hc hi hne).2 hsub
        rw [e', hc'] at hl
        have : n + 1 = m := by simpa using hl
        omega
      · obtain ⟨hv, hl⟩ := child_of_slot s level c n i hinv hc hi hne
        obtain ⟨hv', hl'⟩ := child_of_slot s level c' n j hinv hc' hj hne'
        have hd := ih _ _ hl hl' hsub hsub'
        rw [← hd] at hv'
        exact (hinv.2.1 c c' n n i j _ hc hc' hi hj hv hv').1

/-- The layout by levels makes the tables below `q` a tree. -/
theorem tree_wf_of_levels (s : KState) (level : Nat → Option Nat) (n q : Nat)
    (hinv : levels_ok s level) (hq : level q = some n) : tree_wf s.mem n q := by
  induction n generalizing q with
  | zero => trivial
  | succ n ih =>
    rw [tree_wf]
    refine ⟨?_, ?_⟩
    · intro i hi hne
      obtain ⟨-, hl⟩ := child_of_slot s level q n i hinv hq hi hne
      refine ⟨ih _ hl, ?_⟩
      intro hsub
      obtain ⟨m, hm, hlq⟩ := subtree_level s level n _ q hinv hl hsub
      rw [hq] at hlq
      have : n + 1 = m := by simpa using hlq
      omega
    · intro i j hi hj hij hne hne' x hx hx'
      obtain ⟨hv, hl⟩ := child_of_slot s level q n i hinv hq hi hne
      obtain ⟨hv', hl'⟩ := child_of_slot s level q n j hinv hq hj hne'
      have hd := subtree_root_unique s level n _ _ x hinv hl hl' hx hx'
      rw [← hd] at hv'
      exact hij (hinv.2.1 q q n n i j _ hq hq hi hj hv hv').2


theorem levels_ok_congr (s s' : KState) (level : Nat → Option Nat)
    (hm : s'.mem = s.mem) (hf : s'.page_free_list = s.page_free_list)
    (h : levels_ok s level) : levels_ok s' level := by
  unfold levels_ok at h ⊢
  rw [hm, hf]
  exact h

theorem levels_ok_pop (s : KState) (level : Nat → Option Nat) (p : Nat) (rest : List Nat)
    (hfl : s.page_free_list = p :: rest) (h : levels_ok s level) :
    levels_ok { s with page_free_list := rest } level := by
  obtain ⟨h2, h5, h3, h4⟩ := h
  rw [hfl] at h3 h4
  exact ⟨h2, h5, fun f hf => h3 f (List.mem_cons_of_mem _ hf), (List.nodup_cons.mp h4).2⟩

/-- An empty root with a sound free list is a tree laid out by levels. -/
theorem tree_inv_empty (s : KState) (r : Nat)
    (hz : ∀ i, i < 512 → s.mem (page2kva r + 8 * i) = 0)
    (hr : r ∉ s.page_free_list) (hnd : s.page_free_list.Nodup)
    (hfree : ∀ f ∈ s.page_free_list, f ≠ 0 ∧ page2pa f < 2 ^ 64) : tree_inv s r := by
  refine ⟨fun x => if x = r then some 3 else none, if_pos rfl, ?_, ?_, ?_, hnd⟩
  · intro q m i hq hi
    by_cases e : q = r
    · rw [e]
      exact Or.inl (hz i hi)
    · simp only [if_neg e] at hq
      cases hq
  · intro q q' m m' i j f hq _ hi _ hv _
    by_cases e : q = r
    · rw [e, hz i hi] at hv
      exact absurd hv.symm (table_ref_ne_zero f)
    · simp only [if_neg e] at hq
      cases hq
  · intro f hf
    have : f ≠ r := fun e => hr (e ▸ hf)
    simp only [if_neg this, true_and]
    exact hfree f hf

/-- The creating walk from the root keeps the tree laid out by levels, whether it
succeeds or not; when it succeeds, the leaf it returns lies in a page table. -/
theorem tree_inv_walk (s : KState) (r g : Nat) (level : Nat → Option Nat)
    (hr : level r = some 3) (hinv : levels_ok s level) :
    ∃ level', level' r = some 3 ∧ levels_ok (walk_create 3 s (page2kva r) g).1 level' ∧
      ((walk_create 3 s (page2kva r) g).2 ≠ 0 →
        ∃ f0, level' f0 = some 0 ∧
          (walk_create 3 s (page2kva r) g).2 = page2kva f0 + 8 * ADDR_TO_IDX g 0) := by
  by_cases hok : (walk_create 3 s (page2kva r) g).2 = 0
  · exact ⟨level, hr, walk_create_fail_levels 3 s _ g level hinv hok, fun h => absurd hok h⟩
  · obtain ⟨level', hinv', hext, hleaf, -⟩ := walk_create_levels 3 s r g level hinv hr hok
    refine ⟨level', ?_, hinv', fun _ => hleaf⟩
    rw [hext r (by rw [hr]; exact fun h => by cases h), hr]

theorem tree_inv_lookup (s : KState) (r gpa : Nat) (create : Int) (h : tree_inv s r) :
    tree_inv (ept_lookup_gpa s (page2kva r) gpa create).1 r := by
  have hroot : page2kva r ≠ 0 := by simpa using page2kva_ne_zero r 0
  by_cases hc : create = 0
  · rw [hc, ept_lookup_gpa_ro s _ _ hroot]
    cases walk_ro s.mem 3 (page2kva r) gpa <;> exact h
  · obtain ⟨level, hr, hinv⟩ := h
    obtain ⟨level', hr', hinv', -⟩ := tree_inv_walk s r gpa level hr hinv
    rw [ept_lookup_gpa_create s _ _ _ hroot hc]
    split <;> exact ⟨level', hr', hinv'⟩

theorem tree_inv_map (s s' : KState) (r hva gpa : Nat) (perm overwrite ret : Int)
    (h : tree_inv s r)
    (hm : ept_map_hva2gpa s (page2kva r) hva gpa perm overwrite = .ok (s', ret)) :
    tree_inv s' r := by
  have hroot : page2kva r ≠ 0 := by simpa using page2kva_ne_zero r 0
  obtain ⟨level, hr, hinv⟩ := h
  obtain ⟨level', hr', hinv', hleaf⟩ := tree_inv_walk s r gpa level hr hinv
  rcases map_returns s s' (page2kva r) hva gpa perm overwrite ret hroot hm with
    ⟨-, hs⟩ | ⟨-, -, hs⟩ | ⟨-, hok, hs⟩
  · rw [hs]; exact ⟨level, hr, hinv⟩
  · rw [hs]; exact ⟨level', hr', hinv'⟩
  · obtain ⟨f0, hf0, he⟩ := hleaf hok
    rw [hs, he]
    exact ⟨level', hr', levels_ok_leaf _ level' f0 _ _ hinv' hf0 (ADDR_TO_IDX_lt _ _)⟩

theorem tree_inv_page_insert (s s' : KState) (r pp gpa : Nat) (perm ret : Int)
    (h : tree_inv s r)
    (hm : ept_page_insert s (page2kva r) pp gpa perm = .ok (s', ret)) :
    tree_inv s' r := by
  unfold ept_page_insert at hm
  cases hmap : ept_map_hva2gpa s (page2kva r) (page2kva pp) gpa perm 1 with
  | error e => rw [hmap] at hm; cases hm
  | ok x =>
    obtain ⟨s1, r1⟩ := x
    rw [hmap] at hm
    have h1 := tree_inv_map s s1 r _ gpa perm 1 r1 h hmap
    simp only at hm
    split at hm
    · simp only [Except.ok.injEq, Prod.mk.injEq] at hm
      rw [← hm.1]; exact h1
    · simp only [Except.ok.injEq, Prod.mk.injEq] at hm
      rw [← hm.1]
      obtain ⟨level, hr, hinv⟩ := h1
      exact ⟨level, hr, levels_ok_congr s1 _ level rfl rfl hinv⟩

theorem tree_inv_step (s s' : KState) (r i : Nat) (h : tree_inv s r)
    (hm : alloc_static_step (page2kva r) s i = .ok s') : tree_inv s' r := by
  unfold alloc_static_step at hm
  cases hfl : s.page_free_list with
  | nil => rw [page_alloc_nil s _ hfl] at hm; cases hm
  | cons p rest =>
    rw [page_alloc_plain_cons s p rest hfl] at hm
    simp only at hm
    cases hmap : ept_map_hva2gpa (page_incref { s with page_free_list := rest } p)
        (page2kva r) (page2kva p) i ((__EPTE_FULL : Nat) : Int) 0 with
    | error e => rw [hmap] at hm; cases hm
    | ok x =>
      obtain ⟨s2, r2⟩ := x
      rw [hmap] at hm
      simp only [Except.ok.injEq] at hm
      rw [← hm]
      obtain ⟨level, hr, hinv⟩ := h
      exact tree_inv_map (page_incref { s with page_free_list := rest } p) s2 r _ i _ 0 r2
        ⟨level, hr, levels_ok_congr { s with page_free_list := rest } _ level rfl rfl
          (levels_ok_pop s level p rest hfl hinv)⟩ hmap

theorem two_loops_ok (body : KState → Nat → Except Halt KState) (l1 l2 : List Nat)
    (s s' : KState) (ret : Int)
    (hm : (match l1.foldlM body s with
      | .error e => .error e
      | .ok s1 =>
        match l2.foldlM body s1 with
        | .error e => .error e
        | .ok s2 => .ok (s2, 0)) = (.ok (s', ret) : Except Halt (KState × Int))) :
    ∃ s1, l1.foldlM body s = .ok s1 ∧ l2.foldlM body s1 = .ok s' ∧ ret = 0 := by
  cases h1 : l1.foldlM body s with
  | error e => rw [h1] at hm; cases hm
  | ok s1 =>
    rw [h1] at hm
    simp only at hm
    cases h2 : l2.foldlM body s1 with
    | error e => rw [h2] at hm; cases hm
    | ok s2 =>
      rw [h2] at hm
      simp only [Except.ok.injEq, Prod.mk.injEq] at hm
      exact ⟨s1, rfl, by rw [h2, hm.1], hm.2.symm⟩

/-- A returning `ept_alloc_static` has run both loops to their end. -/
theorem ept_alloc_static_ok (s s' : KState) (eptrt : Nat) (ginfo : VmxGuestInfo) (ret : Int)
    (hm : ept_alloc_static s eptrt ginfo = .ok (s', ret)) :
    ∃ s1, (static_range 0x0 0xA0000).foldlM (alloc_static_step eptrt) s = .ok s1 ∧
      (static_range 0x100000 ginfo.phys_sz).foldlM (alloc_static_step eptrt) s1 = .ok s' ∧
      ret = 0 :=
  two_loops_ok (alloc_static_step eptrt) _ _ s s' ret hm

theorem tree_inv_alloc_static (s s' : KState) (r : Nat) (ginfo : VmxGuestInfo) (ret : Int)
    (h : tree_inv s r)
    (hm : ept_alloc_static s (page2kva r) ginfo = .ok (s', ret)) : tree_inv s' r := by
  obtain ⟨s1, h1, h2, -⟩ := ept_alloc_static_ok s s' (page2kva r) ginfo ret hm
  have step : ∀ (l : List Nat) (a b : KState),
      l.foldlM (alloc_static_step (page2kva r)) a = .ok b → tree_inv a r → tree_inv b r :=
    fun l a b hl => foldlM_ok_inv (fun (a b : KState) => tree_inv a r → tree_inv b r)
      (fun _ h => h) (fun _ _ _ h1 h2 h => h2 (h1 h)) (alloc_static_step (page2kva r))
      (fun a i b hb h => tree_inv_step a b r i h hb) l a b hl
  exact step _ s1 s' h2 (step _ s s1 h1 h)


/-- A successful creating walk leaves the reference counts of the pages that stay on
the free list. -/
theorem walk_create_pp_ref_free (n : Nat) (s : KState) (t g : Nat)
    (hnd : s.page_free_list.Nodup) (hok : (walk_create n s t g).2 ≠ 0) :
    ∀ x ∈ (walk_create n s t g).1.page_free_list,
      (walk_create n s t g).1.pp_ref x = s.pp_ref x := by
  induction n generalizing s t with
  | zero => exact fun _ _ => rfl
  | succ n ih =>
    by_cases hc : PTE_ADDR (s.mem (t + 8 * ADDR_TO_IDX g (n + 1))) = 0
    · cases hfl : s.page_free_list with
      | nil =>
        exfalso
        apply hok
        rw [walk_create, if_pos hc, page_alloc_nil s _ hfl]
      | cons f rest =>
        obtain ⟨hok', he⟩ := walk_create_succ_of_eq n s t g f rest hc hfl hok
        rw [hfl] at hnd
        have hfr : f ∉ rest := (List.nodup_cons.mp hnd).1
        rw [he]
        intro x hx
        have hx' : x ∈ (walk_create n
            (page_incref { s with page_free_list := rest, mem := zero_page s.mem f } f)
            (page2kva f) g).1.page_free_list := hx
        have hxr : x ∈ rest := by
          rw [walk_create_free_list n _ _ g hok'] at hx'
          exact List.mem_of_mem_drop hx'
        have hxf : x ≠ f := fun e => hfr (e ▸ hxr)
        have := ih
          (page_incref { s with page_free_list := rest, mem := zero_page s.mem f } f)
          (page2kva f) (List.nodup_cons.mp hnd).2 hok' x hx'
        simp only [mem_write]
        rw [this]
        simp only [page_incref, if_neg hxf]
    · rw [walk_create, if_neg hc] at hok ⊢
      exact ih s _ hnd hok

/-- One iteration of `ept_alloc_static` at an address `g` that is not yet mapped, in a
tree laid out by levels, with a tracked head page `p` below `2^31` and three more free
pages: the iteration returns, `g` translates to `page2kva(p)`, the leaf entry of every
address that differs from `g` in a table index is as before, and only the pages taken
from the free list change their reference count. -/
theorem alloc_static_step_spec (s : KState) (r g p : Nat) (rest : List Nat)
    (level : Nat → Option Nat) (hr : level r = some 3) (hinv : levels_ok s level)
    (hfl : s.page_free_list = p :: rest) (hlen : 3 ≤ rest.length)
    (hp : p < s.npages) (hp31 : page2pa p < 2 ^ 31)
    (hunmapped : leaf_entry s.mem 3 (page2kva r) g = 0) :
    ∃ s', alloc_static_step (page2kva r) s g = .ok s' ∧ tree_inv s' r ∧
      hva_of_entry (leaf_entry s'.mem 3 (page2kva r) g) = page2kva p ∧
      (∀ g', (∃ k, k ≤ 3 ∧ ADDR_TO_IDX g k ≠ ADDR_TO_IDX g' k) →
        leaf_entry s'.mem 3 (page2kva r) g' = leaf_entry s.mem 3 (page2kva r) g') ∧
      s'.page_free_list = rest.drop (missing_tables s.mem 3 (page2kva r) g) ∧
      s'.npages = s.npages ∧
      s'.pp_ref p = s.pp_ref p + 1 ∧
      (∀ x, x ∉ s.page_free_list → s'.pp_ref x = s.pp_ref x) ∧
      (∀ x ∈ s'.page_free_list, s'.pp_ref x = s.pp_ref x) := by
  have hroot : page2kva r ≠ 0 := by simpa using page2kva_ne_zero r 0
  have hinv1 := levels_ok_pop s level p rest hfl hinv
  obtain ⟨s2, hs2, hm2, hfl2, hn2, hr2, hro2⟩ : ∃ s2 : KState,
      s2 = page_incref { s with page_free_list := rest } p ∧ s2.mem = s.mem ∧
      s2.page_free_list = rest ∧ s2.npages = s.npages ∧ s2.pp_ref p = s.pp_ref p + 1 ∧
      ∀ x, x ≠ p → s2.pp_ref x = s.pp_ref x :=
    ⟨_, rfl, rfl, rfl, rfl, by simp [page_incref], fun x hx => by simp [page_incref, hx]⟩
  have hinv2 : levels_ok s2 level :=
    levels_ok_congr { s with page_free_list := rest } s2 level hm2 hfl2 hinv1
  have hnd : (p :: rest).Nodup := hfl ▸ hinv.2.2.2
  have hpr : p ∉ rest := (List.nodup_cons.mp hnd).1
  have hnd2 : s2.page_free_list.Nodup := hinv2.2.2.2
  have hfree2 : ∀ f ∈ s2.page_free_list, f ≠ 0 ∧ page2pa f < 2 ^ 64 :=
    fun f hf => (hinv2.2.2.1 f hf).2
  have hwf : tree_wf s2.mem 3 r := tree_wf_of_levels s2 level 3 r hinv2 hr
  have hnf : ∀ x, in_subtree s2.mem 3 r x → x ∉ s2.page_free_list :=
    subtree_not_free s2 level 3 r hinv2 hr
  have hpath2 : ∀ a ∈ walk_slots s2.mem 3 (page2kva r) g,
      ∀ f ∈ s2.page_free_list, ¬ in_page f a :=
    walk_slots_not_free s2.mem s2.page_free_list 3 r _ hnf
  have hok : (walk_create 3 s2 (page2kva r) g).2 ≠ 0 := by
    refine walk_create_enough 3 s2 _ _ hroot ?_
    rw [hfl2]
    exact le_trans (missing_tables_le _ _ _ _) hlen
  obtain ⟨h1, -, h4⟩ := walk_create_succ 3 s2 (page2kva r) g hnd2 hfree2 hpath2 hok
  have h0 := h4 (by rw [hm2]; exact hunmapped)
  have hmap := map_ok_of s2 (page2kva r) p g ((__EPTE_FULL : Nat) : Int)
    hroot (by rw [hn2]; exact hp) hp31 hok h0
  have h64 : page2pa p < 2 ^ 64 := lt_trans hp31 (by norm_num)
  have hx : u64_of_int ((__EPTE_FULL : Nat) : Int) < 4096 := by decide
  have hw := walk_ro_write_leaf _ 3 (page2kva r) g _
    (PTE_ADDR (page2pa p) ||| PTE_P ||| u64_of_int ((__EPTE_FULL : Nat) : Int) ||| __EPTE_IPAT
      ||| __EPTE_TYPE EPTE_TYPE_WB) h1 h0
  have hle : leaf_entry (mem_write (walk_create 3 s2 (page2kva r) g).1
      (walk_create 3 s2 (page2kva r) g).2
      (PTE_ADDR (page2pa p) ||| PTE_P ||| u64_of_int ((__EPTE_FULL : Nat) : Int) ||| __EPTE_IPAT
        ||| __EPTE_TYPE EPTE_TYPE_WB)).mem 3 (page2kva r) g
      = PTE_ADDR (page2pa p) ||| PTE_P ||| u64_of_int ((__EPTE_FULL : Nat) : Int) ||| __EPTE_IPAT
        ||| __EPTE_TYPE EPTE_TYPE_WB := by
    unfold leaf_entry
    simp only [mem_write]
    rw [hw]
    simp
  have hfl3 := walk_create_free_list 3 s2 (page2kva r) g hok
  have hstep : alloc_static_step (page2kva r) s g =
      .ok (mem_write (walk_create 3 s2 (page2kva r) g).1 (walk_create 3 s2 (page2kva r) g).2
        (PTE_ADDR (page2pa p) ||| PTE_P ||| u64_of_int ((__EPTE_FULL : Nat) : Int)
          ||| __EPTE_IPAT ||| __EPTE_TYPE EPTE_TYPE_WB)) := by
    unfold alloc_static_step
    rw [page_alloc_plain_cons s p rest hfl]
    simp only
    rw [← hs2, hmap]
  refine ⟨_, hstep, tree_inv_map s2 _ r _ g _ 0 0 ⟨level, hr, hinv2⟩ hmap, ?_, ?_, ?_, ?_,
    ?_, ?_, ?_⟩
  · rw [hle]
    have haddr := leaf_value_addr (page2pa p) _ (page2pa_aligned p) h64 hx
    have hpres := leaf_value_present (page2pa p) _ (page2pa_aligned p) h64 hx
    simp only [hva_of_entry, hpres, if_true, haddr]
    rfl
  · intro g' hd
    rw [(walk_create_other 3 s2 r g g' _ hnd2 hfree2 hwf hnf hok hd).1, hm2]
  · simp only [mem_write]
    rw [hfl3, hfl2, hm2]
  · simp only [mem_write]
    rw [(walk_create_pp_ref_frame 3 s2 (page2kva r) g p (by rw [hfl2]; exact hpr)).2, hn2]
  · simp only [mem_write]
    rw [(walk_create_pp_ref_frame 3 s2 (page2kva r) g p (by rw [hfl2]; exact hpr)).1, hr2]
  · intro x hx
    rw [hfl] at hx
    have hxp : x ≠ p := fun e => hx (e ▸ List.mem_cons_self _ _)
    simp only [mem_write]
    rw [(walk_create_pp_ref_frame 3 s2 (page2kva r) g x
      (by rw [hfl2]; exact fun h => hx (List.mem_cons_of_mem _ h))).1, hro2 x hxp]
  · intro x hx
    simp only [mem_write] at hx ⊢
    rw [walk_create_pp_ref_free 3 s2 (page2kva r) g hnd2 hok x hx]
    rw [hfl3, hfl2] at hx
    have hxr : x ∈ rest := List.mem_of_mem_drop hx
    exact hro2 x (fun e => hpr (e ▸ hxr))


theorem idx_differ_symm (g g' : Nat) (h : idx_differ g g') : idx_differ g' g := by
  obtain ⟨k, hk, hne⟩ := h
  exact ⟨k, hk, fun e => hne e.symm⟩

/-- The loop of `ept_alloc_static` over addresses that pairwise differ in a table index
and differ from every address mapped so far, with four free pages per address: it runs
to its end and maps every address of the list. -/
theorem alloc_static_loop_spec (r n0 : Nat) (free0 : List Nat)
    (h0 : ∀ f ∈ free0, f < n0 ∧ page2pa f < 2 ^ 31) :
    ∀ (l : List Nat) (s : KState) (done : List (Nat × Nat)),
      static_inv s r n0 free0 done → l.Pairwise idx_differ →
      (∀ g ∈ l, ∀ gp ∈ done, idx_differ gp.1 g) →
      4 * l.length ≤ s.page_free_list.length →
      ∃ s' done', l.foldlM (alloc_static_step (page2kva r)) s = .ok s' ∧
        static_inv s' r n0 free0 done' ∧
        (∀ gp ∈ done, gp ∈ done') ∧
        (∀ g ∈ l, ∃ p, (g, p) ∈ done') ∧
        (∀ gp ∈ done', gp ∈ done ∨ gp.1 ∈ l) ∧
        s.page_free_list.length ≤ s'.page_free_list.length + 4 * l.length := by
  intro l
  induction l with
  | nil =>
    intro s done hinv _ _ _
    exact ⟨s, done, rfl, hinv, fun _ h => h, fun _ h => absurd h (List.not_mem_nil _),
      fun _ h => Or.inl h, by simp⟩
  | cons g l ih =>
    intro s done hinv hpw hd hlen
    obtain ⟨⟨level, hr, hlv⟩, hn, hj2, hj3, hj4, hj5⟩ := hinv
    rw [List.pairwise_cons] at hpw
    obtain ⟨hgl, hpl⟩ := hpw
    cases hfl : s.page_free_list with
    | nil => rw [hfl] at hlen; simp at hlen
    | cons p rest =>
      rw [hfl] at hlen
      simp only [List.length_cons] at hlen
      have hpmem : p ∈ s.page_free_list := by rw [hfl]; exact List.mem_cons_self _ _
      have hp0 := h0 p (hj5 p hpmem).1
      have hnd : (p :: rest).Nodup := hfl ▸ hlv.2.2.2
      have hpr : p ∉ rest := (List.nodup_cons.mp hnd).1
      obtain ⟨s1, hstep, htree, hleaf, hframe, hfl1, hn1, hrp, hro, hrf⟩ :=
        alloc_static_step_spec s r g p rest level hr hlv hfl (by omega)
          (by rw [hn]; exact hp0.1) hp0.2
          (hj3 g (fun gp hgp => hd g (List.mem_cons_self _ _) gp hgp))
      have hsub : ∀ x ∈ s1.page_free_list, x ∈ rest := by
        intro x hx
        rw [hfl1] at hx
        exact List.mem_of_mem_drop hx
      have hlen1 : rest.length ≤ s1.page_free_list.length + 3 := by
        rw [hfl1, List.length_drop]
        have := missing_tables_le s.mem 3 (page2kva r) g
        omega
      have hinv1 : static_inv s1 r n0 free0 ((g, p) :: done) := by
        refine ⟨htree, by rw [hn1, hn], ?_, ?_, ?_, ?_⟩
        · intro gp hgp
          rcases List.mem_cons.mp hgp with e | hgp'
          · rw [e]
            refine ⟨hleaf, ?_, fun h => hpr (hsub p h)⟩
            rw [hrp, (hj5 p hpmem).2]
          · obtain ⟨a, b, c⟩ := hj2 gp hgp'
            refine ⟨?_, ?_, ?_⟩
            · rw [hframe gp.1 (idx_differ_symm _ _ (hd g (List.mem_cons_self _ _) gp hgp'))]
              exact a
            · rw [hro gp.2 c]
              exact b
            · intro h
              apply c
              rw [hfl]
              exact List.mem_cons_of_mem _ (hsub _ h)
        · intro g' hg'
          rw [hframe g' (hg' (g, p) (List.mem_cons_self _ _))]
          exact hj3 g' (fun gp hgp => hg' gp (List.mem_cons_of_mem _ hgp))
        · rw [List.map_cons, List.nodup_cons]
          refine ⟨?_, hj4⟩
          intro hmem
          obtain ⟨gp, hgp, e⟩ := List.mem_map.mp hmem
          have := (hj2 gp hgp).2.2
          rw [e] at this
          exact this hpmem
        · intro f hf
          have hfr : f ∈ rest := hsub f hf
          have hfs : f ∈ s.page_free_list := by rw [hfl]; exact List.mem_cons_of_mem _ hfr
          refine ⟨(hj5 f hfs).1, ?_⟩
          rw [hrf f hf]
          exact (hj5 f hfs).2
      obtain ⟨s', done', hfold, hinv', hsub', hall, honly, hlen'⟩ := ih s1 ((g, p) :: done) hinv1
        hpl
        (by
          intro g' hg' gp hgp
          rcases List.mem_cons.mp hgp with e | hgp'
          · rw [e]
            exact hgl g' hg'
          · exact hd g' (List.mem_cons_of_mem _ hg') gp hgp')
        (by omega)
      refine ⟨s', done', ?_, hinv', fun gp hgp => hsub' gp (List.mem_cons_of_mem _ hgp), ?_, ?_,
        ?_⟩
      · rw [List.foldlM_cons, hstep]
        exact hfold
      · intro g' hg'
        rcases List.mem_cons.mp hg' with e | h
        · exact ⟨p, e ▸ hsub' (g, p) (List.mem_cons_self _ _)⟩
        · exact hall g' h
      · intro gp hgp
        rcases honly gp hgp with h | h
        · rcases List.mem_cons.mp h with e | h'
          · right
            rw [e]
            exact List.mem_cons_self _ _
          · exact Or.inl h'
        · exact Or.inr (List.mem_cons_of_mem _ h)
      · simp only [List.length_cons]
        omega


theorem mem_static_range (lo hi g : Nat) (hlo : lo % 4096 = 0) :
    g ∈ static_range lo hi ↔ lo ≤ g ∧ g < hi ∧ g % 4096 = 0 := by
  unfold static_range PGSIZE
  rw [List.mem_map]
  constructor
  · rintro ⟨k, hk, rfl⟩
    rw [List.mem_range] at hk
    omega
  · rintro ⟨h1, h2, h3⟩
    refine ⟨(g - lo) / 4096, ?_, ?_⟩
    · rw [List.mem_range]
      omega
    · omega

theorem static_range_length (lo hi : Nat) :
    (static_range lo hi).length = (hi - lo + 4095) / 4096 := by
  unfold static_range PGSIZE
  rw [List.length_map, List.length_range]

theorem static_range_nodup (lo hi : Nat) : (static_range lo hi).Nodup := by
  unfold static_range PGSIZE
  refine (List.nodup_range _).map ?_
  intro a b h
  simp only at h
  omega

/-- Two page-aligned addresses below `2^48` that are different differ in a table
index. -/
theorem idx_differ_of_aligned (a b : Nat) (ha : a % 4096 = 0) (hb : b % 4096 = 0)
    (ha48 : a < 2 ^ 48) (hb48 : b < 2 ^ 48) (hne : a ≠ b) : idx_differ a b := by
  refine idx_differ_of_page_ne b a hb48 ha48 ?_
  unfold PGSIZE
  omega

/-- An address differs in a table index from every address of another 4 KiB page. -/
theorem idx_differ_of_page (a b : Nat) (ha48 : a < 2 ^ 48) (hb48 : b < 2 ^ 48)
    (hne : a / 4096 ≠ b / 4096) : idx_differ a b :=
  idx_differ_of_page_ne b a hb48 ha48 hne

theorem static_range_pairwise (lo hi : Nat) (hlo : lo % 4096 = 0) (hhi : hi ≤ 2 ^ 48) :
    (static_range lo hi).Pairwise idx_differ := by
  refine (static_range_nodup lo hi).pairwise_of_forall_ne ?_
  intro a ha b hb hne
  rw [mem_static_range lo hi a hlo] at ha
  rw [mem_static_range lo hi b hlo] at hb
  exact idx_differ_of_aligned a b ha.2.2 hb.2.2 (lt_of_lt_of_le ha.2.1 hhi)
    (lt_of_lt_of_le hb.2.1 hhi) hne

theorem leaf_entry_empty_root (mem : Nat → Nat) (r g : Nat)
    (hz : ∀ i, i < 512 → mem (page2kva r + 8 * i) = 0) :
    leaf_entry mem 3 (page2kva r) g = 0 := by
  unfold leaf_entry
  rw [walk_ro, hz _ (ADDR_TO_IDX_lt g 3), PTE_ADDR_zero, if_pos rfl]

theorem two_loops_of (body : KState → Nat → Except Halt KState) (l1 l2 : List Nat)
    (s s1 s2 : KState) (h1 : l1.foldlM body s = .ok s1) (h2 : l2.foldlM body s1 = .ok s2) :
    (match l1.foldlM body s with
      | .error e => .error e
      | .ok s1 =>
        match l2.foldlM body s1 with
        | .error e => .error e
        | .ok s2 => .ok (s2, 0)) = (.ok (s2, 0) : Except Halt (KState × Int)) := by
  rw [h1]
  simp only
  rw [h2]

theorem ept_alloc_static_of (s s1 s2 : KState) (eptrt : Nat) (ginfo : VmxGuestInfo)
    (h1 : (static_range 0x0 0xA0000).foldlM (alloc_static_step eptrt) s = .ok s1)
    (h2 : (static_range 0x100000 ginfo.phys_sz).foldlM (alloc_static_step eptrt) s1
      = .ok s2) :
    ept_alloc_static s eptrt ginfo = .ok (s2, 0) :=
  two_loops_of (alloc_static_step eptrt) _ _ s s1 s2 h1 h2

theorem page2kva_inj (p p' : Nat) (h : page2kva p = page2kva p') : p = p' := by
  rw [page2kva_eq, page2kva_eq] at h
  omega

/-- The eager population of an empty tree, with four free pages per page to map, all
tracked, below `2^31` and without a reference: both loops run to their end and leave
every backed page mapped to a page of its own. -/
theorem alloc_static_spec (s : KState) (r : Nat) (ginfo : VmxGuestInfo)
    (hz : ∀ i, i < 512 → s.mem (page2kva r + 8 * i) = 0)
    (hr : r ∉ s.page_free_list) (hnd : s.page_free_list.Nodup)
    (hfree : ∀ f ∈ s.page_free_list,
      f ≠ 0 ∧ f < s.npages ∧ page2pa f < 2 ^ 31 ∧ s.pp_ref f = 0)
    (hsz : ginfo.phys_sz ≤ 2 ^ 48)
    (hlen : 4 * (160 + (ginfo.phys_sz - 0x100000 + 4095) / 4096)
      ≤ s.page_free_list.length) :
    ∃ s' done, ept_alloc_static s (page2kva r) ginfo = .ok (s', 0) ∧
      static_inv s' r s.npages s.page_free_list done ∧
      (∀ g, g % 4096 = 0 → (g < 0xA0000 ∨ (0x100000 ≤ g ∧ g < ginfo.phys_sz)) →
        ∃ p, (g, p) ∈ done) ∧
      (∀ gp ∈ done, gp.1 % 4096 = 0 ∧ gp.1 < 2 ^ 48 ∧
        (gp.1 < 0xA0000 ∨ (0x100000 ≤ gp.1 ∧ gp.1 < ginfo.phys_sz))) := by
  have h0 : ∀ f ∈ s.page_free_list, f < s.npages ∧ page2pa f < 2 ^ 31 :=
    fun f hf => ⟨(hfree f hf).2.1, (hfree f hf).2.2.1⟩
  have hinv0 : static_inv s r s.npages s.page_free_list [] := by
    refine ⟨tree_inv_empty s r hz hr hnd
      (fun f hf => ⟨(hfree f hf).1, lt_trans (hfree f hf).2.2.1 (by norm_num)⟩), rfl,
      fun _ h => absurd h (List.not_mem_nil _), fun g _ => leaf_entry_empty_root s.mem r g hz,
      List.nodup_nil, fun f hf => ⟨hf, (hfree f hf).2.2.2⟩⟩
  have hl1 : (static_range 0x0 0xA0000).length = 160 := by
    rw [static_range_length]
  have hl2 := static_range_length 0x100000 ginfo.phys_sz
  obtain ⟨s1, done1, hf1, hinv1, -, hall1, honly1, hlen1⟩ :=
    alloc_static_loop_spec r s.npages s.page_free_list h0 (static_range 0x0 0xA0000) s []
      hinv0 (static_range_pairwise _ _ (by norm_num) (by norm_num))
      (fun _ _ _ h => absurd h (List.not_mem_nil _)) (by rw [hl1]; omega)
  have hd1 : ∀ gp ∈ done1, gp.1 % 4096 = 0 ∧ gp.1 < 0xA0000 := by
    intro gp hgp
    rcases honly1 gp hgp with h | h
    · exact absurd h (List.not_mem_nil _)
    · rw [mem_static_range _ _ _ (by norm_num)] at h
      exact ⟨h.2.2, h.2.1⟩
  obtain ⟨s2, done2, hf2, hinv2, hsub2, hall2, honly2, -⟩ :=
    alloc_static_loop_spec r s.npages s.page_free_list h0
      (static_range 0x100000 ginfo.phys_sz) s1 done1 hinv1
      (static_range_pairwise _ _ (by norm_num) hsz)
      (by
        intro g hg gp hgp
        rw [mem_static_range _ _ _ (by norm_num)] at hg
        obtain ⟨a, b⟩ := hd1 gp hgp
        exact idx_differ_of_aligned gp.1 g a hg.2.2 (by norm_num at b ⊢; omega)
          (lt_of_lt_of_le hg.2.1 hsz) (by omega))
      (by rw [hl1] at hlen1; rw [hl2]; omega)
  refine ⟨s2, done2, ept_alloc_static_of s s1 s2 _ ginfo hf1 hf2, hinv2, ?_, ?_⟩
  · intro g hg hb
    rcases hb with hb | hb
    · obtain ⟨p, hp⟩ := hall1 g (by
        rw [mem_static_range _ _ _ (by norm_num)]
        exact ⟨Nat.zero_le _, hb, hg⟩)
      exact ⟨p, hsub2 _ hp⟩
    · exact hall2 g (by
        rw [mem_static_range _ _ _ (by norm_num)]
        exact ⟨hb.1, hb.2, hg⟩)
  · intro gp hgp
    rcases honly2 gp hgp with h | h
    · obtain ⟨a, b⟩ := hd1 gp h
      exact ⟨a, by norm_num at b ⊢; omega, Or.inl b⟩
    · rw [mem_static_range _ _ _ (by norm_num)] at h
      exact ⟨h.2.2, lt_of_lt_of_le h.2.1 hsz, Or.inr ⟨h.1, h.2.1⟩⟩


/-- A tree laid out by levels is a tree none of whose tables is free. -/
theorem tree_wf_of_tree_inv (s : KState) (r : Nat) (h : tree_inv s r) :
    tree_wf s.mem 3 r ∧ ∀ x, in_subtree s.mem 3 r x → x ∉ s.page_free_list := by
  obtain ⟨level, hr, hinv⟩ := h
  exact ⟨tree_wf_of_levels s level 3 r hinv hr, subtree_not_free s level 3 r hinv hr⟩


/-! ## The claims -/

set_option maxRecDepth 100000

/-- C2: when guest-physical `gpa` already translates (to `h ≠ NULL`), a call
`ept_map_hva2gpa(eptrt, hva, gpa, perm, 0)` returns `-E_INVAL` and leaves the whole
state, so every entry of the tree, as it was; `ept_gpa2hva` still yields `h`. -/
theorem C2_map_existing_rejected (s s1 : KState) (eptrt hva gpa h : Nat) (perm : Int)
    (hmapped : ept_gpa2hva s eptrt gpa = .ok (s1, h)) (hh : h ≠ 0) :
    ept_map_hva2gpa s eptrt hva gpa perm 0 = .ok (s, -E_INVAL) ∧
      ept_gpa2hva s eptrt gpa = .ok (s, h) := by
  refine ⟨map_of_mapped s s1 eptrt hva gpa h perm hmapped hh, ?_⟩
  obtain ⟨-, hs, -, -⟩ := mapped_walk s s1 eptrt gpa h hmapped hh
  rw [hmapped, hs]

/-- C2 at a concrete tree: guest-physical `0x1000` is mapped to page 7 and a second map
of page 5 there is refused. -/
theorem C2_map_existing_rejected_witness :
    ept_map_hva2gpa example_mapped (page2kva 6) (page2kva 5) 0x1000 7 0
        = .ok (example_mapped, -E_INVAL) ∧
      ept_gpa2hva example_mapped (page2kva 6) 0x1000 = .ok (example_mapped, page2kva 7) :=
  C2_map_existing_rejected example_mapped example_mapped (page2kva 6) (page2kva 5) 0x1000
    (page2kva 7) 7
    (by
      rw [ept_gpa2hva_eq _ _ _ (by decide)]
      exact congrArg (fun x => Except.ok (example_mapped, x)) (by decide))
    (by decide)

/-- C5: when `ept_lookup_gpa` is called with `create` non-zero and the free list holds
fewer pages than the path of `gpa` lacks tables, it returns `-E_NO_MEM` with `NULL` in
`*epte_out`, every reference count and the free list are as before the call (each page
taken was released again), and every word outside the free pages is unchanged. -/
theorem C5_lookup_oom_releases (s : KState) (eptrt gpa : Nat) (create : Int)
    (hroot : eptrt ≠ 0) (hcreate : create ≠ 0)
    (hnd : s.page_free_list.Nodup)
    (href : ∀ f ∈ s.page_free_list, s.pp_ref f = 0)
    (hoom : s.page_free_list.length < missing_tables s.mem 3 eptrt gpa) :
    ∃ s', ept_lookup_gpa s eptrt gpa create = (s', -E_NO_MEM, some 0) ∧
      s'.pp_ref = s.pp_ref ∧ s'.page_free_list = s.page_free_list ∧
      ∀ a, (∀ f ∈ s.page_free_list, ¬ in_page f a) → s'.mem a = s.mem a := by
  obtain ⟨h2, hpp, hfree, -, hmem⟩ := walk_create_oom 3 s eptrt gpa hnd href hoom
  refine ⟨(walk_create 3 s eptrt gpa).1, ?_, hpp, hfree, hmem⟩
  rw [ept_lookup_gpa_create _ _ _ _ hroot hcreate, if_pos h2]

/-- C5 on an empty tree with two free pages, where three tables are missing. -/
theorem C5_lookup_oom_releases_witness :
    ∃ s', ept_lookup_gpa (example_empty [1, 2]) (page2kva 6) 0x1000 1
        = (s', -E_NO_MEM, some 0) ∧
      s'.pp_ref = (example_empty [1, 2]).pp_ref ∧
      s'.page_free_list = (example_empty [1, 2]).page_free_list ∧
      ∀ a, (∀ f ∈ (example_empty [1, 2]).page_free_list, ¬ in_page f a) →
        s'.mem a = (example_empty [1, 2]).mem a :=
  C5_lookup_oom_releases (example_empty [1, 2]) (page2kva 6) 0x1000 1
    (by decide) (by decide) (by decide) (by decide) (by decide)

/-- C6: when the free list holds fewer pages than the path of `gpa` lacks tables,
`ept_lookup_gpa` reports `-E_NO_MEM` with a `NULL` entry pointer, and `ept_map_hva2gpa`,
which ignores that result, dereferences the `NULL` pointer: it faults instead of
returning `-E_NO_MEM`. -/
theorem C6_map_oom_faults (s : KState) (eptrt hva gpa : Nat) (perm overwrite : Int)
    (hroot : eptrt ≠ 0)
    (htracked : pa2page s (u64_of_int (int_of_u64 (PADDR hva))) ≠ none)
    (hoom : s.page_free_list.length < missing_tables s.mem 3 eptrt gpa) :
    (ept_lookup_gpa s eptrt gpa 1).2 = (-E_NO_MEM, some 0) ∧
      ept_map_hva2gpa s eptrt hva gpa perm overwrite = .error Halt.fault :=
  map_oom_faults s eptrt hva gpa perm overwrite hroot htracked hoom

/-- C6 on an empty tree with an empty free list: mapping page 7 at `0x1000` faults. -/
theorem C6_map_oom_faults_witness :
    (ept_lookup_gpa (example_empty []) (page2kva 6) 0x1000 1).2 = (-E_NO_MEM, some 0) ∧
      ept_map_hva2gpa (example_empty []) (page2kva 6) (page2kva 7) 0x1000 7 0
        = .error Halt.fault :=
  C6_map_oom_faults (example_empty []) (page2kva 6) (page2kva 7) 0x1000 7 0
    (by decide) (by decide) (by decide)

/-- C10: for a faulting address in the I/O hole outside the display-buffer page, and
for an address at or above both `0x100000` and `phys_sz`, `handle_eptviolation` returns
false and the state (allocator and tree) is unchanged. -/
theorem C10_eptviolation_unbacked (s : KState) (eptrt : Nat) (ginfo : VmxGuestInfo)
    (gpa : Nat)
    (h : (0xA0000 ≤ gpa ∧ gpa < 0x100000 ∧ ¬ (CGA_BUF ≤ gpa ∧ gpa < CGA_BUF + PGSIZE)) ∨
      (0x100000 ≤ gpa ∧ ginfo.phys_sz ≤ gpa)) :
    handle_eptviolation s eptrt ginfo gpa = .ok (s, false) := by
  unfold handle_eptviolation
  unfold CGA_BUF PGSIZE at *
  have h1 : ¬ (gpa < 0xA0000 ∨ (gpa ≥ 0x100000 ∧ gpa < ginfo.phys_sz)) := by omega
  have h2 : ¬ (gpa ≥ 0xB8000 ∧ gpa < 0xB8000 + 4096) := by omega
  rw [if_neg h1, if_neg h2]

/-- C10 at guest-physical `0xB0000`, inside the I/O hole. -/
theorem C10_eptviolation_unbacked_witness :
    handle_eptviolation example_mapped (page2kva 6) example_ginfo 0xB0000
      = .ok (example_mapped, false) :=
  C10_eptviolation_unbacked example_mapped (page2kva 6) example_ginfo 0xB0000
    (by decide)

/-- C3 (as stated) fails: in a tree that maps guest-physical `0x1000` to page 7,
`free_guest_mem` returns and `ept_gpa2hva` still yields the host address of page 7, not
`NULL`. -/
theorem C3_translation_survives_teardown :
    value_of (ept_gpa2hva example_mapped (page2kva 6) 0x1000) = some (page2kva 7) ∧
      returned (free_guest_mem example_mapped (page2kva 6)) = true ∧
      value_of (ept_gpa2hva
        (kstate_of (free_guest_mem example_mapped (page2kva 6)) example_mapped)
        (page2kva 6) 0x1000) = some (page2kva 7) := by
  decide

/-- C3 (amended): `free_guest_mem` clears no entry: when it returns, every memory word
is as before the call, so `ept_gpa2hva` yields for every guest-physical address the
same host address as before the teardown. -/
theorem C3_teardown_keeps_entries (s s' : KState) (eptrt gpa : Nat)
    (h : free_guest_mem s eptrt = .ok s') :
    s'.mem = s.mem ∧
      value_of (ept_gpa2hva s' eptrt gpa) = value_of (ept_gpa2hva s eptrt gpa) := by
  have hm := (free_ept_level_mem _ s s' eptrt h).1
  refine ⟨hm, ?_⟩
  rw [ept_gpa2hva_value, ept_gpa2hva_value, hm]

/-- C3 (amended) on the tree that maps `0x1000` to page 7. -/
theorem C3_teardown_keeps_entries_witness :
    (kstate_of (free_guest_mem example_mapped (page2kva 6)) example_mapped).mem
        = example_mapped.mem ∧
      value_of (ept_gpa2hva
        (kstate_of (free_guest_mem example_mapped (page2kva 6)) example_mapped)
        (page2kva 6) 0x1000) = value_of (ept_gpa2hva example_mapped (page2kva 6) 0x1000) :=
  C3_teardown_keeps_entries example_mapped _ (page2kva 6) 0x1000
    (ok_kstate_of _ example_mapped (by decide))

/-- C9 (as stated) fails: after the fault at `0x1000` was handled on an empty tree, a
second fault at `0x1000` does not return at all; the handler's assertion stops the
kernel. -/
theorem C9_second_fault_panics :
    value_of (handle_eptviolation (example_empty [1, 2, 3, 4, 5]) (page2kva 6)
        example_ginfo 0x1000) = some true ∧
      halt_of (handle_eptviolation
        (state_of (handle_eptviolation (example_empty [1, 2, 3, 4, 5]) (page2kva 6)
          example_ginfo 0x1000) (example_empty []))
        (page2kva 6) example_ginfo 0x1000) = some Halt.panic := by
  decide

/-- C9 (amended): when a backed guest-physical address that already translates faults,
the handler does not handle it. With an empty free list it returns false with the state
unchanged; otherwise the overwrite-free map of the page it took returns `-E_INVAL`
without writing any entry, and the assertion `r >= 0` stops the kernel. -/
theorem C9_refault_not_handled (s s1 : KState) (eptrt : Nat) (ginfo : VmxGuestInfo)
    (gpa h : Nat)
    (hback : gpa < 0xA0000 ∨ (0x100000 ≤ gpa ∧ gpa < ginfo.phys_sz))
    (hmapped : ept_gpa2hva s eptrt gpa = .ok (s1, h)) (hh : h ≠ 0) :
    (s.page_free_list = [] → handle_eptviolation s eptrt ginfo gpa = .ok (s, false)) ∧
      ∀ p rest, s.page_free_list = p :: rest →
        ept_map_hva2gpa (page_incref { s with page_free_list := rest } p) eptrt
            (page2kva p) (ROUNDDOWN gpa PGSIZE) (__EPTE_FULL : Nat) 0
          = .ok (page_incref { s with page_free_list := rest } p, -E_INVAL) ∧
        handle_eptviolation s eptrt ginfo gpa = .error Halt.panic := by
  obtain ⟨hr, -, hval, -⟩ := mapped_walk s s1 eptrt gpa h hmapped hh
  have hcond : gpa < 0xA0000 ∨ (gpa ≥ 0x100000 ∧ gpa < ginfo.phys_sz) := hback
  constructor
  · intro hnil
    unfold handle_eptviolation
    rw [if_pos hcond, page_alloc_nil s 0 hnil]
  · intro p rest hfl
    have hmap : ept_map_hva2gpa (page_incref { s with page_free_list := rest } p) eptrt
        (page2kva p) (ROUNDDOWN gpa PGSIZE) (__EPTE_FULL : Nat) 0
          = .ok (page_incref { s with page_free_list := rest } p, -E_INVAL) := by
      refine map_of_mapped _ (page_incref { s with page_free_list := rest } p) eptrt _ _ h _
        ?_ hh
      rw [ept_gpa2hva_eq _ _ _ hr, hval]
      simp [page_incref, leaf_entry_ROUNDDOWN]
    refine ⟨hmap, ?_⟩
    unfold handle_eptviolation
    rw [if_pos hcond, page_alloc_plain_cons s p rest hfl]
    simp only [hmap]
    simp [E_INVAL]

/-- C9 (amended) on the tree that maps `0x1000` to page 7, with pages 4 and 5 free. -/
theorem C9_refault_not_handled_witness :
    (example_mapped.page_free_list = [] →
        handle_eptviolation example_mapped (page2kva 6) example_ginfo 0x1000
          = .ok (example_mapped, false)) ∧
      ∀ p rest, example_mapped.page_free_list = p :: rest →
        ept_map_hva2gpa (page_incref { example_mapped with page_free_list := rest } p)
            (page2kva 6) (page2kva p) (ROUNDDOWN 0x1000 PGSIZE) (__EPTE_FULL : Nat) 0
          = .ok (page_incref { example_mapped with page_free_list := rest } p, -E_INVAL) ∧
        handle_eptviolation example_mapped (page2kva 6) example_ginfo 0x1000
          = .error Halt.panic :=
  C9_refault_not_handled example_mapped example_mapped (page2kva 6) example_ginfo 0x1000
    (page2kva 7) (by decide)
    (by
      rw [ept_gpa2hva_eq _ _ _ (by decide)]
      exact congrArg (fun x => Except.ok (example_mapped, x)) (by decide))
    (by decide)

/-- C1: the round trip fails for a tracked page at or above 4 GiB. The map keeps the
physical address of the page in an `int`: on an empty tree, mapping the tracked page
`0x100008` (physical `0x100008000`) at guest-physical `0x1000` with `perm = 7` returns
`0`, and then `ept_gpa2hva` yields the host address of page 8 and the lookup with
`create = 0` finds an entry whose address field is `page2pa(8)`. -/
theorem C1_high_page_translates_elsewhere :
    0x100008 < (example_big [1, 2, 3]).npages ∧
      leaf_entry (example_big [1, 2, 3]).mem 3 (page2kva 6) 0x1000 = 0 ∧
      value_of (ept_map_hva2gpa (example_big [1, 2, 3]) (page2kva 6) (page2kva 0x100008)
        0x1000 7 0) = some 0 ∧
      value_of (ept_gpa2hva
        (state_of (ept_map_hva2gpa (example_big [1, 2, 3]) (page2kva 6) (page2kva 0x100008)
          0x1000 7 0) (example_big [])) (page2kva 6) 0x1000) = some (page2kva 8) ∧
      page2kva 8 ≠ page2kva 0x100008 ∧
      (ept_lookup_gpa
        (state_of (ept_map_hva2gpa (example_big [1, 2, 3]) (page2kva 6) (page2kva 0x100008)
          0x1000 7 0) (example_big [])) (page2kva 6) 0x1000 0).2.1 = 0 ∧
      ((ept_lookup_gpa
        (state_of (ept_map_hva2gpa (example_big [1, 2, 3]) (page2kva 6) (page2kva 0x100008)
          0x1000 7 0) (example_big [])) (page2kva 6) 0x1000 0).2.2.map fun pte =>
        epte_addr ((state_of (ept_map_hva2gpa (example_big [1, 2, 3]) (page2kva 6)
          (page2kva 0x100008) 0x1000 7 0) (example_big [])).mem pte)) = some (page2pa 8) ∧
      page2pa 8 ≠ page2pa 0x100008 := by
  decide

/-- The round trip of a page below `2^31`: let `perm` lie within the twelve flag bits
and the physical address of page `p` below `2^31`; let the free pages be distinct, non-zero, with 64-bit
physical addresses, and none of them hold a slot on the existing path of `gpa`. If
`ept_map_hva2gpa(eptrt, page2kva(p), gpa, perm, 0)` returns `0`, then `ept_gpa2hva`
yields `page2kva(p)` and the lookup with `create = 0` returns `0` with an entry whose
address field is `page2pa(p)`. -/
theorem map_then_translate_low (s s' : KState) (eptrt p gpa : Nat) (perm : Int)
    (hroot : eptrt ≠ 0)
    (hperm : 0 ≤ perm ∧ perm < 4096)
    (hp : page2pa p < 2 ^ 31)
    (hnd : s.page_free_list.Nodup)
    (hfree : ∀ f ∈ s.page_free_list, f ≠ 0 ∧ page2pa f < 2 ^ 64)
    (hpath : ∀ a ∈ walk_slots s.mem 3 eptrt gpa, ∀ f ∈ s.page_free_list, ¬ in_page f a)
    (hret : ept_map_hva2gpa s eptrt (page2kva p) gpa perm 0 = .ok (s', 0)) :
    ept_gpa2hva s' eptrt gpa = .ok (s', page2kva p) ∧
      ∃ pte, ept_lookup_gpa s' eptrt gpa 0 = (s', 0, some pte) ∧ pte ≠ 0 ∧
        epte_addr (s'.mem pte) = page2pa p := by
  obtain ⟨pte, hpte, hw, hv⟩ := map_ok_walk s s' eptrt _ gpa perm hroot hnd hfree hpath hret
  rw [ptr_of_page p hp] at hv
  have h64 : page2pa p < 2 ^ 64 := lt_trans hp (by norm_num)
  have hx := u64_of_int_small perm hperm.1 hperm.2
  have haddr := leaf_value_addr (page2pa p) _ (page2pa_aligned p) h64 hx
  have hpres := leaf_value_present (page2pa p) _ (page2pa_aligned p) h64 hx
  rw [← hv] at haddr hpres
  constructor
  · rw [ept_gpa2hva_eq _ _ _ hroot]
    simp only [leaf_entry, hw, hva_of_entry, hpres, if_true, haddr]
    rfl
  · refine ⟨pte, ?_, hpte, haddr⟩
    rw [ept_lookup_gpa_ro _ _ _ hroot, hw]

/-- The round trip on an empty tree: page 8 mapped at `0x1000` with `perm = 7`. -/
theorem map_then_translate_low_example :
    ept_gpa2hva
        (state_of (ept_map_hva2gpa (example_empty [1, 2, 3]) (page2kva 6) (page2kva 8)
          0x1000 7 0) (example_empty []))
        (page2kva 6) 0x1000
      = .ok (state_of (ept_map_hva2gpa (example_empty [1, 2, 3]) (page2kva 6) (page2kva 8)
          0x1000 7 0) (example_empty []), page2kva 8) ∧
      ∃ pte, ept_lookup_gpa
          (state_of (ept_map_hva2gpa (example_empty [1, 2, 3]) (page2kva 6) (page2kva 8)
            0x1000 7 0) (example_empty []))
          (page2kva 6) 0x1000 0
        = (state_of (ept_map_hva2gpa (example_empty [1, 2, 3]) (page2kva 6) (page2kva 8)
            0x1000 7 0) (example_empty []), 0, some pte) ∧ pte ≠ 0 ∧
        epte_addr ((state_of (ept_map_hva2gpa (example_empty [1, 2, 3]) (page2kva 6)
          (page2kva 8) 0x1000 7 0) (example_empty [])).mem pte) = page2pa 8 :=
  map_then_translate_low (example_empty [1, 2, 3]) _ (page2kva 6) 8 0x1000 7
    (by decide) (by decide) (by decide) (by decide) (by decide) (by decide)
    (ok_state_of _ (example_empty []) 0 (by decide))

/-- C7: the claim fails where the underlying map runs out of table pages. With fewer
free pages than the path of `gpa` lacks tables, `ept_page_insert` does not return
`-E_NO_MEM`: the map it calls dereferences the `NULL` entry pointer and the kernel
faults. -/
theorem C7_insert_oom_faults (s : KState) (eptrt pp gpa : Nat) (perm : Int)
    (hroot : eptrt ≠ 0)
    (htracked : pa2page s (u64_of_int (int_of_u64 (PADDR (page2kva pp)))) ≠ none)
    (hoom : s.page_free_list.length < missing_tables s.mem 3 eptrt gpa) :
    ept_page_insert s eptrt pp gpa perm = .error Halt.fault := by
  unfold ept_page_insert
  rw [(map_oom_faults s eptrt (page2kva pp) gpa perm 1 hroot htracked hoom).2]

/-- C7 on an empty tree with an empty free list: inserting page 7 at `0x1000`
faults. -/
theorem C7_insert_oom_faults_witness :
    ept_page_insert (example_empty []) (page2kva 6) 7 0x1000 7 = .error Halt.fault :=
  C7_insert_oom_faults (example_empty []) (page2kva 6) 7 0x1000 7
    (by decide) (by decide) (by decide)

/-- A handled fault with a page below `2^31`: let `gpa` be a backed guest-physical address whose leaf entry is empty or whose
path is incomplete, in a tree of tables rooted at page `r` none of which is free; let
the free list start with page `p` (tracked, physical address below `2^31`) and hold
enough further pages for the missing tables, all distinct and non-zero. Then
`handle_eptviolation` returns true; afterwards `ROUNDDOWN(gpa, PGSIZE)` translates to
`page2kva(p)`, its leaf entry has all three access bits, `p` has one more reference,
and every address that differs from `gpa` in a table index (below `2^48`: every address
in another 4 KiB page) translates as before the call. -/
theorem eptviolation_maps_low (s : KState) (r : Nat) (ginfo : VmxGuestInfo) (gpa p : Nat)
    (rest : List Nat)
    (hback : gpa < 0xA0000 ∨ (0x100000 ≤ gpa ∧ gpa < ginfo.phys_sz))
    (hunmapped : leaf_entry s.mem 3 (page2kva r) gpa = 0)
    (hfl : s.page_free_list = p :: rest)
    (halloc : missing_tables s.mem 3 (page2kva r) gpa ≤ rest.length)
    (hp : p < s.npages) (hp31 : page2pa p < 2 ^ 31)
    (hnd : s.page_free_list.Nodup)
    (hfree : ∀ f ∈ s.page_free_list, f ≠ 0 ∧ page2pa f < 2 ^ 64)
    (hwf : tree_wf s.mem 3 r)
    (hnf : ∀ x, in_subtree s.mem 3 r x → x ∉ s.page_free_list) :
    ∃ s', handle_eptviolation s (page2kva r) ginfo gpa = .ok (s', true) ∧
      ept_gpa2hva s' (page2kva r) (ROUNDDOWN gpa PGSIZE) = .ok (s', page2kva p) ∧
      leaf_entry s'.mem 3 (page2kva r) (ROUNDDOWN gpa PGSIZE) &&& __EPTE_FULL
        = __EPTE_FULL ∧
      s'.pp_ref p = s.pp_ref p + 1 ∧
      (∀ g', (∃ k, k ≤ 3 ∧ ADDR_TO_IDX g' k ≠ ADDR_TO_IDX gpa k) →
        ept_gpa2hva s' (page2kva r) g'
          = .ok (s', hva_of_entry (leaf_entry s.mem 3 (page2kva r) g')) ∧
        value_of (ept_gpa2hva s' (page2kva r) g')
          = value_of (ept_gpa2hva s (page2kva r) g')) ∧
      ∀ g', gpa < 2 ^ 48 → g' < 2 ^ 48 → g' / PGSIZE ≠ gpa / PGSIZE →
        value_of (ept_gpa2hva s' (page2kva r) g')
          = value_of (ept_gpa2hva s (page2kva r) g') := by
  have hroot : page2kva r ≠ 0 := by simpa using page2kva_ne_zero r 0
  have hcond : gpa < 0xA0000 ∨ (gpa ≥ 0x100000 ∧ gpa < ginfo.phys_sz) := hback
  rw [hfl] at hnd hfree hnf
  have hpr : p ∉ rest := (List.nodup_cons.mp hnd).1
  have hnd2 : rest.Nodup := (List.nodup_cons.mp hnd).2
  have hfree2 : ∀ f ∈ rest, f ≠ 0 ∧ page2pa f < 2 ^ 64 :=
    fun f hf => hfree f (List.mem_cons_of_mem _ hf)
  have hnf2 : ∀ x, in_subtree s.mem 3 r x → x ∉ rest :=
    fun x hx h => hnf x hx (List.mem_cons_of_mem _ h)
  -- the state in which the map is called
  obtain ⟨s2, hs2, hm2, hfl2, hn2, hr2⟩ : ∃ s2 : KState,
      s2 = page_incref { s with page_free_list := rest } p ∧ s2.mem = s.mem ∧
      s2.page_free_list = rest ∧ s2.npages = s.npages ∧ s2.pp_ref p = s.pp_ref p + 1 :=
    ⟨_, rfl, rfl, rfl, rfl, by simp [page_incref]⟩
  have hpath2 : ∀ a ∈ walk_slots s2.mem 3 (page2kva r) (ROUNDDOWN gpa PGSIZE),
      ∀ f ∈ s2.page_free_list, ¬ in_page f a := by
    rw [hm2, hfl2]
    exact walk_slots_not_free s.mem rest 3 r _ hnf2
  have hok : (walk_create 3 s2 (page2kva r) (ROUNDDOWN gpa PGSIZE)).2 ≠ 0 := by
    refine walk_create_enough 3 s2 _ _ hroot ?_
    rw [hm2, hfl2, missing_tables_ROUNDDOWN]
    exact halloc
  obtain ⟨h1, -, h4⟩ := walk_create_succ 3 s2 (page2kva r) (ROUNDDOWN gpa PGSIZE)
    (by rw [hfl2]; exact hnd2) (by rw [hfl2]; exact hfree2) hpath2 hok
  have h0 := h4 (by rw [hm2, leaf_entry_ROUNDDOWN]; exact hunmapped)
  have hmap := map_ok_of s2 (page2kva r) p (ROUNDDOWN gpa PGSIZE) ((__EPTE_FULL : Nat) : Int)
    hroot (by rw [hn2]; exact hp) hp31 hok h0
  have h64 : page2pa p < 2 ^ 64 := lt_trans hp31 (by norm_num)
  have hx : u64_of_int ((__EPTE_FULL : Nat) : Int) < 4096 := by decide
  -- the leaf after the write
  have hw := walk_ro_write_leaf _ 3 (page2kva r) (ROUNDDOWN gpa PGSIZE) _
    (PTE_ADDR (page2pa p) ||| PTE_P ||| u64_of_int ((__EPTE_FULL : Nat) : Int) ||| __EPTE_IPAT
      ||| __EPTE_TYPE EPTE_TYPE_WB) h1 h0
  have hle : leaf_entry (mem_write (walk_create 3 s2 (page2kva r) (ROUNDDOWN gpa PGSIZE)).1
      (walk_create 3 s2 (page2kva r) (ROUNDDOWN gpa PGSIZE)).2
      (PTE_ADDR (page2pa p) ||| PTE_P ||| u64_of_int ((__EPTE_FULL : Nat) : Int) ||| __EPTE_IPAT
        ||| __EPTE_TYPE EPTE_TYPE_WB)).mem 3 (page2kva r) (ROUNDDOWN gpa PGSIZE)
      = PTE_ADDR (page2pa p) ||| PTE_P ||| u64_of_int ((__EPTE_FULL : Nat) : Int) ||| __EPTE_IPAT
        ||| __EPTE_TYPE EPTE_TYPE_WB := by
    unfold leaf_entry
    simp only [mem_write]
    rw [hw]
    simp
  have hother : ∀ g', (∃ k, k ≤ 3 ∧ ADDR_TO_IDX g' k ≠ ADDR_TO_IDX gpa k) →
      leaf_entry (mem_write (walk_create 3 s2 (page2kva r) (ROUNDDOWN gpa PGSIZE)).1
        (walk_create 3 s2 (page2kva r) (ROUNDDOWN gpa PGSIZE)).2
        (PTE_ADDR (page2pa p) ||| PTE_P ||| u64_of_int ((__EPTE_FULL : Nat) : Int)
          ||| __EPTE_IPAT ||| __EPTE_TYPE EPTE_TYPE_WB)).mem 3 (page2kva r) g'
        = leaf_entry s.mem 3 (page2kva r) g' := by
    intro g' hd
    obtain ⟨k, hk, hne⟩ := hd
    have := (walk_create_other 3 s2 r (ROUNDDOWN gpa PGSIZE) g'
      (PTE_ADDR (page2pa p) ||| PTE_P ||| u64_of_int ((__EPTE_FULL : Nat) : Int)
        ||| __EPTE_IPAT ||| __EPTE_TYPE EPTE_TYPE_WB)
      (by rw [hfl2]; exact hnd2) (by rw [hfl2]; exact hfree2)
      (by rw [hm2]; exact hwf) (by rw [hm2, hfl2]; exact hnf2) hok
      ⟨k, hk, by rw [ADDR_TO_IDX_ROUNDDOWN]; exact fun e => hne e.symm⟩).1
    rw [this, hm2]
  have hvalue : ∀ g', (∃ k, k ≤ 3 ∧ ADDR_TO_IDX g' k ≠ ADDR_TO_IDX gpa k) →
      value_of (ept_gpa2hva (mem_write (walk_create 3 s2 (page2kva r) (ROUNDDOWN gpa PGSIZE)).1
        (walk_create 3 s2 (page2kva r) (ROUNDDOWN gpa PGSIZE)).2
        (PTE_ADDR (page2pa p) ||| PTE_P ||| u64_of_int ((__EPTE_FULL : Nat) : Int)
          ||| __EPTE_IPAT ||| __EPTE_TYPE EPTE_TYPE_WB)) (page2kva r) g')
        = value_of (ept_gpa2hva s (page2kva r) g') := by
    intro g' hd
    rw [ept_gpa2hva_value, ept_gpa2hva_value, hother g' hd]
  refine ⟨mem_write (walk_create 3 s2 (page2kva r) (ROUNDDOWN gpa PGSIZE)).1
    (walk_create 3 s2 (page2kva r) (ROUNDDOWN gpa PGSIZE)).2
    (PTE_ADDR (page2pa p) ||| PTE_P ||| u64_of_int ((__EPTE_FULL : Nat) : Int)
      ||| __EPTE_IPAT ||| __EPTE_TYPE EPTE_TYPE_WB), ?_, ?_, ?_, ?_, ?_, ?_⟩
  · unfold handle_eptviolation
    rw [if_pos hcond, page_alloc_plain_cons s p rest hfl]
    simp only
    rw [← hs2, hmap]
    simp
  · rw [ept_gpa2hva_eq _ _ _ hroot, hle]
    have haddr := leaf_value_addr (page2pa p) _ (page2pa_aligned p) h64 hx
    have hpres := leaf_value_present (page2pa p) _ (page2pa_aligned p) h64 hx
    simp only [hva_of_entry, hpres, if_true, haddr]
    rfl
  · rw [hle]
    exact full_flags_value _ (page2pa_aligned p) h64
  · have := (walk_create_pp_ref_frame 3 s2 (page2kva r) (ROUNDDOWN gpa PGSIZE) p
      (by rw [hfl2]; exact hpr)).1
    simp only [mem_write]
    rw [this, hr2]
  · intro g' hd
    refine ⟨?_, hvalue g' hd⟩
    rw [ept_gpa2hva_eq _ _ _ hroot, hother g' hd]
  · intro g' hg hg' hne
    exact hvalue g' (idx_differ_of_page_ne gpa g' hg hg' hne)

/-- A handled fault on an empty tree rooted at page 6 with free pages 1 to 5: the fault
at `0x1000` maps page 1. -/
theorem eptviolation_maps_low_example :
    ∃ s', handle_eptviolation (example_empty [1, 2, 3, 4, 5]) (page2kva 6) example_ginfo
        0x1000 = .ok (s', true) ∧
      ept_gpa2hva s' (page2kva 6) (ROUNDDOWN 0x1000 PGSIZE) = .ok (s', page2kva 1) ∧
      leaf_entry s'.mem 3 (page2kva 6) (ROUNDDOWN 0x1000 PGSIZE) &&& __EPTE_FULL
        = __EPTE_FULL ∧
      s'.pp_ref 1 = (example_empty [1, 2, 3, 4, 5]).pp_ref 1 + 1 ∧
      (∀ g', (∃ k, k ≤ 3 ∧ ADDR_TO_IDX g' k ≠ ADDR_TO_IDX 0x1000 k) →
        ept_gpa2hva s' (page2kva 6) g'
          = .ok (s', hva_of_entry
              (leaf_entry (example_empty [1, 2, 3, 4, 5]).mem 3 (page2kva 6) g')) ∧
        value_of (ept_gpa2hva s' (page2kva 6) g')
          = value_of (ept_gpa2hva (example_empty [1, 2, 3, 4, 5]) (page2kva 6) g')) ∧
      ∀ g', 0x1000 < 2 ^ 48 → g' < 2 ^ 48 → g' / PGSIZE ≠ 0x1000 / PGSIZE →
        value_of (ept_gpa2hva s' (page2kva 6) g')
          = value_of (ept_gpa2hva (example_empty [1, 2, 3, 4, 5]) (page2kva 6) g') :=
  eptviolation_maps_low (example_empty [1, 2, 3, 4, 5]) 6 example_ginfo 0x1000 1
    [2, 3, 4, 5] (by decide) (by decide) rfl (by decide) (by decide) (by decide)
    (by decide) (by decide) (tree_wf_zero 3 6)
    (fun x hx => by
      have e : x = 6 := in_subtree_zero 3 6 x hx
      rw [e]
      decide)

/-- C8: the claim fails where the allocated page lies at or above 2 GiB: the map keeps
its physical address in an `int`. On an empty tree whose free pages start at physical
`2^31`, the fault at the backed, unmapped address `0x1000` finds a free page, the map
returns `-E_INVAL` for it and the handler's assertion stops the kernel. With the free
list headed by the tracked page `0x100008` (physical `0x100008000`) the handler returns
true, and `0x1000` then translates to page 8, not to the page that was allocated. -/
theorem C8_high_page_not_mapped :
    example_high.page_free_list ≠ [] ∧
      leaf_entry example_high.mem 3 (page2kva 6) 0x1000 = 0 ∧
      halt_of (handle_eptviolation example_high (page2kva 6) example_ginfo 0x1000)
        = some Halt.panic ∧
      0x100008 < (example_big [0x100008, 1, 2, 3]).npages ∧
      value_of (handle_eptviolation (example_big [0x100008, 1, 2, 3]) (page2kva 6)
        example_ginfo 0x1000) = some true ∧
      value_of (ept_gpa2hva
        (state_of (handle_eptviolation (example_big [0x100008, 1, 2, 3]) (page2kva 6)
          example_ginfo 0x1000) (example_big [])) (page2kva 6) 0x1000) = some (page2kva 8) ∧
      page2kva 8 ≠ page2kva 0x100008 := by
  decide

/-- C14: `find_msr_in_region` is not a linear scan. It compares the first entry of the
area in every iteration: it returns true with that entry exactly when `area_sz` is
positive and the first entry has the index, and false otherwise; an area that holds
the index in its second entry only is reported as not holding it. -/
theorem C14_find_msr_first_only :
    (∀ (msr_idx : Nat) (area : List vmx_msr_entry) (area_sz : Int),
      find_msr_in_region msr_idx area area_sz =
        if 0 < area_sz ∧ (area.getD 0 ⟨0, 0⟩).msr_index = msr_idx then (true, some 0)
        else (false, none)) ∧
      find_msr_in_region 0xC0000080 [⟨0x10, 0⟩, ⟨0xC0000080, 5⟩] 2 = (false, none) :=
  ⟨find_msr_in_region_eq, by decide⟩

/-- C13: the claim fails where the shadow entry of the extended-feature register
exists but is not the first entry of the area. The lookup then reports it missing and
the handler's assertion stops the kernel: the shadow value is not updated. -/
theorem C13_wrmsr_entry_not_first (tf : Trapframe) (ginfo : VmxGuestInfo) (vmcs : Vmcs)
    (hrcx : tf.tf_regs.reg_rcx = EFER_MSR)
    (hfirst : (ginfo.msr_guest_area.getD 0 ⟨0, 0⟩).msr_index ≠ EFER_MSR) :
    handle_wrmsr tf ginfo vmcs = .error Halt.panic :=
  handle_wrmsr_not_first tf ginfo vmcs hrcx hfirst

/-- C13 on a shadow area with the extended-feature register in its second entry. -/
theorem C13_wrmsr_entry_not_first_witness :
    (∃ e ∈ example_ginfo_msr.msr_guest_area, e.msr_index = EFER_MSR) ∧
      handle_wrmsr (example_tf 0x100 0 EFER_MSR 0 0x1000) example_ginfo_msr
        (example_vmcs 0) = .error Halt.panic :=
  ⟨by decide,
    C13_wrmsr_entry_not_first (example_tf 0x100 0 EFER_MSR 0 0x1000) example_ginfo_msr
      (example_vmcs 0) (by decide) (by decide)⟩

/-- C12: `handle_cpuid` always returns true. The leaf queried is the low 32 bits of
`rax`. The guest's `rax`, `rbx`, `rdx` receive the query's `eax`, `ebx`, `edx`
(32-bit values, so zero-extended); `rcx` receives `ecx`, except that for leaf 1 bit 5
is cleared: every bit of `rcx` equals the bit of `ecx`, but bit 5 of leaf 1, which is
0. -/
theorem C12_cpuid_hides_bit5 (cpuid : Nat → Nat × Nat × Nat × Nat) (tf : Trapframe)
    (vmcs : Vmcs) :
    (handle_cpuid cpuid tf vmcs).2 = true ∧
      (handle_cpuid cpuid tf vmcs).1.tf_regs.reg_rax
        = (cpuid (tf.tf_regs.reg_rax % 4294967296)).1 % 4294967296 ∧
      (handle_cpuid cpuid tf vmcs).1.tf_regs.reg_rbx
        = (cpuid (tf.tf_regs.reg_rax % 4294967296)).2.1 % 4294967296 ∧
      (handle_cpuid cpuid tf vmcs).1.tf_regs.reg_rdx
        = (cpuid (tf.tf_regs.reg_rax % 4294967296)).2.2.2 % 4294967296 ∧
      (handle_cpuid cpuid tf vmcs).1.tf_regs.reg_rcx
        = (if tf.tf_regs.reg_rax % 4294967296 = 1 then
            ((cpuid (tf.tf_regs.reg_rax % 4294967296)).2.2.1 % 4294967296) &&& 0xFFFFFFDF
          else (cpuid (tf.tf_regs.reg_rax % 4294967296)).2.2.1 % 4294967296) ∧
      ∀ i, ((handle_cpuid cpuid tf vmcs).1.tf_regs.reg_rcx).testBit i
        = (!decide (tf.tf_regs.reg_rax % 4294967296 = 1 ∧ i = 5) &&
            ((cpuid (tf.tf_regs.reg_rax % 4294967296)).2.2.1 % 4294967296).testBit i) := by
  rw [handle_cpuid_eq]
  simp only [advance_rip, true_and]
  intro i
  by_cases h : tf.tf_regs.reg_rax % 4294967296 = 1
  · rw [if_pos h, testBit_clear5 _ _ (Nat.mod_lt _ (by norm_num))]
    simp [h]
  · rw [if_neg h]
    simp [h]

/-- C18: `handle_ioinstr` returns true exactly for a write to port `IO_RTC` and for a
read from port `IO_RTC + 1` while the latched index is one of `NVRAM_BASELO`,
`NVRAM_BASEHI`, `NVRAM_EXTLO`, `NVRAM_EXTHI`; whenever it returns false, the register
snapshot and the latched index are the ones it was called with. -/
theorem C18_ioinstr_handled_ports (port_iortc : Int) (tf : Trapframe)
    (ginfo : VmxGuestInfo) (vmcs : Vmcs) :
    ((handle_ioinstr port_iortc tf ginfo vmcs).2.2 = true ↔
      (((vmcs.exit_qualification >>> 16) &&& 0xFFFF = IO_RTC ∧
          ¬ BIT vmcs.exit_qualification 3 ≠ 0) ∨
        ((vmcs.exit_qualification >>> 16) &&& 0xFFFF = IO_RTC + 1 ∧
          BIT vmcs.exit_qualification 3 ≠ 0 ∧
          (port_iortc = NVRAM_BASELO ∨ port_iortc = NVRAM_BASEHI ∨
            port_iortc = NVRAM_EXTLO ∨ port_iortc = NVRAM_EXTHI)))) ∧
      ((handle_ioinstr port_iortc tf ginfo vmcs).2.2 = false →
        handle_ioinstr port_iortc tf ginfo vmcs = (port_iortc, tf, false)) :=
  ⟨handle_ioinstr_handled port_iortc tf ginfo vmcs,
    handle_ioinstr_unhandled port_iortc tf ginfo vmcs⟩

/-- C18 at a read from the index-latch port: not handled, nothing changes. -/
theorem C18_ioinstr_handled_ports_witness :
    handle_ioinstr 0x17 (example_tf 0x15 0 0 0 0x1000) example_ginfo (example_vmcs 0x700008)
      = (0x17, example_tf 0x15 0 0 0 0x1000, false) :=
  (C18_ioinstr_handled_ports 0x17 (example_tf 0x15 0 0 0 0x1000) example_ginfo
    (example_vmcs 0x700008)).2 (by decide)

/-- C19: a data-port read puts in `rax` the low / high byte of 640 when the latched
index is `NVRAM_BASELO` / `NVRAM_BASEHI`, and the low / high byte of
`phys_sz/1024 - 1024` (64-bit arithmetic) when it is `NVRAM_EXTLO` / `NVRAM_EXTHI`;
each is below 256. Low + 256 * high is 640 for the base query, and for `phys_sz` from
1 MB up to 65 MB (excluded) it is `phys_sz/1024 - 1024` for the extended query. -/
theorem C19_cmos_bytes (tf : Trapframe) (ginfo : VmxGuestInfo) (vmcs : Vmcs)
    (hport : (vmcs.exit_qualification >>> 16) &&& 0xFFFF = IO_RTC + 1)
    (hin : BIT vmcs.exit_qualification 3 ≠ 0) :
    (handle_ioinstr NVRAM_BASELO tf ginfo vmcs).2.1.tf_regs.reg_rax = 640 % 256 ∧
    (handle_ioinstr NVRAM_BASEHI tf ginfo vmcs).2.1.tf_regs.reg_rax = 640 / 256 % 256 ∧
    (handle_ioinstr NVRAM_EXTLO tf ginfo vmcs).2.1.tf_regs.reg_rax =
      ((ginfo.phys_sz / 1024 + 18446744073709551616 - 1024) % 18446744073709551616) % 256 ∧
    (handle_ioinstr NVRAM_EXTHI tf ginfo vmcs).2.1.tf_regs.reg_rax =
      ((ginfo.phys_sz / 1024 + 18446744073709551616 - 1024) % 18446744073709551616)
        / 256 % 256 ∧
    (handle_ioinstr NVRAM_BASELO tf ginfo vmcs).2.1.tf_regs.reg_rax < 256 ∧
    (handle_ioinstr NVRAM_BASEHI tf ginfo vmcs).2.1.tf_regs.reg_rax < 256 ∧
    (handle_ioinstr NVRAM_EXTLO tf ginfo vmcs).2.1.tf_regs.reg_rax < 256 ∧
    (handle_ioinstr NVRAM_EXTHI tf ginfo vmcs).2.1.tf_regs.reg_rax < 256 ∧
    (handle_ioinstr NVRAM_BASELO tf ginfo vmcs).2.1.tf_regs.reg_rax
      + 256 * (handle_ioinstr NVRAM_BASEHI tf ginfo vmcs).2.1.tf_regs.reg_rax = 640 ∧
    (0x100000 ≤ ginfo.phys_sz → ginfo.phys_sz < 65 * 0x100000 →
      (handle_ioinstr NVRAM_EXTLO tf ginfo vmcs).2.1.tf_regs.reg_rax
        + 256 * (handle_ioinstr NVRAM_EXTHI tf ginfo vmcs).2.1.tf_regs.reg_rax
        = ginfo.phys_sz / 1024 - 1024) := by
  obtain ⟨h1, h2, h3, h4⟩ := handle_ioinstr_bytes tf ginfo vmcs hport hin
  rw [h1, h2, h3, h4]
  refine ⟨rfl, rfl, rfl, rfl, by omega, by omega, by omega, by omega, by omega, ?_⟩
  intro ha hb
  omega

/-- C19 at a guest with 16 MiB: the extended-memory bytes are those of 15360. -/
theorem C19_cmos_bytes_witness :
    (handle_ioinstr NVRAM_EXTLO (example_tf 0 0 0 0 0x1000) example_ginfo
        (example_vmcs 0x710008)).2.1.tf_regs.reg_rax
      + 256 * (handle_ioinstr NVRAM_EXTHI (example_tf 0 0 0 0 0x1000) example_ginfo
        (example_vmcs 0x710008)).2.1.tf_regs.reg_rax
      = example_ginfo.phys_sz / 1024 - 1024 :=
  (C19_cmos_bytes (example_tf 0 0 0 0 0x1000) example_ginfo (example_vmcs 0x710008)
    (by decide) (by decide)).2.2.2.2.2.2.2.2.2 (by decide) (by decide)

/-- C15: the claim fails for the message-receive request of `handle_vmcall`. The
handler advances the instruction pointer before the receive and once more before it
returns: it returns true with the instruction pointer advanced by the trapped
instruction length twice. -/
theorem C15_ipcrecv_advances_twice (s : KState) (tf : Trapframe) (gInfo : VmxGuestInfo)
    (eptrt : Nat) (vmcs : Vmcs) (envs : List Env) (ipc_send : Nat → Nat → Nat → Nat → Int)
    (ipc_recv : Nat → Int) (hrax : tf.tf_regs.reg_rax = VMX_VMCALL_IPCRECV) :
    ∃ tf', handle_vmcall s tf gInfo eptrt vmcs envs ipc_send ipc_recv = .ok (s, tf', true) ∧
      tf'.tf_rip = ((tf.tf_rip + vmcs.instruction_length % 4294967296)
        % 18446744073709551616 + vmcs.instruction_length % 4294967296)
        % 18446744073709551616 := by
  refine ⟨_, handle_vmcall_ipcrecv s tf gInfo eptrt vmcs envs ipc_send ipc_recv hrax, ?_⟩
  simp only [advance_rip]

/-- C15 at instruction pointer `0x1000` with a trapped instruction of 3 bytes: the
message-receive request returns with instruction pointer `0x1006`, not `0x1003`. -/
theorem C15_ipcrecv_advances_twice_witness :
    ∃ tf', handle_vmcall (example_empty []) (example_tf VMX_VMCALL_IPCRECV 0 0 0 0x1000)
        example_ginfo (page2kva 6) (example_vmcs 0) [] (fun _ _ _ _ => 0) (fun _ => 0)
        = .ok (example_empty [], tf', true) ∧
      tf'.tf_rip = ((0x1000 + 3 % 4294967296) % 18446744073709551616 + 3 % 4294967296)
        % 18446744073709551616 ∧
      ((0x1000 + 3 % 4294967296) % 18446744073709551616 + 3 % 4294967296)
        % 18446744073709551616 = 0x1006 := by
  obtain ⟨tf', h1, h2⟩ := C15_ipcrecv_advances_twice (example_empty [])
    (example_tf VMX_VMCALL_IPCRECV 0 0 0 0x1000) example_ginfo (page2kva 6) (example_vmcs 0)
    [] (fun _ _ _ _ => 0) (fun _ => 0) rfl
  exact ⟨tf', h1, h2, by decide⟩

/-- C17 (as stated) fails for a guest with 4 GiB + 1 MiB of memory: the length of the
third entry is kept in its low 32 bits only and the high half is set to zero, so the
entry describes the empty range `[0x100000, 0x100000)` and does not end at
`phys_sz`. -/
theorem C17_large_memory_truncated :
    0x100000 ≤ (example_ginfo_sz 0x100100000).phys_sz ∧
      (mbmap_mmap_list (example_ginfo_sz 0x100100000)).map entry_range
        = [(0, 0xA0000, MB_TYPE_USABLE), (0xA0000, 0x100000, MB_TYPE_RESERVED),
            (0x100000, 0x100000, MB_TYPE_USABLE)] ∧
      (0x100000 : Nat) ≠ (example_ginfo_sz 0x100100000).phys_sz := by
  decide

/-- C17 (amended): for a guest with `0x100000 ≤ phys_sz` and
`phys_sz - 0x100000 < 2^32`, the three entries built by the memory-map hypercall,
read as 64-bit base and length, describe `[0, 0xA0000)` usable, `[0xA0000, 0x100000)`
reserved and `[0x100000, phys_sz)` usable. -/
theorem C17_mmap_ranges (gInfo : VmxGuestInfo) (h1 : 0x100000 ≤ gInfo.phys_sz)
    (h2 : gInfo.phys_sz - 0x100000 < 2 ^ 32) :
    (mbmap_mmap_list gInfo).map entry_range
      = [(0, 0xA0000, MB_TYPE_USABLE), (0xA0000, 0x100000, MB_TYPE_RESERVED),
          (0x100000, gInfo.phys_sz, MB_TYPE_USABLE)] := by
  have h3 : ((gInfo.phys_sz + 18446744073709551616 - 1024 * 1024) % 18446744073709551616)
      % 4294967296 = gInfo.phys_sz - 0x100000 := by
    norm_num at h2
    omega
  simp only [mbmap_mmap_list, List.map, entry_range, entry_base, entry_length, h3]
  simp only [Nat.zero_mul, Nat.zero_add, Nat.add_zero]
  have h4 : 1048576 + (gInfo.phys_sz - 1048576) = gInfo.phys_sz := by omega
  norm_num [h4]

/-- C17 (amended) at a guest with 16 MiB of memory. -/
theorem C17_mmap_ranges_witness :
    (mbmap_mmap_list example_ginfo).map entry_range
      = [(0, 0xA0000, MB_TYPE_USABLE), (0xA0000, 0x100000, MB_TYPE_RESERVED),
          (0x100000, example_ginfo.phys_sz, MB_TYPE_USABLE)] :=
  C17_mmap_ranges example_ginfo (by decide) (by decide)

/-- C20 (as stated) fails for a destination with a bit above bit 31: with
`rdx = 0x100000005`, which is not the reserved token, the send is called with
destination 5 (the transport here answers with the destination it was called with). -/
theorem C20_destination_truncated :
    ((value_of (handle_vmcall (example_empty [])
        (example_tf VMX_VMCALL_IPCSEND 0 0 0x100000005 0x1000) example_ginfo (page2kva 6)
        (example_vmcs 0) [] (fun dest _ _ _ => (dest : Int)) (fun _ => 0))).map
      fun r => (r.1.tf_regs.reg_rax, r.2)) = some (5, true) := by
  decide

/-- C20 (amended): for a destination `rdx` below `2^31`, the message-send hypercall
calls the send with one destination, whatever the transport, and returns true with the
send's status (as a 64-bit value) in `rax` and the instruction pointer advanced. When
`rdx` is the token `VMX_HOST_FS_ENV`, that destination is the `env_id` of the first
environment of type `ENV_TYPE_FS` in the table, or the token when there is none; for
every other `rdx` it is `rdx`. -/
theorem C20_ipcsend_destination (s : KState) (tf : Trapframe) (gInfo : VmxGuestInfo)
    (eptrt : Nat) (vmcs : Vmcs) (envs : List Env)
    (hrax : tf.tf_regs.reg_rax = VMX_VMCALL_IPCSEND)
    (hrdx : tf.tf_regs.reg_rdx < 2 ^ 31) :
    ∃ dest : Nat,
      (∀ (ipc_send : Nat → Nat → Nat → Nat → Int) (ipc_recv : Nat → Int),
        handle_vmcall s tf gInfo eptrt vmcs envs ipc_send ipc_recv =
          .ok (s, advance_rip { tf with tf_regs := { tf.tf_regs with
            reg_rax := u64_of_int (ipc_send dest tf.tf_regs.reg_rcx tf.tf_regs.reg_rbx
              tf.tf_regs.reg_rdi) } } vmcs, true)) ∧
      (∀ pre e post, (tf.tf_regs.reg_rdx : Int) = VMX_HOST_FS_ENV →
        envs = pre ++ e :: post → (∀ x ∈ pre, x.env_type ≠ ENV_TYPE_FS) →
        e.env_type = ENV_TYPE_FS → dest = u64_of_int e.env_id) ∧
      ((tf.tf_regs.reg_rdx : Int) = VMX_HOST_FS_ENV →
        (∀ x ∈ envs, x.env_type ≠ ENV_TYPE_FS) → dest = tf.tf_regs.reg_rdx) ∧
      ((tf.tf_regs.reg_rdx : Int) ≠ VMX_HOST_FS_ENV → dest = tf.tf_regs.reg_rdx) := by
  have hi := int_of_u64_small _ hrdx
  have hu : u64_of_int (tf.tf_regs.reg_rdx : Int) = tf.tf_regs.reg_rdx :=
    u64_of_int_natCast _ (lt_trans hrdx (by norm_num))
  refine ⟨_, fun ipc_send ipc_recv =>
    handle_vmcall_ipcsend s tf gInfo eptrt vmcs envs ipc_send ipc_recv hrax, ?_, ?_, ?_⟩
  · intro pre e post ht he hpre hfs
    rw [hi, if_pos ht, he, resolve_fs_env_first pre post e _ hpre hfs]
  · intro ht hnone
    rw [hi, if_pos ht, resolve_fs_env_none envs _ hnone, hu]
  · intro ht
    rw [hi, if_neg ht, hu]

/-- C20 (amended) with the token in `rdx` and a table whose second environment is the
first of type `ENV_TYPE_FS`: the send is called with that environment's `env_id`. -/
theorem C20_ipcsend_destination_witness :
    ∃ dest : Nat,
      (∀ (ipc_send : Nat → Nat → Nat → Nat → Int) (ipc_recv : Nat → Int),
        handle_vmcall (example_empty []) (example_tf VMX_VMCALL_IPCSEND 0 0 1 0x1000)
          example_ginfo (page2kva 6) (example_vmcs 0)
          [⟨0x1000, 0⟩, ⟨0x1001, ENV_TYPE_FS⟩, ⟨0x1002, ENV_TYPE_FS⟩] ipc_send ipc_recv =
          .ok (example_empty [], advance_rip { example_tf VMX_VMCALL_IPCSEND 0 0 1 0x1000 with
            tf_regs := { (example_tf VMX_VMCALL_IPCSEND 0 0 1 0x1000).tf_regs with
              reg_rax := u64_of_int (ipc_send dest 0 0 0) } } (example_vmcs 0), true)) ∧
      dest = 0x1001 := by
  obtain ⟨dest, h1, h2, -, -⟩ := C20_ipcsend_destination (example_empty [])
    (example_tf VMX_VMCALL_IPCSEND 0 0 1 0x1000) example_ginfo (page2kva 6) (example_vmcs 0)
    [⟨0x1000, 0⟩, ⟨0x1001, ENV_TYPE_FS⟩, ⟨0x1002, ENV_TYPE_FS⟩] rfl (by decide)
  exact ⟨dest, h1, (h2 [⟨0x1000, 0⟩] ⟨0x1001, ENV_TYPE_FS⟩ [⟨0x1002, ENV_TYPE_FS⟩] rfl rfl
    (by decide) rfl).trans (by decide)⟩

/-- C24: the round trip fails for every value but 0. With the shadow entry of the
extended-feature register first in the area, after `handle_wrmsr` of a 64-bit `v`
(`rdx = v >> 32`, `rax = v & 0xFFFFFFFF`) the following `handle_rdmsr` returns true
with `rax = v & 0xFFFFFFFF`, but with `rdx = v << 32` (in 64 bits), which is not
`v >> 32`. -/
theorem C24_rdmsr_high_half (tf : Trapframe) (ginfo : VmxGuestInfo) (vmcs : Vmcs)
    (e0 : vmx_msr_entry) (rest : List vmx_msr_entry) (v : Nat)
    (hv : v < 2 ^ 64) (hv0 : v ≠ 0)
    (hrcx : tf.tf_regs.reg_rcx = EFER_MSR)
    (hrdx : tf.tf_regs.reg_rdx = v >>> 32)
    (hrax : tf.tf_regs.reg_rax = v &&& 0xFFFFFFFF)
    (hcount : 0 < ginfo.msr_count)
    (harea : ginfo.msr_guest_area = e0 :: rest)
    (hidx : e0.msr_index = EFER_MSR) :
    ∃ tf1 ginfo1 vmcs1 tf2,
      handle_wrmsr tf ginfo vmcs = .ok (tf1, ginfo1, vmcs1, true) ∧
      handle_rdmsr tf1 ginfo1 vmcs1 = .ok (tf2, true) ∧
      tf2.tf_regs.reg_rax = v &&& 0xFFFFFFFF ∧
      tf2.tf_regs.reg_rdx = (v <<< 32) % 18446744073709551616 ∧
      tf2.tf_regs.reg_rdx ≠ v >>> 32 := by
  refine ⟨_, _, _, _, handle_wrmsr_first tf ginfo vmcs e0 rest hrcx hcount harea hidx,
    handle_rdmsr_first _ _ _ _ rest (by simpa [advance_rip] using hrcx) hcount rfl hidx, ?_⟩
  simp only [advance_rip, hrdx, hrax, split_halves v hv]
  exact ⟨trivial, trivial, shl_ne_shr v hv hv0⟩

/-- C24 at `v = 1`: the read after the write returns `rdx = 0x100000000`, and the high
32 bits of 1 are 0. -/
theorem C24_rdmsr_high_half_witness :
    ∃ tf1 ginfo1 vmcs1 tf2,
      handle_wrmsr (example_tf 1 0 EFER_MSR 0 0x1000)
        { phys_sz := 0x1000000, msr_count := 1, msr_guest_area := [⟨EFER_MSR, 0⟩] }
        (example_vmcs 0) = .ok (tf1, ginfo1, vmcs1, true) ∧
      handle_rdmsr tf1 ginfo1 vmcs1 = .ok (tf2, true) ∧
      tf2.tf_regs.reg_rax = 1 &&& 0xFFFFFFFF ∧
      tf2.tf_regs.reg_rdx = (1 <<< 32) % 18446744073709551616 ∧
      tf2.tf_regs.reg_rdx ≠ 1 >>> 32 :=
  C24_rdmsr_high_half (example_tf 1 0 EFER_MSR 0 0x1000)
    { phys_sz := 0x1000000, msr_count := 1, msr_guest_area := [⟨EFER_MSR, 0⟩] }
    (example_vmcs 0) ⟨EFER_MSR, 0⟩ [] 1 (by norm_num) (by decide) rfl (by decide) (by decide)
    (by decide) rfl rfl

/-- C21: let the tables below the root page `r` form a tree none of whose tables is
free, with the free pages distinct and non-zero. For `g` and `g'` below `2^48` in
different 4 KiB pages, an `ept_map_hva2gpa` at `g` that returns 0 (with any `overwrite`)
leaves the result of `ept_gpa2hva(root, g')` as it was. And in every memory, the walks
of two addresses of the same 4 KiB page end at the same leaf entry. -/
theorem C21_map_frame (s s' : KState) (r hva g g' : Nat) (perm overwrite : Int)
    (hnd : s.page_free_list.Nodup)
    (hfree : ∀ f ∈ s.page_free_list, f ≠ 0 ∧ page2pa f < 2 ^ 64)
    (hwf : tree_wf s.mem 3 r)
    (hnf : ∀ x, in_subtree s.mem 3 r x → x ∉ s.page_free_list)
    (hg : g < 2 ^ 48) (hg' : g' < 2 ^ 48) (hne : g' / PGSIZE ≠ g / PGSIZE)
    (h : ept_map_hva2gpa s (page2kva r) hva g perm overwrite = .ok (s', 0)) :
    value_of (ept_gpa2hva s' (page2kva r) g') = value_of (ept_gpa2hva s (page2kva r) g') ∧
      ∀ (mem : Nat → Nat) (t a b : Nat), a / PGSIZE = b / PGSIZE →
        walk_ro mem 3 t a = walk_ro mem 3 t b := by
  have hroot : page2kva r ≠ 0 := by simpa using page2kva_ne_zero r 0
  refine ⟨?_, fun mem t a b hab => walk_ro_same_page mem 3 t a b hab⟩
  rcases map_returns s s' (page2kva r) hva g perm overwrite 0 hroot h with
    ⟨h1, -⟩ | ⟨h1, -⟩ | ⟨-, hok, hs⟩
  · exact absurd h1 (by decide)
  · exact absurd h1 (by decide)
  · obtain ⟨k, hk, hd⟩ := idx_differ_of_page_ne g g' hg hg' hne
    subst hs
    rw [ept_gpa2hva_value, ept_gpa2hva_value,
      (walk_create_other 3 s r g g' _ hnd hfree hwf hnf hok
        ⟨k, hk, fun e => hd e.symm⟩).1]

/-- C21 on the tree left by mapping page 7 at `0x1000` in an empty tree rooted at page 6
(free pages 1 to 4): mapping page 8 at `0x5000` leaves the translation of `0x1000`,
which is page 7. -/
theorem C21_map_frame_witness :
    value_of (ept_gpa2hva
        (state_of (ept_map_hva2gpa
          (state_of (ept_map_hva2gpa (example_empty [1, 2, 3, 4]) (page2kva 6) (page2kva 7)
            0x1000 7 0) (example_empty []))
          (page2kva 6) (page2kva 8) 0x5000 7 0) (example_empty [])) (page2kva 6) 0x1000)
      = value_of (ept_gpa2hva
          (state_of (ept_map_hva2gpa (example_empty [1, 2, 3, 4]) (page2kva 6) (page2kva 7)
            0x1000 7 0) (example_empty [])) (page2kva 6) 0x1000) ∧
      value_of (ept_gpa2hva
          (state_of (ept_map_hva2gpa (example_empty [1, 2, 3, 4]) (page2kva 6) (page2kva 7)
            0x1000 7 0) (example_empty [])) (page2kva 6) 0x1000) = some (page2kva 7) :=
  ⟨(C21_map_frame
      (state_of (ept_map_hva2gpa (example_empty [1, 2, 3, 4]) (page2kva 6) (page2kva 7)
        0x1000 7 0) (example_empty []))
      (state_of (ept_map_hva2gpa
        (state_of (ept_map_hva2gpa (example_empty [1, 2, 3, 4]) (page2kva 6) (page2kva 7)
          0x1000 7 0) (example_empty []))
        (page2kva 6) (page2kva 8) 0x5000 7 0) (example_empty []))
      6 (page2kva 8) 0x5000 0x1000 7 0
      (by decide) (by decide)
      (tree_wf_of_tree_inv _ 6
        (tree_inv_map (example_empty [1, 2, 3, 4]) _ 6 (page2kva 7) 0x1000 7 0 0
          (tree_inv_empty (example_empty [1, 2, 3, 4]) 6 (fun _ _ => rfl) (by decide)
            (by decide) (by decide))
          (ok_state_of _ _ 0 (by decide)))).1
      (tree_wf_of_tree_inv _ 6
        (tree_inv_map (example_empty [1, 2, 3, 4]) _ 6 (page2kva 7) 0x1000 7 0 0
          (tree_inv_empty (example_empty [1, 2, 3, 4]) 6 (fun _ _ => rfl) (by decide)
            (by decide) (by decide))
          (ok_state_of _ _ 0 (by decide)))).2
      (by norm_num) (by norm_num) (by decide)
      (ok_state_of _ _ 0 (by decide))).1,
    by decide⟩

/-- C11 (as stated) fails on an empty tree: the fault at `CGA_BUF` is handled, and the
three pages of the free list are taken for the tables on the path of `CGA_BUF`. -/
theorem C11_cga_allocates_tables :
    value_of (handle_eptviolation (example_cga [1, 2, 3]) (page2kva 6) example_ginfo 0xB8000)
        = some true ∧
      (state_of (handle_eptviolation (example_cga [1, 2, 3]) (page2kva 6) example_ginfo
        0xB8000) (example_cga [1, 2, 3])).page_free_list = [] := by
  decide

/-- C11 (amended): let `gpa` lie in the display-buffer page, let `CGA_BUF` be not yet
mapped (path incomplete or leaf entry empty) below the root page `r`, let page 184
(physical `CGA_BUF`) be tracked, and let the free list hold enough pages for the
missing tables, all distinct, non-zero and off the existing path. Then
`handle_eptviolation` returns true; afterwards `CGA_BUF` translates to
`KERNBASE + CGA_BUF`, its leaf entry has the frame address `CGA_BUF` and all three
access bits; the free list has lost exactly the pages of the missing tables, so it is
unchanged when the path was complete. -/
theorem C11_cga_passthrough (s : KState) (r : Nat) (ginfo : VmxGuestInfo) (gpa : Nat)
    (hgpa : CGA_BUF ≤ gpa ∧ gpa < CGA_BUF + PGSIZE)
    (hunmapped : leaf_entry s.mem 3 (page2kva r) CGA_BUF = 0)
    (halloc : missing_tables s.mem 3 (page2kva r) CGA_BUF ≤ s.page_free_list.length)
    (hp : 184 < s.npages)
    (hnd : s.page_free_list.Nodup)
    (hfree : ∀ f ∈ s.page_free_list, f ≠ 0 ∧ page2pa f < 2 ^ 64)
    (hpath : ∀ a ∈ walk_slots s.mem 3 (page2kva r) CGA_BUF,
      ∀ f ∈ s.page_free_list, ¬ in_page f a) :
    ∃ s', handle_eptviolation s (page2kva r) ginfo gpa = .ok (s', true) ∧
      ept_gpa2hva s' (page2kva r) CGA_BUF = .ok (s', KERNBASE + CGA_BUF) ∧
      epte_addr (leaf_entry s'.mem 3 (page2kva r) CGA_BUF) = CGA_BUF ∧
      leaf_entry s'.mem 3 (page2kva r) CGA_BUF &&& __EPTE_FULL = __EPTE_FULL ∧
      s'.page_free_list
        = s.page_free_list.drop (missing_tables s.mem 3 (page2kva r) CGA_BUF) ∧
      (missing_tables s.mem 3 (page2kva r) CGA_BUF = 0 →
        s'.page_free_list = s.page_free_list) := by
  have hroot : page2kva r ≠ 0 := by simpa using page2kva_ne_zero r 0
  have hc1 : ¬ (gpa < 0xA0000 ∨ (gpa ≥ 0x100000 ∧ gpa < ginfo.phys_sz)) := by
    unfold CGA_BUF PGSIZE at hgpa
    omega
  have hc2 : gpa ≥ CGA_BUF ∧ gpa < CGA_BUF + PGSIZE := hgpa
  have hok : (walk_create 3 s (page2kva r) CGA_BUF).2 ≠ 0 :=
    walk_create_enough 3 s _ _ hroot halloc
  obtain ⟨h1, -, h4⟩ := walk_create_succ 3 s (page2kva r) CGA_BUF hnd hfree hpath hok
  have h0 := h4 hunmapped
  have hp31 : page2pa 184 < 2 ^ 31 := by decide
  have h64 : page2pa 184 < 2 ^ 64 := lt_trans hp31 (by norm_num)
  have hx : u64_of_int ((__EPTE_FULL : Nat) : Int) < 4096 := by decide
  have hmap := map_ok_of s (page2kva r) 184 CGA_BUF ((__EPTE_FULL : Nat) : Int)
    hroot hp hp31 hok h0
  have hw := walk_ro_write_leaf _ 3 (page2kva r) CGA_BUF _
    (PTE_ADDR (page2pa 184) ||| PTE_P ||| u64_of_int ((__EPTE_FULL : Nat) : Int) ||| __EPTE_IPAT
      ||| __EPTE_TYPE EPTE_TYPE_WB) h1 h0
  have hle : leaf_entry (mem_write (walk_create 3 s (page2kva r) CGA_BUF).1
      (walk_create 3 s (page2kva r) CGA_BUF).2
      (PTE_ADDR (page2pa 184) ||| PTE_P ||| u64_of_int ((__EPTE_FULL : Nat) : Int)
        ||| __EPTE_IPAT ||| __EPTE_TYPE EPTE_TYPE_WB)).mem 3 (page2kva r) CGA_BUF
      = PTE_ADDR (page2pa 184) ||| PTE_P ||| u64_of_int ((__EPTE_FULL : Nat) : Int)
        ||| __EPTE_IPAT ||| __EPTE_TYPE EPTE_TYPE_WB := by
    unfold leaf_entry
    simp only [mem_write]
    rw [hw]
    simp
  have haddr := leaf_value_addr (page2pa 184) _ (page2pa_aligned 184) h64 hx
  have hpres := leaf_value_present (page2pa 184) _ (page2pa_aligned 184) h64 hx
  have hfl := walk_create_free_list 3 s (page2kva r) CGA_BUF hok
  refine ⟨mem_write (walk_create 3 s (page2kva r) CGA_BUF).1
    (walk_create 3 s (page2kva r) CGA_BUF).2
    (PTE_ADDR (page2pa 184) ||| PTE_P ||| u64_of_int ((__EPTE_FULL : Nat) : Int)
      ||| __EPTE_IPAT ||| __EPTE_TYPE EPTE_TYPE_WB), ?_, ?_, ?_, ?_, ?_, ?_⟩
  · unfold handle_eptviolation
    rw [if_neg hc1, if_pos hc2, cga_page, hmap]
    simp
  · rw [ept_gpa2hva_eq _ _ _ hroot, hle]
    simp only [hva_of_entry, hpres, if_true, haddr]
    rfl
  · rw [hle, haddr]
    rfl
  · rw [hle]
    exact full_flags_value _ (page2pa_aligned 184) h64
  · simp only [mem_write]
    exact hfl
  · intro hm
    simp only [mem_write]
    rw [hfl, hm]
    rfl

/-- C11 (amended) on the tree that maps `0x1000` to page 7, whose path of `CGA_BUF` is
complete: the fault at `0xB8123` is handled and the free list stays `[4, 5]`. -/
theorem C11_cga_passthrough_witness :
    ∃ s', handle_eptviolation example_mapped_cga (page2kva 6) example_ginfo 0xB8123
        = .ok (s', true) ∧
      ept_gpa2hva s' (page2kva 6) CGA_BUF = .ok (s', KERNBASE + CGA_BUF) ∧
      s'.page_free_list = [4, 5] := by
  obtain ⟨s', h1, h2, -, -, -, h3⟩ := C11_cga_passthrough example_mapped_cga 6 example_ginfo
    0xB8123 (by decide) (by decide) (by decide) (by decide) (by decide) (by decide)
    (by decide)
  exact ⟨s', h1, h2, h3 (by decide)⟩

/-- C16: the claim fails, the new page is never written. Both `memcpy` calls of the
memory-map hypercall copy from the page into the local variables. With `0x6000` not
yet mapped, the free list starting with a tracked page `p` (physical address below
`2^31`) and holding enough further pages for the missing tables, all distinct,
non-zero and off the existing path: the hypercall returns true with `rbx = 0x6000`,
`0x6000` translates to `page2kva(p)`, and every word of page `p` is what it was before
the call, so the page holds no header and no entries. -/
theorem C16_mbmap_page_not_written (s : KState) (tf : Trapframe) (gInfo : VmxGuestInfo)
    (eptrt : Nat) (vmcs : Vmcs) (envs : List Env) (ipc_send : Nat → Nat → Nat → Nat → Int)
    (ipc_recv : Nat → Int) (p : Nat) (rest : List Nat)
    (hrax : tf.tf_regs.reg_rax = VMX_VMCALL_MBMAP)
    (hroot : eptrt ≠ 0)
    (hunmapped : leaf_entry s.mem 3 eptrt 0x6000 = 0)
    (hfl : s.page_free_list = p :: rest)
    (halloc : missing_tables s.mem 3 eptrt 0x6000 ≤ rest.length)
    (hp : p < s.npages) (hp31 : page2pa p < 2 ^ 31)
    (hnd : s.page_free_list.Nodup)
    (hfree : ∀ f ∈ s.page_free_list, f ≠ 0 ∧ page2pa f < 2 ^ 64)
    (hpath : ∀ a ∈ walk_slots s.mem 3 eptrt 0x6000,
      ∀ f ∈ s.page_free_list, ¬ in_page f a) :
    ∃ s' tf', handle_vmcall s tf gInfo eptrt vmcs envs ipc_send ipc_recv
        = .ok (s', tf', true) ∧
      tf'.tf_regs.reg_rbx = 0x6000 ∧
      ept_gpa2hva s' eptrt 0x6000 = .ok (s', page2kva p) ∧
      ∀ a, in_page p a → s'.mem a = s.mem a := by
  rw [hfl] at hnd hfree hpath
  have hpr : p ∉ rest := (List.nodup_cons.mp hnd).1
  have hnd2 : rest.Nodup := (List.nodup_cons.mp hnd).2
  have hfree2 : ∀ f ∈ rest, f ≠ 0 ∧ page2pa f < 2 ^ 64 :=
    fun f hf => hfree f (List.mem_cons_of_mem _ hf)
  obtain ⟨s2, hs2, hm2, hfl2, hn2⟩ : ∃ s2 : KState,
      s2 = page_incref { s with page_free_list := rest } p ∧ s2.mem = s.mem ∧
      s2.page_free_list = rest ∧ s2.npages = s.npages :=
    ⟨_, rfl, rfl, rfl, rfl⟩
  have hpath2 : ∀ a ∈ walk_slots s2.mem 3 eptrt 0x6000,
      ∀ f ∈ s2.page_free_list, ¬ in_page f a := by
    rw [hm2, hfl2]
    exact fun a ha f hf => hpath a ha f (List.mem_cons_of_mem _ hf)
  have hok : (walk_create 3 s2 eptrt 0x6000).2 ≠ 0 :=
    walk_create_enough 3 s2 _ _ hroot (by rw [hm2, hfl2]; exact halloc)
  obtain ⟨h1, -, h4⟩ := walk_create_succ 3 s2 eptrt 0x6000
    (by rw [hfl2]; exact hnd2) (by rw [hfl2]; exact hfree2) hpath2 hok
  have h0 := h4 (by rw [hm2]; exact hunmapped)
  have hmap := map_overwrite_of s2 eptrt p 0x6000 ((__EPTE_FULL : Nat) : Int)
    hroot (by rw [hn2]; exact hp) hp31 hok
  have h64 : page2pa p < 2 ^ 64 := lt_trans hp31 (by norm_num)
  have hx : u64_of_int ((__EPTE_FULL : Nat) : Int) < 4096 := by decide
  have hw := walk_ro_write_leaf _ 3 eptrt 0x6000 _
    (PTE_ADDR (page2pa p) ||| PTE_P ||| u64_of_int ((__EPTE_FULL : Nat) : Int) ||| __EPTE_IPAT
      ||| __EPTE_TYPE EPTE_TYPE_WB) h1 h0
  have hle : leaf_entry (mem_write (walk_create 3 s2 eptrt 0x6000).1
      (walk_create 3 s2 eptrt 0x6000).2
      (PTE_ADDR (page2pa p) ||| PTE_P ||| u64_of_int ((__EPTE_FULL : Nat) : Int)
        ||| __EPTE_IPAT ||| __EPTE_TYPE EPTE_TYPE_WB)).mem 3 eptrt 0x6000
      = PTE_ADDR (page2pa p) ||| PTE_P ||| u64_of_int ((__EPTE_FULL : Nat) : Int)
        ||| __EPTE_IPAT ||| __EPTE_TYPE EPTE_TYPE_WB := by
    unfold leaf_entry
    simp only [mem_write]
    rw [hw]
    simp
  refine ⟨mem_write (walk_create 3 s2 eptrt 0x6000).1 (walk_create 3 s2 eptrt 0x6000).2
    (PTE_ADDR (page2pa p) ||| PTE_P ||| u64_of_int ((__EPTE_FULL : Nat) : Int)
      ||| __EPTE_IPAT ||| __EPTE_TYPE EPTE_TYPE_WB),
    advance_rip { tf with tf_regs := { tf.tf_regs with reg_rbx := 0x6000 } } vmcs,
    ?_, rfl, ?_, ?_⟩
  · unfold handle_vmcall
    rw [if_pos hrax]
    simp only
    rw [page_alloc_plain_cons s p rest hfl]
    simp only
    rw [← hs2, hmap]
  · rw [ept_gpa2hva_eq _ _ _ hroot, hle]
    have haddr := leaf_value_addr (page2pa p) _ (page2pa_aligned p) h64 hx
    have hpres := leaf_value_present (page2pa p) _ (page2pa_aligned p) h64 hx
    simp only [hva_of_entry, hpres, if_true, haddr]
    rfl
  · intro a ha
    have := walk_create_unchanged 3 s2 eptrt 0x6000
      (PTE_ADDR (page2pa p) ||| PTE_P ||| u64_of_int ((__EPTE_FULL : Nat) : Int)
        ||| __EPTE_IPAT ||| __EPTE_TYPE EPTE_TYPE_WB) a
      (by rw [hfl2]; exact hnd2) (by rw [hfl2]; exact hfree2) hpath2 hok
      (by
        rw [hfl2]
        intro f hf hin
        exact hpr (in_page_unique f p a hin ha ▸ hf))
      (by
        rw [hm2]
        intro hin
        exact hpath a hin p (List.mem_cons_self _ _) ha)
    rw [this, hm2]

/-- C16 on an empty tree rooted at page 6 with free pages 1 to 4, all memory zero: after
the hypercall `0x6000` translates to page 1 and every word of page 1 is 0, where the
claim expects a header with `mmap_length = 72`. -/
theorem C16_mbmap_page_not_written_witness :
    ∃ s' tf', handle_vmcall (example_empty [1, 2, 3, 4])
        (example_tf VMX_VMCALL_MBMAP 0 0 0 0x1000) example_ginfo (page2kva 6)
        (example_vmcs 0) [] (fun _ _ _ _ => 0) (fun _ => 0) = .ok (s', tf', true) ∧
      tf'.tf_regs.reg_rbx = 0x6000 ∧
      ept_gpa2hva s' (page2kva 6) 0x6000 = .ok (s', page2kva 1) ∧
      (∀ a, in_page 1 a → s'.mem a = 0) ∧
      mbmap_mbinfo.mmap_length = 72 := by
  obtain ⟨s', tf', h1, h2, h3, h4⟩ := C16_mbmap_page_not_written (example_empty [1, 2, 3, 4])
    (example_tf VMX_VMCALL_MBMAP 0 0 0 0x1000) example_ginfo (page2kva 6) (example_vmcs 0) []
    (fun _ _ _ _ => 0) (fun _ => 0) 1 [2, 3, 4] rfl (by decide) (by decide) rfl (by decide)
    (by decide) (by decide) (by decide) (by decide) (by decide)
  exact ⟨s', tf', h1, h2, h3, h4, by decide⟩

/-- C23: call a tree laid out by levels (`tree_inv`) one whose root is three levels
above the page tables and in which every non-empty entry above the page tables is
`page2pa(f) | __EPTE_FULL` for a table `f` one level below, no table being referred to
twice or free. An empty root is such a tree; such a tree has the shape of the claim
(every non-empty entry of the root, PDPT and PD levels has all three access bits and
the non-zero page-aligned frame address of a table of the same shape); and
`ept_lookup_gpa` (any `create`), `ept_map_hva2gpa`, `ept_page_insert` and
`ept_alloc_static` keep it, whenever they return. A lookup that fails has written no
word outside the pages that were free: no parent slot is written unless the path
below it was created. -/
theorem C23_tree_shape_kept :
    (∀ (s : KState) (r : Nat), (∀ i, i < 512 → s.mem (page2kva r + 8 * i) = 0) →
      r ∉ s.page_free_list → s.page_free_list.Nodup →
      (∀ f ∈ s.page_free_list, f ≠ 0 ∧ page2pa f < 2 ^ 64) → tree_inv s r) ∧
    (∀ (s : KState) (r : Nat), tree_inv s r → shape_inv s.mem 3 (page2kva r)) ∧
    (∀ (s : KState) (r gpa : Nat) (create : Int), tree_inv s r →
      tree_inv (ept_lookup_gpa s (page2kva r) gpa create).1 r) ∧
    (∀ (s s' : KState) (r hva gpa : Nat) (perm overwrite ret : Int), tree_inv s r →
      ept_map_hva2gpa s (page2kva r) hva gpa perm overwrite = .ok (s', ret) →
      tree_inv s' r) ∧
    (∀ (s s' : KState) (r pp gpa : Nat) (perm ret : Int), tree_inv s r →
      ept_page_insert s (page2kva r) pp gpa perm = .ok (s', ret) → tree_inv s' r) ∧
    (∀ (s s' : KState) (r : Nat) (ginfo : VmxGuestInfo) (ret : Int), tree_inv s r →
      ept_alloc_static s (page2kva r) ginfo = .ok (s', ret) → tree_inv s' r) ∧
    (∀ (s : KState) (r gpa : Nat) (create : Int), s.page_free_list.Nodup →
      (ept_lookup_gpa s (page2kva r) gpa create).2.1 < 0 →
      ∀ a, (∀ f ∈ s.page_free_list, ¬ in_page f a) →
        (ept_lookup_gpa s (page2kva r) gpa create).1.mem a = s.mem a) := by
  refine ⟨tree_inv_empty, ?_, tree_inv_lookup,
    fun s s' r hva gpa perm overwrite ret h hm =>
      tree_inv_map s s' r hva gpa perm overwrite ret h hm,
    fun s s' r pp gpa perm ret h hm => tree_inv_page_insert s s' r pp gpa perm ret h hm,
    fun s s' r ginfo ret h hm => tree_inv_alloc_static s s' r ginfo ret h hm, ?_⟩
  · rintro s r ⟨level, hr, hinv⟩
    exact shape_of_levels s level 3 r hinv hr
  · intro s r gpa create hnd hneg a ha
    have hroot : page2kva r ≠ 0 := by simpa using page2kva_ne_zero r 0
    by_cases hc : create = 0
    · rw [hc, ept_lookup_gpa_ro s _ _ hroot]
      cases walk_ro s.mem 3 (page2kva r) gpa <;> rfl
    · rw [ept_lookup_gpa_create s _ _ _ hroot hc] at hneg ⊢
      by_cases hok : (walk_create 3 s (page2kva r) gpa).2 = 0
      · rw [if_pos hok]
        exact (walk_create_fail 3 s _ gpa hnd hok).1 a ha
      · rw [if_neg hok] at hneg
        exact absurd hneg (lt_irrefl (0 : Int))

/-- C23 on an empty tree rooted at page 6 with free pages 1 to 4: the tree left by
mapping page 8 at `0x1000` has the shape of the claim. -/
theorem C23_tree_shape_kept_witness :
    shape_inv (state_of (ept_map_hva2gpa (example_empty [1, 2, 3, 4]) (page2kva 6)
      (page2kva 8) 0x1000 7 0) (example_empty [])).mem 3 (page2kva 6) :=
  C23_tree_shape_kept.2.1 _ 6
    (C23_tree_shape_kept.2.2.2.1 (example_empty [1, 2, 3, 4]) _ 6 (page2kva 8) 0x1000 7 0 0
      (C23_tree_shape_kept.1 (example_empty [1, 2, 3, 4]) 6 (fun _ _ => rfl) (by decide)
        (by decide) (by decide))
      (ok_state_of _ _ 0 (by decide)))

/-- C22: the claim fails on a host whose free pages lie at or above 2 GiB: the map keeps
the physical address of the page in an `int`, and `ept_alloc_static` does not look at
its result. On an empty tree with a guest of 1 MiB and 160 free pages from physical
`2^31`, `ept_alloc_static` returns after taking all 160 pages it asks for, and
guest-physical address 0 does not translate. With free pages from physical `2^32`
(pages `0x100000` on), it returns and guest-physical `0x1000` translates to host page
4, which was never allocated and has reference count 0. -/
theorem C22_high_pages_not_mapped :
    returned (ept_alloc_static example_high (page2kva 6) (example_ginfo_sz 0x100000)) = true ∧
      (state_of (ept_alloc_static example_high (page2kva 6) (example_ginfo_sz 0x100000))
        example_high).page_free_list = [] ∧
      value_of (ept_gpa2hva
        (state_of (ept_alloc_static example_high (page2kva 6) (example_ginfo_sz 0x100000))
          example_high) (page2kva 6) 0) = some 0 ∧
      returned (ept_alloc_static example_high4 (page2kva 6) (example_ginfo_sz 0x100000))
        = true ∧
      value_of (ept_gpa2hva
        (state_of (ept_alloc_static example_high4 (page2kva 6) (example_ginfo_sz 0x100000))
          example_high4) (page2kva 6) 0x1000) = some (page2kva 4) ∧
      (state_of (ept_alloc_static example_high4 (page2kva 6) (example_ginfo_sz 0x100000))
        example_high4).pp_ref 4 = 0 ∧
      4 ∉ example_high4.page_free_list := by
  decide

/-- The eager population with pages below `2^31`: start from an empty root page `r` that is not free, with a free
list of distinct, non-zero, tracked pages without a reference and with physical
addresses below `2^31`, four of them for every page to map, and let `phys_sz` be at
most `2^48`. Then `ept_alloc_static` returns 0; afterwards every page-aligned address
in `[0, 0xA0000)` and in `[0x100000, phys_sz)` translates to a host page with reference
count 1, two different such addresses translate to different host pages, and no
address in `[0xA0000, 0x100000)` translates. -/
theorem eager_population_low (s : KState) (r : Nat) (ginfo : VmxGuestInfo)
    (hz : ∀ i, i < 512 → s.mem (page2kva r + 8 * i) = 0)
    (hr : r ∉ s.page_free_list) (hnd : s.page_free_list.Nodup)
    (hfree : ∀ f ∈ s.page_free_list,
      f ≠ 0 ∧ f < s.npages ∧ page2pa f < 2 ^ 31 ∧ s.pp_ref f = 0)
    (hsz : ginfo.phys_sz ≤ 2 ^ 48)
    (hlen : 4 * (160 + (ginfo.phys_sz - 0x100000 + 4095) / 4096)
      ≤ s.page_free_list.length) :
    ∃ s', ept_alloc_static s (page2kva r) ginfo = .ok (s', 0) ∧
      (∀ g, g % PGSIZE = 0 → (g < 0xA0000 ∨ (0x100000 ≤ g ∧ g < ginfo.phys_sz)) →
        ∃ p, ept_gpa2hva s' (page2kva r) g = .ok (s', page2kva p) ∧ s'.pp_ref p = 1) ∧
      (∀ g g', g % PGSIZE = 0 → g' % PGSIZE = 0 →
        (g < 0xA0000 ∨ (0x100000 ≤ g ∧ g < ginfo.phys_sz)) →
        (g' < 0xA0000 ∨ (0x100000 ≤ g' ∧ g' < ginfo.phys_sz)) → g ≠ g' →
        value_of (ept_gpa2hva s' (page2kva r) g)
          ≠ value_of (ept_gpa2hva s' (page2kva r) g')) ∧
      (∀ g, 0xA0000 ≤ g → g < 0x100000 → ept_gpa2hva s' (page2kva r) g = .ok (s', 0)) := by
  have hroot : page2kva r ≠ 0 := by simpa using page2kva_ne_zero r 0
  obtain ⟨s', done, hrun, ⟨-, -, hj2, hj3, hj4, -⟩, hall, honly⟩ :=
    alloc_static_spec s r ginfo hz hr hnd hfree hsz hlen
  refine ⟨s', hrun, ?_, ?_, ?_⟩
  · intro g hg hb
    obtain ⟨p, hp⟩ := hall g hg hb
    obtain ⟨a, b, -⟩ := hj2 (g, p) hp
    exact ⟨p, by rw [ept_gpa2hva_eq _ _ _ hroot, a], b⟩
  · intro g g' hg hg' hb hb' hne
    obtain ⟨p, hp⟩ := hall g hg hb
    obtain ⟨p', hp'⟩ := hall g' hg' hb'
    obtain ⟨a, -, -⟩ := hj2 (g, p) hp
    obtain ⟨a', -, -⟩ := hj2 (g', p') hp'
    rw [ept_gpa2hva_value, ept_gpa2hva_value, if_neg hroot, if_neg hroot, a, a']
    intro e
    have e1 : p = p' := page2kva_inj p p' (by simpa using e)
    have e2 : (g, p) = (g', p') :=
      List.inj_on_of_nodup_map hj4 hp hp' e1
    exact hne (congrArg Prod.fst e2)
  · intro g h1 h2
    have h0 : leaf_entry s'.mem 3 (page2kva r) g = 0 := by
      apply hj3
      intro gp hgp
      obtain ⟨a, b, c⟩ := honly gp hgp
      refine idx_differ_of_page gp.1 g b (by norm_num at h2 ⊢; omega) ?_
      omega
    rw [ept_gpa2hva_eq _ _ _ hroot, h0, hva_of_entry_zero]

/-- The eager population on an empty tree rooted at page 6 with pages 16 to 16015 free and a
guest of 16 MiB: guest-physical `0x5000` and `0x200000` translate, to different pages,
and `0xB8000` does not. -/
theorem eager_population_low_example :
    ∃ s', ept_alloc_static example_static (page2kva 6) example_ginfo = .ok (s', 0) ∧
      (∃ p, ept_gpa2hva s' (page2kva 6) 0x5000 = .ok (s', page2kva p) ∧ s'.pp_ref p = 1) ∧
      value_of (ept_gpa2hva s' (page2kva 6) 0x5000)
        ≠ value_of (ept_gpa2hva s' (page2kva 6) 0x200000) ∧
      ept_gpa2hva s' (page2kva 6) 0xB8000 = .ok (s', 0) := by
  obtain ⟨s', h1, h2, h3, h4⟩ := eager_population_low example_static 6 example_ginfo
    (fun _ _ => rfl)
    (by
      show 6 ∉ List.range' 16 16000
      rw [List.mem_range'_1]
      omega)
    (List.nodup_range' 16 16000)
    (by
      intro f hf
      have hf' : f ∈ List.range' 16 16000 := hf
      rw [List.mem_range'_1] at hf'
      refine ⟨by omega, ?_, ?_, rfl⟩
      · show f < 0x10000
        omega
      · rw [page2pa_eq]
        omega)
    (by decide)
    (by
      show 4 * (160 + (0x1000000 - 0x100000 + 4095) / 4096) ≤ (List.range' 16 16000).length
      rw [List.length_range'])
  exact ⟨s', h1, h2 0x5000 (by decide) (Or.inl (by norm_num)),
    h3 0x5000 0x200000 (by decide) (by decide) (Or.inl (by norm_num))
      (Or.inr ⟨by norm_num, by decide⟩) (by norm_num),
    h4 0xB8000 (by norm_num) (by norm_num)⟩

end Hypervisor
